import Mathlib

/-!
# SeqInfo: record store and filter engine

A shallow embedding of `seqinfo_double.cpp` (and, where a claim names it, of
`seqinfo.cpp`), followed by the theorems that settle the specification's claims.

Conventions of the embedding

* `int32_t`, `int16_t` fields and variables are `Int`; `uint16_t`/`uint32_t` are `Nat`.
* `double` fields and variables are `ℚ`.  The doubles the modelled functions handle are
  finite: record fields and prompt bounds are read by `operator>>`, which never yields a
  NaN or an infinity, and `primesfind` is called with the `elD` of a record.  The
  functions only compare them (`<`, `>`, `==`), and on finite doubles these comparisons
  are the comparisons of the rational values.
* `std::vector<reginaDataLine>` is `List reginaDataLine`; an iterator is an `Int` position.
* Interactive input is passed in as data: a `Reply` is the content of one line read
  by `std::getline`, already split into fields.
-/

namespace SeqInfo

/-! ## Data model -/

/-- The value of `std::numeric_limits<int32_t>::max()`. -/
def int32Max : Int := 2147483647

/-- The value of `std::numeric_limits<int32_t>::min()`. -/
def int32Min : Int := -2147483648

/-- The value of `std::numeric_limits<double>::max()`, that is `(2^53 - 1) * 2^971`. -/
def doubleMax : ℚ :=
  179769313486231570814527423731704356798070567525844996598917476803157260780028538760589558632766878171540458953514382464234321326889464182768467546703537516986049910576551282076245490090389328944075868508455133942304583236903222948165808559332123348274797826204144723168738177180919299881250404026184124858368

/-- One record of the store: `struct reginaDataLine`. -/
structure reginaDataLine where
  elA : Int
  elB : Int
  elC : Int
  elD : ℚ
  elE : Int
  elF : Int
  elG : Int
  elH : Int
  elI : Int
  elJ : Int
  elK : Int
  elL : Int
  elM : Int
  elN : Int
  elO : ℚ
  elP : ℚ
  elQ : ℚ
  elR : ℚ
  elS : ℚ
  elT : ℚ
  ulist : Bool
deriving DecidableEq

/-- The store: `struct reginaData`. -/
structure reginaData where
  regina : List reginaDataLine
  ccount : Nat
  ocount : Nat
  pcount : Nat
  lastIndex : Int
  lastIndexSize : Int
  indexShift : Nat
deriving DecidableEq

/-! ## Reading a pair of numbers from a reply line -/

/-- The content of one reply line as `ss >> firstTerm >> secondTerm` sees it. -/
inductive Reply (T : Type) where
  /-- The line is empty or holds only white space. -/
  | blank : Reply T
  /-- The first field of the line is not a number (for instance `abc`). -/
  | junk : Reply T
  /-- One number, then the end of the line. -/
  | one (x : T) : Reply T
  /-- One number, then a field that is not a number. -/
  | oneJunk (x : T) : Reply T
  /-- Two numbers (what follows them is not read). -/
  | two (x y : T) : Reply T

/-- The statement `ss >> firstTerm >> secondTerm` of `getParamPair`, started with the
values `first0`, `second0` in the two variables.  Returns the two variables and
`ss.fail()`.  Formatted extraction follows the C++11 rules the program is compiled
under: when the stream is exhausted before a field starts, the variable is left
untouched; when a field is present but is not a number, zero is stored; in both cases
the fail bit is set and the following extraction does nothing. -/
def extractPair {T : Type} [Zero T] (first0 second0 : T) : Reply T → T × T × Bool
  | .blank => (first0, second0, true)
  | .junk => (0, second0, true)
  | .one x => (x, second0, true)
  | .oneJunk x => (x, 0, true)
  | .two x y => (x, y, false)

/-- The template `getParamPair<T>`: `tmax` is `std::numeric_limits<T>::max()` and `reply`
the line read from the terminal; all four optional arguments are passed explicitly. -/
def getParamPair {T : Type} [Zero T] [LT T] [DecidableEq T] [DecidableRel (fun (x y : T) => x < y)]
    (tmax : T) (reply : Reply T) (minFirstTerm default2Term mac2Term : T) (oneToMin : Bool) :
    T × T :=
  match extractPair tmax tmax reply with
  | (firstTerm, secondTerm, fail) =>
    let read : T × T :=
      if fail then
        -- Read 0 or 1 int on the line
        if firstTerm ≠ tmax then
          -- Read only one int
          (if oneToMin then minFirstTerm else firstTerm, firstTerm)
        else
          -- No int on input. Use default value
          (minFirstTerm, default2Term)
      else (firstTerm, secondTerm)
    let firstTerm := if read.1 < minFirstTerm then minFirstTerm else read.1
    let secondTerm := if mac2Term ≠ tmax ∧ mac2Term < read.2 then mac2Term else read.2
    (firstTerm, secondTerm)

/-- The call `getParamPair<int32_t>(message)` with every optional argument defaulted. -/
def getParamPairInt (reply : Reply Int) : Int × Int :=
  getParamPair int32Max reply 0 10000 int32Max false

/-- The call `getParamPair<double>(message)` with every optional argument defaulted. -/
def getParamPairDouble (reply : Reply ℚ) : ℚ × ℚ :=
  getParamPair doubleMax reply 0 10000 doubleMax false

/-! ## The filter engine: `advanced` -/

/-- The values the prompts of `advanced` leave in its local variables. -/
structure Params where
  a : Int
  b : Int
  c : Int
  d : Int
  e : Int
  w : Int
  x : Int
  f : Int
  g : Int
  h : Int
  j : Int
  k : Int
  l : Int
  m : Int
  n : Int
  o : Int
  p : Int
  q : Int
  r : Int
  s : Int
  t : Int
  u : Int
  v : Int
  da : ℚ
  db : ℚ
  dc : ℚ
  dd : ℚ
  de : ℚ
  df : ℚ
  dg : ℚ
  dh : ℚ
  di : ℚ
  dj : ℚ
  dk : ℚ
  dl : ℚ
deriving DecidableEq

/-- What the user types at the prompts of `advanced`, in the order they are asked. -/
structure Replies where
  modulus : Reply Int
  range : Reply Int
  selector : Char
  iterations : Reply Int
  minimums : Reply Int
  maximums : Reply Int
  parity : Reply Int
  evenAbundant : Reply Int
  evenDeficient : Reply Int
  oddDeficient : Reply Int
  oddAbundant : Reply Int
  downDriver : Reply Int
  smallestQuotient : Reply ℚ
  largestQuotient : Reply ℚ
  arithMean : Reply ℚ
  geoMean : Reply ℚ
  minDigits : Reply ℚ
  maxDigits : Reply ℚ
  yn : Char

/-- The `switch (input)` of `advanced`: the categorical selector `e`. -/
def selectorCode (input : Char) : Int :=
  if input = 'p' then 1
  else if input = 'o' then 0
  else if input = 'c' then -1
  else 2

/-- Lines 307-336 of `advanced`: the eighteen prompts, given `indexMax`. -/
def readParams (indexMax : Int) (r : Replies) : Params :=
  let ab := getParamPair int32Max r.modulus 0 1 indexMax true
  let cd := getParamPair int32Max r.range 2 indexMax indexMax false
  let e := selectorCode r.selector
  let wx := getParamPair int32Max r.iterations 0 3000 int32Max false
  let fg := getParamPairInt r.minimums
  let hj := getParamPairInt r.maximums
  let kl := getParamPairInt r.parity
  let mn := getParamPairInt r.evenAbundant
  let op := getParamPairInt r.evenDeficient
  let qr := getParamPairInt r.oddDeficient
  let st := getParamPairInt r.oddAbundant
  let uv := getParamPairInt r.downDriver
  let dab := getParamPairDouble r.smallestQuotient
  let dcd := getParamPairDouble r.largestQuotient
  let def_ := getParamPairDouble r.arithMean
  let dgh := getParamPairDouble r.geoMean
  let dij := getParamPairDouble r.minDigits
  let dkl := getParamPairDouble r.maxDigits
  { a := ab.1, b := ab.2, c := cd.1, d := cd.2, e := e, w := wx.1, x := wx.2,
    f := fg.1, g := fg.2, h := hj.1, j := hj.2, k := kl.1, l := kl.2, m := mn.1, n := mn.2,
    o := op.1, p := op.2, q := qr.1, r := qr.2, s := st.1, t := st.2, u := uv.1, v := uv.2,
    da := dab.1, db := dab.2, dc := dcd.1, dd := dcd.2, de := def_.1, df := def_.2,
    dg := dgh.1, dh := dgh.2, di := dij.1, dj := dij.2, dk := dkl.1, dl := dkl.2 }

/-- The running result of a scan: the sequence numbers handed to the output
statements so far (in the order they were produced), `rcount` and `crlf`.  Whether a
number is printed, written to `results.txt`, or only counted depends on the `y/c/f`
answer and belongs to the rendering layer; `emitted` records the matches themselves.
`rcount` is a `uint32_t`: its increment is taken modulo `2^32`. -/
structure ScanState where
  emitted : List Int
  rcount : Nat
  crlf : Bool
deriving DecidableEq

/-- How a call of `advanced` ends. -/
inductive Outcome where
  /-- The scan ran to its end and the count was reported. -/
  | done (st : ScanState) : Outcome
  /-- The answer to the final `y/n/c/f` prompt was not `y`, `c` or `f`: nothing is scanned. -/
  | declined : Outcome
  /-- The `assert(false)` at the top of `advanced` fired (empty or oversized store). -/
  | assertFailed : Outcome
  /-- The scan dereferenced position `pos`, which is outside the vector (undefined
  behaviour in C++); `st` is what had been produced until then. -/
  | outOfBounds (pos : Int) (st : ScanState) : Outcome
  /-- The scan evaluated `line.elA % b` with `b = 0`, or `INT_MIN % -1` (undefined
  behaviour in C++); `st` is what had been produced until then. -/
  | divideFault (st : ScanState) : Outcome
  /-- The model ran out of fuel (never returned by `advancedScan`). -/
  | fuelOut : Outcome
deriving DecidableEq

/-- The C++ expression `x % b` on `int32_t`: truncated remainder, undefined for `b = 0`
and for `INT_MIN % -1`. -/
def cRem (x b : Int) : Option Int :=
  if b = 0 ∨ (x = int32Min ∧ b = -1) then none else some (Int.tmod x b)

/-- The second assignment to `show` in the body of the scan (lines 379-397). -/
def filterShow (uselist : Bool) (P : Params) (line : reginaDataLine) : Bool :=
  !((uselist == true && line.ulist == false) ||
    (decide (P.e = -1) && decide (line.elB > -1)) ||
    (decide (P.e ≠ line.elB) && decide (P.e ≠ 2)) ||
    (decide (line.elC < P.w) || decide (line.elC > P.x)) ||
    (decide (line.elG < P.f) || decide (line.elG > P.g)) ||
    (decide (line.elH < P.h) || decide (line.elH > P.j)) ||
    (decide (line.elI < P.k) || decide (line.elI > P.l)) ||
    (decide (line.elJ < P.m) || decide (line.elJ > P.n)) ||
    (decide (line.elK < P.o) || decide (line.elK > P.p)) ||
    (decide (line.elL < P.q) || decide (line.elL > P.r)) ||
    (decide (line.elM < P.s) || decide (line.elM > P.t)) ||
    (decide (line.elN < P.u) || decide (line.elN > P.v)) ||
    (decide (line.elO < P.da) || decide (line.elO > P.db)) ||
    (decide (line.elP < P.dc) || decide (line.elP > P.dd)) ||
    (decide (line.elQ < P.de) || decide (line.elQ > P.df)) ||
    (decide (line.elR < P.dg) || decide (line.elR > P.dh)) ||
    (decide (line.elS < P.di) || decide (line.elS > P.dj)) ||
    (decide (line.elT < P.dk) || decide (line.elT > P.dl)))

/-- The body of the scan (the lambda of lines 372-411) run on one record; `none` is the
undefined remainder. -/
def visit (uselist : Bool) (P : Params) (st : ScanState) (line : reginaDataLine) :
    Option ScanState :=
  match cRem line.elA P.b with
  | none => none
  | some rem =>
    if P.a ≠ rem then some st
    else if filterShow uselist P line then
      some
        { emitted := st.emitted ++ [line.elA], rcount := (st.rcount + 1) % 2 ^ 32, crlf := true }
    else some st

/-- The loop `std::for_each(std::next(begin, first), std::next(begin, last), body)`:
`for (; pos != last; ++pos) body(v[pos])`, where reading a position outside the vector
stops the run with `outOfBounds`. -/
def forEach (v : List reginaDataLine) (last : Int)
    (body : ScanState → reginaDataLine → Option ScanState) :
    Nat → Int → ScanState → Outcome
  | 0, _, _ => .fuelOut
  | fuel + 1, pos, st =>
    if pos = last then .done st
    else if pos < 0 then .outOfBounds pos st
    else
      match v[pos.toNat]? with
      | none => .outOfBounds pos st
      | some line =>
        match body st line with
        | none => .divideFault st
        | some st' => forEach v last body fuel (pos + 1) st'

/-- Lines 358-423 of `advanced`: the scan of the records from `c` to `d`.  The two
subtractions are taken in `Int`: with `2 <= c`, `d <= indexMax` and `indexShift < 65536`
they can leave `int32_t` only for `d < INT32_MIN + 65535`, an end far below every begin. -/
def advancedScan (data : reginaData) (uselist : Bool) (P : Params) : Outcome :=
  let firstIndex : Int := P.c - data.indexShift
  let lastIndex : Int := P.d - data.indexShift + 1
  forEach data.regina lastIndex (visit uselist P) (data.regina.length + 1) firstIndex
    { emitted := [], rcount := 0, crlf := false }

/-- The local `size_t reginaSize = vLines.size() - 1` of `advanced`: the unsigned
subtraction wraps to `2^64 - 1` on an empty vector. -/
def reginaSize (data : reginaData) : Nat :=
  if data.regina.length = 0 then 2 ^ 64 - 1 else data.regina.length - 1

/-- The function `advanced(data, uselist)`, compiled as the header of the file says
(`g++ <filename>`, so `assert` is active).  The store is received by `const` reference
and the body of the scan receives each record by `const` reference: no field of the
store is written, so the store after the call is the store before it. -/
def advanced (data : reginaData) (uselist : Bool) (r : Replies) : reginaData × Outcome :=
  if reginaSize data < int32Max.toNat then
    let indexMax : Int := reginaSize data
    let P := readParams indexMax r
    if r.yn = 'n' ∨ (r.yn ≠ 'y' ∧ r.yn ≠ 'c' ∧ r.yn ≠ 'f') then (data, .declined)
    else (data, advancedScan data uselist P)
  else (data, .assertFailed)

/-- What a run had handed to the output statements when it ended, or when it left
defined behaviour.  For `.outOfBounds` and `.divideFault` this is only what came before
the undefined step: `std::for_each` checks no bound, so the program itself need not stop
there and may emit more; for these two outcomes the value is a prefix of what the program
prints, not the whole of it. -/
def Outcome.produced : Outcome → ScanState
  | .done st => st
  | .outOfBounds _ st => st
  | .divideFault st => st
  | .declined => { emitted := [], rcount := 0, crlf := false }
  | .assertFailed => { emitted := [], rcount := 0, crlf := false }
  | .fuelOut => { emitted := [], rcount := 0, crlf := false }

/-! ## Point lookup: `primesfind` -/

/-- The body of the scan of `primesfind` (lines 453-466) run on one record: returns the
record with its tag rewritten and the running result. -/
def findVisit (primeToSearch : ℚ) (st : ScanState) (line : reginaDataLine) :
    reginaDataLine × ScanState :=
  if line.elD = primeToSearch then
    ({ line with ulist := true },
      { emitted := st.emitted ++ [line.elA], rcount := (st.rcount + 1) % 2 ^ 32, crlf := st.crlf })
  else ({ line with ulist := false }, st)

/-- The loop `std::for_each(begin, end, body)` of `primesfind` over the whole vector,
started with the records already visited (`seen`) and the running result. -/
def findLoop (primeToSearch : ℚ) :
    List reginaDataLine → List reginaDataLine → ScanState → List reginaDataLine × ScanState
  | [], seen, st => (seen, st)
  | line :: rest, seen, st =>
    findLoop primeToSearch rest (seen ++ [(findVisit primeToSearch st line).1])
      (findVisit primeToSearch st line).2

/-- Lines 450-467 of `primesfind`: the scan, returning the store with the rewritten tags
and the list and count of matches. -/
def primesfindScan (data : reginaData) (primeToSearch : ℚ) : reginaData × ScanState :=
  ({ data with regina := (findLoop primeToSearch data.regina []
        { emitted := [], rcount := 0, crlf := false }).1 },
    (findLoop primeToSearch data.regina [] { emitted := [], rcount := 0, crlf := false }).2)

/-- What a call of `primesfind` leaves behind: the store, the matches it listed (`none`
when the `y/n/c/f` answer declined the listing) and the outcome of the chained `advanced`
when it was run. -/
structure FindResult where
  data : reginaData
  listed : Option ScanState
  chained : Option Outcome

/-- The function `primesfind(data, primeToSearch)`: `yn` answers the listing prompt,
`yn2` the chaining prompt and `r` the prompts of the chained `advanced`. -/
def primesfind (data : reginaData) (primeToSearch : ℚ) (yn yn2 : Char) (r : Replies) :
    FindResult :=
  if yn = 'n' ∨ (yn ≠ 'y' ∧ yn ≠ 'c' ∧ yn ≠ 'f') then
    { data := data, listed := none, chained := none }
  else
    let scan := primesfindScan data primeToSearch
    if scan.2.rcount > 1 then
      if yn2 = 'y' then
        { data := (advanced scan.1 true r).1, listed := some scan.2,
          chained := some (advanced scan.1 true r).2 }
      else { data := scan.1, listed := some scan.2, chained := none }
    else { data := scan.1, listed := some scan.2, chained := none }

/-! ## Loading the store -/

/-- A freshly constructed `reginaData` (the default member initialisers). -/
def emptyData : reginaData :=
  { regina := [], ccount := 0, ocount := 0, pcount := 0, lastIndex := 0, lastIndexSize := 0,
    indexShift := 2 }

/-- The body of the loop of `operator>>(std::istream&, reginaData&)` for one parsed line.
`operator>>` for `reginaDataLine` clears `ulist` before it fills the record. -/
def loadLine (i : reginaData) (line : reginaDataLine) : reginaData :=
  let i := { i with regina := i.regina ++ [{ line with ulist := false }] }
  if line.elB > 0 then { i with pcount := (i.pcount + 1) % 2 ^ 32 }
  else if line.elB = 0 then { i with ocount := (i.ocount + 1) % 2 ^ 32 }
  else if line.elB < 0 then { i with ccount := (i.ccount + 1) % 2 ^ 32 }
  else i

/-- The function `operator>>(std::istream&, reginaData&)` on the lines the stream parses. -/
def readStream (lines : List reginaDataLine) (i : reginaData) : reginaData :=
  lines.foldl loadLine i

/-- The function `loadReginaFile` on an opened file: `lines` are the records parsed
before the stream stopped and `eof` tells whether it stopped at the end of the file.
`none` is `front()` on an empty vector.  `lastIndexSize` is the number of decimal
digits of `lastIndex` (computed through `log10` in the program, for `lastIndex >= 1`). -/
def loadReginaFile (lines : List reginaDataLine) (eof : Bool) (data : reginaData) :
    Option (Bool × reginaData) :=
  let data := readStream lines data
  if eof = false then some (false, data)
  else
    match data.regina.head?, data.regina.getLast? with
    | some front, some back =>
      some (true, { data with
        indexShift := (front.elA % 65536).toNat
        lastIndex := back.elA
        lastIndexSize := if 1 ≤ back.elA then (Nat.log 10 back.elA.toNat + 1 : Nat) else 0 })
    | _, _ => none

/-! ## The filter of `seqinfo.cpp` -/

/-- The record of `seqinfo.cpp`: `struct seqdata` (the sequence number is the array index). -/
structure seqdata where
  elB : Int
  elC : Int
  elD : String
  elE : Int
  elF : Int
  elG : Int
  elH : Int
  elI : Int
  elJ : Int
  elK : Int
  elL : Int
  elM : Int
  elN : Int
  ulist : Bool
deriving DecidableEq

/-- The precision elements of a record of `seqinfo.cpp`: `struct seqdatad`. -/
structure seqdatad where
  elO : ℚ
  elP : ℚ
  elQ : ℚ
  elR : ℚ
  elS : ℚ
  elT : ℚ
deriving DecidableEq

/-- Lines 549-588 of `advanced` in `seqinfo.cpp`: the value of `show` for index `i` with
records `seqd[i] = sd` and `seqdd[i] = sdd`; `none` is the undefined remainder. -/
def showFlag (uselist : Bool) (P : Params) (i : Int) (sd : seqdata) (sdd : seqdatad) :
    Option Bool :=
  match cRem i P.b with
  | none => none
  | some rem =>
    let sh := true
    let sh := if P.a ≠ rem then false else sh
    let sh := if sh = true ∧ uselist = true ∧ sd.ulist = false then false else sh
    let sh := if sh = true ∧ P.e = -1 ∧ sd.elB > -1 then false else sh
    let sh := if sh = true ∧ P.e ≠ sd.elB ∧ P.e ≠ 2 then false else sh
    let sh := if sh = true ∧ (sd.elC < P.w ∨ sd.elC > P.x) then false else sh
    let sh := if sh = true ∧ (sd.elG < P.f ∨ sd.elG > P.g) then false else sh
    let sh := if sh = true ∧ (sd.elH < P.h ∨ sd.elH > P.j) then false else sh
    let sh := if sh = true ∧ (sd.elI < P.k ∨ sd.elI > P.l) then false else sh
    let sh := if sh = true ∧ (sd.elJ < P.m ∨ sd.elJ > P.n) then false else sh
    let sh := if sh = true ∧ (sd.elK < P.o ∨ sd.elK > P.p) then false else sh
    let sh := if sh = true ∧ (sd.elL < P.q ∨ sd.elL > P.r) then false else sh
    let sh := if sh = true ∧ (sd.elM < P.s ∨ sd.elM > P.t) then false else sh
    let sh := if sh = true ∧ (sd.elN < P.u ∨ sd.elN > P.v) then false else sh
    let sh := if sh = true ∧ (sdd.elO < P.da ∨ sdd.elO > P.db) then false else sh
    let sh := if sh = true ∧ (sdd.elP < P.dc ∨ sdd.elP > P.dd) then false else sh
    let sh := if sh = true ∧ (sdd.elQ < P.de ∨ sdd.elQ > P.df) then false else sh
    let sh := if sh = true ∧ (sdd.elR < P.dg ∨ sdd.elR > P.dh) then false else sh
    let sh := if sh = true ∧ (sdd.elS < P.di ∨ sdd.elS > P.dj) then false else sh
    let sh := if sh = true ∧ (sdd.elT < P.dk ∨ sdd.elT > P.dl) then false else sh
    some sh

/-! ## Vocabulary of the statements -/

/-- The invariant the program relies on after a successful load (comment at lines
362-366 and assignments at lines 612-613): the record at position `i` carries sequence
number `indexShift + i`, and `lastIndex` is the sequence number of the last record. -/
structure Loaded (data : reginaData) : Prop where
  nonempty : data.regina ≠ []
  contiguous : ∀ (i : Nat) (line : reginaDataLine),
    data.regina[i]? = some line → line.elA = (data.indexShift : Int) + i
  last : data.lastIndex = (data.indexShift : Int) + data.regina.length - 1

/-- The record of the store that carries sequence number `n`, under the index
arithmetic of the program (`vLines[n - indexShift]`). -/
def recordOf (data : reginaData) (n : Int) : Option reginaDataLine :=
  if n < data.indexShift then none else data.regina[(n - data.indexShift).toNat]?

/-- The records a scan from `c` to `d` visits when it stays inside the vector. -/
def scannedRange (data : reginaData) (P : Params) : List reginaDataLine :=
  (data.regina.drop (P.c - data.indexShift).toNat).take (P.d + 1 - P.c).toNat

/-- The range `[c, d]` keeps both iterators of the scan inside the vector. -/
def InRange (data : reginaData) (P : Params) : Prop :=
  (data.indexShift : Int) ≤ P.c ∧ P.c ≤ P.d + 1 ∧
    P.d - data.indexShift + 1 ≤ data.regina.length

/-- The fifteen interval predicates of the filter, as the specification words them:
`min <= value <= max` with both bounds inclusive. -/
def withinIntervals (P : Params) (line : reginaDataLine) : Prop :=
  (P.w ≤ line.elC ∧ line.elC ≤ P.x) ∧ (P.f ≤ line.elG ∧ line.elG ≤ P.g) ∧
  (P.h ≤ line.elH ∧ line.elH ≤ P.j) ∧ (P.k ≤ line.elI ∧ line.elI ≤ P.l) ∧
  (P.m ≤ line.elJ ∧ line.elJ ≤ P.n) ∧ (P.o ≤ line.elK ∧ line.elK ≤ P.p) ∧
  (P.q ≤ line.elL ∧ line.elL ≤ P.r) ∧ (P.s ≤ line.elM ∧ line.elM ≤ P.t) ∧
  (P.u ≤ line.elN ∧ line.elN ≤ P.v) ∧ (P.da ≤ line.elO ∧ line.elO ≤ P.db) ∧
  (P.dc ≤ line.elP ∧ line.elP ≤ P.dd) ∧ (P.de ≤ line.elQ ∧ line.elQ ≤ P.df) ∧
  (P.dg ≤ line.elR ∧ line.elR ≤ P.dh) ∧ (P.di ≤ line.elS ∧ line.elS ≤ P.dj) ∧
  (P.dk ≤ line.elT ∧ line.elT ≤ P.dl)

instance (P : Params) (line : reginaDataLine) : Decidable (withinIntervals P line) := by
  unfold withinIntervals; infer_instance

/-- The whole test of the body of the scan on one record whose remainder is defined:
the modulus test followed by `filterShow`. -/
def accepts (uselist : Bool) (P : Params) (line : reginaDataLine) : Bool :=
  decide (P.a = Int.tmod line.elA P.b) && filterShow uselist P line

/-- The scan body folded over a list of records, without any index arithmetic. -/
def runLines (body : ScanState → reginaDataLine → Option ScanState) :
    ScanState → List reginaDataLine → Outcome
  | st, [] => .done st
  | st, line :: rest =>
    match body st line with
    | none => .divideFault st
    | some st' => runLines body st' rest

/-! ## Test stores -/

/-- A record with sequence number `n`, termination kind `kind`, terminal value `term`,
every other field zero and the tag cleared. -/
def mkLine (n kind : Int) (term : ℚ) : reginaDataLine :=
  { elA := n, elB := kind, elC := 0, elD := term, elE := 0, elF := 0, elG := 0, elH := 0,
    elI := 0, elJ := 0, elK := 0, elL := 0, elM := 0, elN := 0, elO := 0, elP := 0,
    elQ := 0, elR := 0, elS := 0, elT := 0, ulist := false }

/-- The store obtained by loading the lines `first, first + 1, ..., first + count - 1`,
all prime-terminated with terminal value 7 (the empty store when nothing loads). -/
def storeFrom (first : Int) (count : Nat) : reginaData :=
  match loadReginaFile ((List.range count).map (fun i => mkLine (first + i) 1 7)) true
      emptyData with
  | some (_, data) => data
  | none => emptyData

/-- Every prompt answered with an empty line, selector `a`, final answer `y`. -/
def blankReplies : Replies :=
  { modulus := .blank, range := .blank, selector := 'a', iterations := .blank,
    minimums := .blank, maximums := .blank, parity := .blank, evenAbundant := .blank,
    evenDeficient := .blank, oddDeficient := .blank, oddAbundant := .blank,
    downDriver := .blank, smallestQuotient := .blank, largestQuotient := .blank,
    arithMean := .blank, geoMean := .blank, minDigits := .blank, maxDigits := .blank,
    yn := 'y' }

/-- The parameters every prompt leaves when answered with an empty line on a store of
more than one record, with the range set to `[c, d]`. -/
def defaultParams (c d : Int) : Params :=
  { a := 0, b := 1, c := c, d := d, e := 2, w := 0, x := 3000, f := 0, g := 10000, h := 0,
    j := 10000, k := 0, l := 10000, m := 0, n := 10000, o := 0, p := 10000, q := 0,
    r := 10000, s := 0, t := 10000, u := 0, v := 10000, da := 0, db := 10000, dc := 0,
    dd := 10000, de := 0, df := 10000, dg := 0, dh := 10000, di := 0, dj := 10000, dk := 0,
    dl := 10000 }

/-- The loaded store `2..5` in which record 3 is an open-ended sequence of 5000 terms. -/
def storeLongRun : reginaData :=
  match loadReginaFile
      [mkLine 2 1 7, { mkLine 3 0 3 with elC := 5000 }, mkLine 4 1 7, mkLine 5 1 7] true
      emptyData with
  | some (_, data) => data
  | none => emptyData

/-- The loaded store `2..10`, all prime-terminated, in which the records 3, 4 and 7 end
with the prime 13 and the others with the prime 7. -/
def storeTwoPrimes : reginaData :=
  match loadReginaFile
      ((List.range 9).map
        (fun i => mkLine (2 + i) 1 (if i = 1 ∨ i = 2 ∨ i = 5 then 13 else 7))) true
      emptyData with
  | some (_, data) => data
  | none => emptyData

/-- A record of `seqinfo.cpp` with termination kind `kind`, every other field zero. -/
def mkSeqdata (kind : Int) : seqdata :=
  { elB := kind, elC := 0, elD := "", elE := 0, elF := 0, elG := 0, elH := 0, elI := 0,
    elJ := 0, elK := 0, elL := 0, elM := 0, elN := 0, ulist := false }

/-- The precision elements of a record of `seqinfo.cpp`, all zero. -/
def zeroSeqdatad : seqdatad :=
  { elO := 0, elP := 0, elQ := 0, elR := 0, elS := 0, elT := 0 }

/-- The tag `primesfind` leaves on a record. -/
def tagFor (primeToSearch : ℚ) (line : reginaDataLine) : reginaDataLine :=
  { line with ulist := decide (line.elD = primeToSearch) }

/-! ## Grouping by terminal value: `primeslist` of `seqinfo_double.cpp` -/

/-- The statement `primeCountMap[key] += 1` on a `std::map<double, uint32_t>`, held as
the list of its entries in ascending key order: a missing key is inserted with the
value-initialised count 0 and then incremented. -/
def mapIncrement : List (ℚ × Nat) → ℚ → List (ℚ × Nat)
  | [], key => [(key, 1)]
  | (k, n) :: rest, key =>
    if key < k then (key, 1) :: (k, n) :: rest
    else if key = k then (k, (n + 1) % 2 ^ 32) :: rest
    else (k, n) :: mapIncrement rest key

/-- Lines 213-223 of `primeslist`: the map built by the pass over the whole vector. -/
def primeCountMap (data : reginaData) : List (ℚ × Nat) :=
  data.regina.foldl (fun m line => if line.elB = 1 then mapIncrement m line.elD else m) []

/-- The function `primeslist(data)`: `yn` answers the `Continue?` prompt; the result is
the map written to `primescount.txt`, `none` when the answer is not `y`. -/
def primeslist (data : reginaData) (yn : Char) : Option (List (ℚ × Nat)) :=
  if yn = 'y' then some (primeCountMap data) else none

/-- The sum of the counts of a map. -/
def mapTotal (m : List (ℚ × Nat)) : Nat :=
  (m.map (fun entry => entry.2)).sum

/-! ## The command `p##`: `managePrimeCommand` -/

/-- The text that follows the letter `p` in a command, as `managePrimeCommand` sees it. -/
inductive PrimeArg where
  /-- The command is the single letter `p`. -/
  | absent : PrimeArg
  /-- The text is a number: `std::stod` returns `value`. -/
  | value (v : ℚ) : PrimeArg
  /-- The text is not a number: `std::stod` throws `std::invalid_argument`. -/
  | invalid : PrimeArg

/-- How a call of `managePrimeCommand` ends. -/
inductive PrimeCommandResult where
  /-- The command was `p`: `primeslist` ran, with its result. -/
  | counted (m : Option (List (ℚ × Nat))) : PrimeCommandResult
  /-- A prime-terminated record with the value exists: `primesfind` ran, with its result. -/
  | found (res : FindResult) : PrimeCommandResult
  /-- No prime-terminated record ends with the value: only the message is printed. -/
  | notFound : PrimeCommandResult
  /-- The exception of `std::stod` left the function (nothing catches it). -/
  | threw : PrimeCommandResult

/-- The function `managePrimeCommand(data, commandStr)`: `yn`, `yn2` and `r` answer the
prompts of the function it calls. -/
def managePrimeCommand (data : reginaData) (arg : PrimeArg) (yn yn2 : Char) (r : Replies) :
    PrimeCommandResult :=
  match arg with
  | .absent => .counted (primeslist data yn)
  | .invalid => .threw
  | .value primeToSearch =>
    if data.regina.any (fun line => decide (line.elB = 1) && decide (line.elD = primeToSearch))
    then .found (primesfind data primeToSearch yn yn2 r)
    else .notFound


/-- The store loaded from the records `2..5` in which record 4 is incomplete: its
termination kind is 2, neither a cycle, nor open-ended, nor a prime. -/
def storeIncomplete : reginaData :=
  match loadReginaFile [mkLine 2 1 7, mkLine 3 1 7, mkLine 4 2 0, mkLine 5 0 5] true
      emptyData with
  | some (_, data) => data
  | none => emptyData

/-- The store of Scenario A: the records `2..10`, all prime-terminated with the prime 7
except record 7, which ends with the prime 13. -/
def storeScenarioA : reginaData :=
  match loadReginaFile
      ((List.range 9).map (fun i => mkLine (2 + i) 1 (if i = 5 then 13 else 7))) true
      emptyData with
  | some (_, data) => data
  | none => emptyData

/-- The store loaded from the records `2..5`: record 3 ends with the prime 13, record 4 is
an open-ended sequence whose terminal value (the sequence it merges into) is also 13. -/
def storeMergeOnPrime : reginaData :=
  match loadReginaFile [mkLine 2 1 7, mkLine 3 1 13, mkLine 4 0 13, mkLine 5 1 7] true
      emptyData with
  | some (_, data) => data
  | none => emptyData


/-! ## Strings of C++ -/

/-- The value of `std::string::npos`, the largest `size_t`. -/
def npos : Nat := 2 ^ 64 - 1

/-- Addition of two `size_t` values. -/
def sizeAdd (a b : Nat) : Nat := (a + b) % 2 ^ 64

/-- Subtraction of two `size_t` values. -/
def sizeSub (a b : Nat) : Nat := (a + 2 ^ 64 - b % 2 ^ 64) % 2 ^ 64

/-- The offset of the first occurrence of `ch` in `text`, if there is one. -/
def firstAt (ch : Char) : List Char → Option Nat
  | [] => none
  | c :: rest => if c = ch then some 0 else (firstAt ch rest).map (fun i => i + 1)

/-- The call `line.find(ch, pos)` on a `std::string` (a list of characters): the offset
of the first `ch` at or after offset `pos`, `npos` when there is none. -/
def strFind (line : List Char) (ch : Char) (pos : Nat) : Nat :=
  match firstAt ch (line.drop pos) with
  | some i => pos + i
  | none => npos

/-- The call `line.substr(pos, n)`: at most `n` characters from offset `pos`; `none` is
the exception `std::out_of_range`, thrown when `pos` is beyond the end of the string. -/
def strSubstr (line : List Char) (pos n : Nat) : Option (List Char) :=
  if line.length < pos then none else some ((line.drop pos).take n)

/-! ## Cycle lookup artifact: `LoadCycleSequence` -/

/-- The text `LoadCycleSequence` takes from one line of `cycle.tmp` (lines 733-735):
`composite = line.substr(foundp + 4, founde - (1 + foundp + 4))`, in `size_t`
arithmetic; `none` is the exception of `substr`. -/
def cycleField (line : List Char) : Option (List Char) :=
  let foundp := strFind line '.' 0
  let founde := strFind line '=' (sizeAdd foundp 4)
  strSubstr line (sizeAdd foundp 4) (sizeSub founde (sizeAdd (sizeAdd 1 foundp) 4))

/-- The call `cycleSet.emplace(v)` on a `std::unordered_set<double>`, held as the list of
its elements: a value already present is not added again. -/
def setEmplace (cycleSet : List ℚ) (v : ℚ) : List ℚ :=
  if v ∈ cycleSet then cycleSet else cycleSet ++ [v]

/-- The loop `while (std::getline(cycleFs, line))` of `LoadCycleSequence` over the lines
of the artifact.  `stod` stands for `std::stod` (`none` when it throws); `none` is an
exception leaving the loop: nothing in the program catches it. -/
def loadCycleLines (stod : List Char → Option ℚ) : List (List Char) → List ℚ → Option (List ℚ)
  | [], cycleSet => some cycleSet
  | line :: rest, cycleSet =>
    match cycleField line with
    | none => none
    | some composite =>
      match stod composite with
      | none => none
      | some v => loadCycleLines stod rest (setEmplace cycleSet v)

/-- The function `LoadCycleSequence(primeStr, cycleSet)`: `artifact` is the content of
`cycle.tmp` once the helper command has run for `primeStr`, line by line, `none` when
the file cannot be opened (the set is then left as it is). -/
def LoadCycleSequence (stod : List Char → Option ℚ) (artifact : Option (List (List Char)))
    (cycleSet : List ℚ) : Option (List ℚ) :=
  match artifact with
  | none => some cycleSet
  | some lines => loadCycleLines stod lines cycleSet

/-- The text the cycle parse of `seqinfo.cpp` takes from one line (lines 949-953):
`buff.substr(foundp+4, founde-foundp-5)` when both markers are found.  The outer `none`
is the exception of `substr`, the inner `none` a line that is skipped. -/
def cycleFieldOld (buff : List Char) : Option (Option (List Char)) :=
  let foundp := strFind buff '.' 0
  let founde := strFind buff '=' 0
  if founde ≠ npos ∧ foundp ≠ npos then
    (strSubstr buff (sizeAdd foundp 4) (sizeSub (sizeSub founde foundp) 5)).map some
  else some none

/-- The characters of `line` from offset `a` up to, but not including, offset `b`. -/
def charsBetween (line : List Char) (a b : Nat) : List Char :=
  (line.take b).drop a

/-! ## Listings that tag their matches: `manageOpenEndedSequence` and `managexxx` -/

deriving instance DecidableEq for FindResult

/-- How a listing function ends. -/
inductive Listing where
  /-- The function returned, with the store it leaves, what it listed and the outcome
  of the chained `advanced`. -/
  | finished (res : FindResult) : Listing
  /-- An exception left the function (nothing catches it). -/
  | threw : Listing
  /-- The function read or formed position `pos`, outside the vector (undefined
  behaviour in C++). -/
  | outOfBounds (pos : Int) : Listing
deriving DecidableEq

/-- The function `manageOpenEndedSequence(data, sequenceNumber, sequenceIndex)`: `yn`
answers the listing prompt, `yn2` the chaining prompt and `r` the prompts of the chained
`advanced`.  The body of its scan is the body of the scan of `primesfind`, run on the
records after position `sequenceIndex`. -/
def manageOpenEndedSequence (data : reginaData) (sequenceNumber sequenceIndex : Int)
    (yn yn2 : Char) (r : Replies) : Listing :=
  if sequenceIndex < 0 then .outOfBounds sequenceIndex
  else
    match data.regina[sequenceIndex.toNat]? with
    | none => .outOfBounds sequenceIndex
    | some line =>
      let seqPrime := line.elD
      if (sequenceNumber : ℚ) ≠ seqPrime then
        .finished { data := data, listed := none, chained := none }
      else if yn = 'n' ∨ (yn ≠ 'y' ∧ yn ≠ 'c' ∧ yn ≠ 'f') then
        .finished { data := data, listed := none, chained := none }
      else
        let scan := findLoop seqPrime (data.regina.drop (sequenceIndex.toNat + 1))
          (data.regina.take (sequenceIndex.toNat + 1))
          { emitted := [], rcount := 0, crlf := false }
        let data1 := { data with regina := scan.1 }
        if scan.2.rcount > 1 then
          if yn2 = 'y' then
            .finished { data := (advanced data1 true r).1, listed := some scan.2,
                        chained := some (advanced data1 true r).2 }
          else .finished { data := data1, listed := some scan.2, chained := none }
        else .finished { data := data1, listed := some scan.2, chained := none }

/-- The body of the scan of `managexxx` (lines 780-793) run on one record. -/
def cycleVisit (cycleSet : List ℚ) (st : ScanState) (line : reginaDataLine) :
    reginaDataLine × ScanState :=
  if line.elD ∈ cycleSet then
    ({ line with ulist := true },
      { emitted := st.emitted ++ [line.elA], rcount := (st.rcount + 1) % 2 ^ 32, crlf := st.crlf })
  else ({ line with ulist := false }, st)

/-- The loop `std::for_each(first, end, body)` of `managexxx` over the records from `first`
on, started with the records before it (`seen`) and the running result. -/
def cycleLoop (cycleSet : List ℚ) :
    List reginaDataLine → List reginaDataLine → ScanState → List reginaDataLine × ScanState
  | [], seen, st => (seen, st)
  | line :: rest, seen, st =>
    cycleLoop cycleSet rest (seen ++ [(cycleVisit cycleSet st line).1])
      (cycleVisit cycleSet st line).2

/-- The function `managexxx(data, sequenceNumber, sequenceIndex, cycleSet)`: `yn` answers
the listing prompt read at its top, `yn2` the chaining prompt and `r` the prompts of the
chained `advanced`; `stod` and `artifact` are what `LoadCycleSequence` works with when the
set arrives empty.  The scan starts at `std::next(begin, data.indexShift)`. -/
def managexxx (stod : List Char → Option ℚ) (artifact : Option (List (List Char)))
    (data : reginaData) (sequenceIndex : Int) (cycleSet : List ℚ)
    (yn yn2 : Char) (r : Replies) : Listing :=
  if sequenceIndex < 0 then .outOfBounds sequenceIndex
  else
    match data.regina[sequenceIndex.toNat]? with
    | none => .outOfBounds sequenceIndex
    | some _ =>
      if yn = 'n' ∨ (yn ≠ 'y' ∧ yn ≠ 'c' ∧ yn ≠ 'f') then
        .finished { data := data, listed := none, chained := none }
      else
        match (if cycleSet = [] then LoadCycleSequence stod artifact cycleSet
               else some cycleSet) with
        | none => .threw
        | some resolved =>
          if data.regina.length < data.indexShift then .outOfBounds data.indexShift
          else
            let scan := cycleLoop resolved (data.regina.drop data.indexShift)
              (data.regina.take data.indexShift) { emitted := [], rcount := 0, crlf := false }
            let data1 := { data with regina := scan.1 }
            if scan.2.rcount > 1 then
              if yn2 = 'y' then
                .finished { data := (advanced data1 true r).1, listed := some scan.2,
                            chained := some (advanced data1 true r).2 }
              else .finished { data := data1, listed := some scan.2, chained := none }
            else .finished { data := data1, listed := some scan.2, chained := none }

/-! ## The listings of `seqinfo.cpp` -/

/-- The assignment `seqd[j] = v` on the array of records, held as a function of the
index. -/
def setAt (seqd : Nat → seqdata) (j : Nat) (v : seqdata) : Nat → seqdata :=
  fun i => if i = j then v else seqd i

/-- The state of a listing loop of `seqinfo.cpp`: the array of records, the numbers
listed so far and `rcount`. -/
structure OldScan where
  seqd : Nat → seqdata
  listed : List Nat
  rcount : Int

/-- The body shared by the loop of `primesfind` (lines 629-643) and by the merge listing
of `main` (lines 884-898) for the index `j`: the record is listed and tagged when its
`elD` equals `seqd[seqn].elD`, otherwise its tag is cleared. -/
def oldFindVisit (seqn : Nat) (st : OldScan) (j : Nat) : OldScan :=
  if (st.seqd j).elD = (st.seqd seqn).elD then
    { seqd := setAt st.seqd j { st.seqd j with ulist := true },
      listed := st.listed ++ [j], rcount := st.rcount + 1 }
  else { st with seqd := setAt st.seqd j { st.seqd j with ulist := false } }

/-- The loop `for(j=start;j<seqscount;j++)` with the body `oldFindVisit`: `start` is 2
in `primesfind` and `seqn+1` in the merge listing of `main`. -/
def oldFindLoop (seqd : Nat → seqdata) (seqscount seqn start : Nat) : OldScan :=
  (List.range' start (seqscount - start)).foldl (oldFindVisit seqn)
    { seqd := seqd, listed := [], rcount := 0 }

/-- The inner loop `for(k=0;k<c;k++)` of the cycle listing of `main` (lines 1005-1016)
for the record `j`, over the entries `cycles[0..c)`: every entry equal to `seqd[j].elD`
lists and counts the record. -/
def oldCycleInner (j : Nat) : List String → OldScan → OldScan
  | [], st => st
  | member :: rest, st =>
    if member = (st.seqd j).elD then
      oldCycleInner j rest
        { seqd := setAt st.seqd j { st.seqd j with ulist := true },
          listed := st.listed ++ [j], rcount := st.rcount + 1 }
    else oldCycleInner j rest st

/-- The cycle listing of `main` (lines 1003-1017): `cycles` is the array of parsed
members and `c` the number of entries the loop reads. -/
def oldCycleListing (seqd : Nat → seqdata) (seqscount : Nat) (cycles : List String) (c : Int) :
    OldScan :=
  (List.range' 2 (seqscount - 2)).foldl
    (fun st j =>
      oldCycleInner j (cycles.take c.toNat)
        { st with seqd := setAt st.seqd j { st.seqd j with ulist := false } })
    { seqd := seqd, listed := [], rcount := 0 }


/-- What a listing function returned, when it returned. -/
def Listing.result : Listing → Option FindResult
  | .finished res => some res
  | .threw => none
  | .outOfBounds _ => none


/-- The store loaded from the records `2..10`: 2 and 3 end with the prime 7, 4 is an
open-ended sequence that merges into no smaller one (`elD = 4`), 5 and 6 are open-ended
and merge into 4, and 7 to 10 end with the prime 13. -/
def storeMerges : reginaData :=
  match loadReginaFile
      [mkLine 2 1 7, mkLine 3 1 7, mkLine 4 0 4, mkLine 5 0 4, mkLine 6 0 4, mkLine 7 1 13,
        mkLine 8 1 13, mkLine 9 1 13, mkLine 10 1 13] true emptyData with
  | some (_, data) => data
  | none => emptyData

/-- The store loaded from the records `2..10`: the records 2, 6 and 7 end in the cycle
entered at 6 (`elB = -1`, `elD = 6`), the others end with the prime 7. -/
def storeCycles : reginaData :=
  match loadReginaFile
      ((List.range 9).map
        (fun i => if i = 0 ∨ i = 4 ∨ i = 5 then mkLine (2 + i) (-1) 6 else mkLine (2 + i) 1 7))
      true emptyData with
  | some (_, data) => data
  | none => emptyData

/-- The array of records of `seqinfo.cpp` filled from a list: the record of index `i` is
the `i`-th of the list, a zero-initialised record beyond it. -/
def arrayOf (records : List seqdata) : Nat → seqdata :=
  fun i => records.getD i (mkSeqdata 0)

/-- The records `0..9` of a store of `seqinfo.cpp` (`seqscount = 10`): 2 and 3 end with
the prime 7, 4 is open-ended with `elD = 4`, 5 and 6 merge into 4, and 7 to 9 end in the
cycle entered at 220. -/
def oldRecords : List seqdata :=
  [mkSeqdata 0, mkSeqdata 0, { mkSeqdata 1 with elD := "7" }, { mkSeqdata 1 with elD := "7" },
    { mkSeqdata 0 with elD := "4" }, { mkSeqdata 0 with elD := "4" },
    { mkSeqdata 0 with elD := "4" }, { mkSeqdata (-2) with elD := "220" },
    { mkSeqdata (-2) with elD := "220" }, { mkSeqdata (-2) with elD := "284" }]


/-! ## Grouping by terminal value: `primeslist` of `seqinfo.cpp` -/

/-- The arrays `plist` and `plcount` of `primeslist` (seqinfo.cpp), held as the lists of
their entries `[0..pcount)`; `pcount` is the length of `plist`. -/
structure PrimeTable where
  plist : List String
  plcount : List Int
deriving DecidableEq

/-- The inner loop `for(j=0;j<pcount;j++)` of the grouping pass (lines 126-131) for the
terminal value `elD`: returns `exists` and the array `plcount` after the loop.  A count
is an `int` that grows by one per record, and the arrays hold at most 20,000,001
records: the increment never overflows. -/
def bumpLoop (elD : String) : List String → List Int → Bool × List Int
  | p :: ps, c :: cs =>
    if elD = p then (true, (c + 1) :: (bumpLoop elD ps cs).2)
    else ((bumpLoop elD ps cs).1, c :: (bumpLoop elD ps cs).2)
  | _, cs => (false, cs)

/-- The body of the grouping pass (lines 124-137) for one record; `none` is the write
to `plist[2000000]`, outside the arrays. -/
def groupVisit (t : PrimeTable) (record : seqdata) : Option PrimeTable :=
  if record.elB = 1 then
    if (bumpLoop record.elD t.plist t.plcount).1 = false then
      if t.plist.length < 2000000 then
        some { plist := t.plist ++ [record.elD],
               plcount := (bumpLoop record.elD t.plist t.plcount).2 ++ [1] }
      else none
    else some { plist := t.plist, plcount := (bumpLoop record.elD t.plist t.plcount).2 }
  else some t

/-- The grouping pass over a list of records, from a given table. -/
def groupLoop : List seqdata → PrimeTable → Option PrimeTable
  | [], t => some t
  | record :: rest, t =>
    match groupVisit t record with
    | none => none
    | some t' => groupLoop rest t'

/-- The records `seqd[2], ..., seqd[seqscount - 1]` of a store of `seqinfo.cpp`. -/
def recordsOf (seqd : Nat → seqdata) (seqscount : Nat) : List seqdata :=
  (List.range' 2 (seqscount - 2)).map seqd

/-- Lines 119-138 of `primeslist` (seqinfo.cpp): the grouping pass
`for(i=2;i<seqscount;i++)`, started with `pcount = 0`. -/
def groupPass (seqd : Nat → seqdata) (seqscount : Nat) : Option PrimeTable :=
  groupLoop (recordsOf seqd seqscount) { plist := [], plcount := [] }

/-- The sign of `x.compare(y)` on two `std::string` (lists of characters): the strings
are compared character by character, and a proper prefix comes first. -/
def compareChars : List Char → List Char → Int
  | [], [] => 0
  | [], _ :: _ => -1
  | _ :: _, [] => 1
  | a :: x, b :: y => if a < b then -1 else if b < a then 1 else compareChars x y

/-- The exchange of the entries `j - 1` and `j` of an array (the three assignments
through `ptemp` or `ptempi`). -/
def swapAt {α : Type} (l : List α) (j : Nat) : List α :=
  match l[j - 1]?, l[j]? with
  | some a, some b => (l.set (j - 1) b).set j a
  | _, _ => l

/-- The body of the inner loop of the sort (lines 142-158) for the index `j`: the swap
on `check > 0`, then the swap on the lengths, both on `plist` and on `plcount`.  A
`std::string` is held with one character per `char`: its `length` is the number of its
characters. -/
def sortVisit (t : PrimeTable) (j : Nat) : PrimeTable :=
  let check := compareChars (t.plist.getD (j - 1) "").data (t.plist.getD j "").data
  let t1 : PrimeTable :=
    if check > 0 then { plist := swapAt t.plist j, plcount := swapAt t.plcount j } else t
  if (t1.plist.getD (j - 1) "").length > (t1.plist.getD j "").length then
    { plist := swapAt t1.plist j, plcount := swapAt t1.plcount j }
  else t1

/-- The inner loop `for(j=1;j<pcount;j++)` of the sort. -/
def sortPass (pcount : Nat) (t : PrimeTable) : PrimeTable :=
  (List.range' 1 (pcount - 1)).foldl sortVisit t

/-- Lines 140-160 of `primeslist` (seqinfo.cpp): the outer loop
`for(i=0;i<pcount-1;i++)` of the sort. -/
def sortLoop (pcount : Nat) (t : PrimeTable) : PrimeTable :=
  (List.range (pcount - 1)).foldl (fun acc _ => sortPass pcount acc) t

/-- The two passes of `primeslist` (seqinfo.cpp) one after the other: the table written
to `primescount.txt`. -/
def oldPrimeslist (seqd : Nat → seqdata) (seqscount : Nat) : Option PrimeTable :=
  (groupPass seqd seqscount).map (fun t => sortLoop t.plist.length t)

/-- The terminal values of the prime-terminated records among `records`, in order. -/
def primesOf (records : List seqdata) : List String :=
  (records.filter (fun record => decide (record.elB = 1))).map (fun record => record.elD)

/-- The order the sort is meant to produce: shorter strings first, strings of equal
length in the order of `compare`. -/
def shortlexLe (x y : String) : Prop :=
  x.length < y.length ∨ (x.length = y.length ∧ compareChars x.data y.data ≤ 0)

instance (x y : String) : Decidable (shortlexLe x y) := by
  unfold shortlexLe; infer_instance

/-- The strict form of `shortlexLe`. -/
def shortlexLt (x y : String) : Prop :=
  x.length < y.length ∨ (x.length = y.length ∧ compareChars x.data y.data < 0)

instance (x y : String) : Decidable (shortlexLt x y) := by
  unfold shortlexLt; infer_instance

/-- The value of a decimal digit. -/
def digitOf (c : Char) : Nat := c.toNat - 48

/-- The number a string of decimal digits writes. -/
def decimalValue : List Char → Nat
  | [] => 0
  | c :: rest => digitOf c * 10 ^ rest.length + decimalValue rest

/-- A decimal string without leading zero: not empty, made of the digits `0` to `9`, the
first of which is not `0`. -/
def IsDecimal (s : List Char) : Prop :=
  s ≠ [] ∧ (∀ c ∈ s, '0' ≤ c ∧ c ≤ '9') ∧ s.head? ≠ some '0'

instance (s : List Char) : Decidable (IsDecimal s) := by
  unfold IsDecimal; infer_instance

/-- The invariant of the grouping pass after the records `done`: the entries of `plist`
are pairwise distinct, they are the terminal values of the prime-terminated records seen,
and each count is the number of those records with that terminal value. -/
structure Grouped (t : PrimeTable) (done : List seqdata) : Prop where
  nodup : t.plist.Nodup
  mem : ∀ p, p ∈ t.plist ↔ p ∈ primesOf done
  count : t.plcount = t.plist.map (fun p => ((primesOf done).count p : Int))

/-- One sweep of adjacent exchanges over a list, carrying the entry `a` in hand: the
smaller of two neighbours (for `le`) is put down, the other is carried on. -/
def bubbleFrom {α : Type} (le : α → α → Prop) [DecidableRel le] (a : α) : List α → List α
  | [] => [a]
  | b :: rest => if le a b then a :: bubbleFrom le b rest else b :: bubbleFrom le a rest

/-- One sweep of adjacent exchanges over a whole list. -/
def bubble {α : Type} (le : α → α → Prop) [DecidableRel le] : List α → List α
  | [] => []
  | a :: rest => bubbleFrom le a rest

/-- The table whose arrays hold the pairs of `l`, entry by entry. -/
def tableOf (l : List (String × Int)) : PrimeTable :=
  { plist := l.map (fun e => e.1), plcount := l.map (fun e => e.2) }

/-- The order of the sort on the pairs of an entry of `plist` and its count. -/
def entryLe (a b : String × Int) : Prop := shortlexLe a.1 b.1

instance : DecidableRel entryLe := fun a b => by
  unfold entryLe; infer_instance

/-- The records `0..7` of a store of `seqinfo.cpp` (`seqscount = 8`) whose records 2 to 7
end with the primes 43, 7, 101, 7, 59 and 43. -/
def oldPrimeRecords : List seqdata :=
  [mkSeqdata 0, mkSeqdata 0, { mkSeqdata 1 with elD := "43" }, { mkSeqdata 1 with elD := "7" },
    { mkSeqdata 1 with elD := "101" }, { mkSeqdata 1 with elD := "7" },
    { mkSeqdata 1 with elD := "59" }, { mkSeqdata 1 with elD := "43" }]


/-! ## The prompts and the scan of `advanced` in `seqinfo.cpp` -/

/-- The C function `isspace` in the "C" locale: the blank and the characters 9 to 13. -/
def isSpace (c : Char) : Bool :=
  decide (c.toNat = 32) || (decide (9 ≤ c.toNat) && decide (c.toNat ≤ 13))

/-- The decimal digits at the head of a text, read as a number that continues `acc`. -/
def digitsValue : List Char → Nat → Nat
  | [], acc => acc
  | c :: rest, acc =>
    if '0' ≤ c ∧ c ≤ '9' then digitsValue rest (acc * 10 + digitOf c) else acc

/-- The C function `atoi` on a text whose number fits an `int`: white space is skipped,
an optional sign is read, then the decimal digits up to the first other character; a
text without digits gives 0. -/
def atoi (text : List Char) : Int :=
  match text.dropWhile isSpace with
  | '-' :: rest => -(digitsValue rest 0 : Int)
  | '+' :: rest => (digitsValue rest 0 : Int)
  | rest => (digitsValue rest 0 : Int)

/-- The two numbers an `int` prompt of `advanced` (seqinfo.cpp) reads from the reply
`temp` before any clamp: `found = temp.find(" ")`, the fields `temp.substr(0,found)` and
`temp.substr(found+1)` when a blank is found; `single` gives the pair of a reply that
holds one field, `unset` the pair of an empty reply. -/
def oldIntFields (temp : List Char) (single : Int → Int × Int) (unset : Int × Int) :
    Int × Int :=
  if temp.length > 0 then
    if strFind temp ' ' 0 ≠ npos then
      (atoi (temp.take (strFind temp ' ' 0)), atoi (temp.drop (strFind temp ' ' 0 + 1)))
    else single (atoi temp)
  else unset

/-- The same reading for a `double` prompt, through `strtod`. -/
def oldDoubleFields (strtod : List Char → ℚ) (temp : List Char) : ℚ × ℚ :=
  if temp.length > 0 then
    if strFind temp ' ' 0 ≠ npos then
      (strtod (temp.take (strFind temp ' ' 0)), strtod (temp.drop (strFind temp ' ' 0 + 1)))
    else (strtod temp, strtod temp)
  else (0, 10000)

/-- What the user types at the prompts of `advanced` (seqinfo.cpp): the lines read by
`getline`, in the order they are asked. -/
structure OldReplies where
  modulus : List Char
  range : List Char
  selector : List Char
  iterations : List Char
  minimums : List Char
  maximums : List Char
  parity : List Char
  evenAbundant : List Char
  evenDeficient : List Char
  oddDeficient : List Char
  oddAbundant : List Char
  downDriver : List Char
  smallestQuotient : List Char
  largestQuotient : List Char
  arithMean : List Char
  geoMean : List Char
  minDigits : List Char
  maxDigits : List Char
  yn : List Char

/-- The clamp `if(x<0) x=0` that follows each range prompt. -/
def clampMin {T : Type} [Zero T] [LT T] [DecidableRel (fun (x y : T) => x < y)]
    (pair : T × T) : T × T :=
  (if pair.1 < 0 then 0 else pair.1, pair.2)

/-- Lines 198-534 of `advanced` (seqinfo.cpp): the eighteen prompts.  `strtod` stands for
the C function of that name. -/
def oldReadParams (strtod : List Char → ℚ) (seqscount : Int) (r : OldReplies) : Params :=
  let ab := oldIntFields r.modulus (fun v => (0, v)) (0, 1)
  let a := if ab.1 < 0 then 0 else ab.1
  let b := if ab.2 > seqscount - 1 then seqscount - 1 else ab.2
  let cd := oldIntFields r.range (fun v => (v, v)) (2, seqscount - 1)
  let c := if cd.1 < 2 then 2 else cd.1
  let d := if cd.2 > seqscount - 1 then seqscount - 1 else cd.2
  let e : Int :=
    if r.selector.take 1 = ['p'] then 1
    else if r.selector.take 1 = ['o'] then 0
    else if r.selector.take 1 = ['c'] then -1
    else 2
  let wx := clampMin (oldIntFields r.iterations (fun v => (v, v)) (0, 30000))
  let fg := clampMin (oldIntFields r.minimums (fun v => (v, v)) (0, 10000))
  let hj := clampMin (oldIntFields r.maximums (fun v => (v, v)) (0, 10000))
  let kl := clampMin (oldIntFields r.parity (fun v => (v, v)) (0, 10000))
  let mn := clampMin (oldIntFields r.evenAbundant (fun v => (v, v)) (0, 10000))
  let op := clampMin (oldIntFields r.evenDeficient (fun v => (v, v)) (0, 10000))
  let qr := clampMin (oldIntFields r.oddDeficient (fun v => (v, v)) (0, 10000))
  let st := clampMin (oldIntFields r.oddAbundant (fun v => (v, v)) (0, 10000))
  -- line 412: `v=s;`
  let uv := clampMin (oldIntFields r.downDriver (fun v => (v, st.1)) (0, 10000))
  let dab := clampMin (oldDoubleFields strtod r.smallestQuotient)
  let dcd := clampMin (oldDoubleFields strtod r.largestQuotient)
  let def_ := clampMin (oldDoubleFields strtod r.arithMean)
  let dgh := clampMin (oldDoubleFields strtod r.geoMean)
  let dij := clampMin (oldDoubleFields strtod r.minDigits)
  let dkl := clampMin (oldDoubleFields strtod r.maxDigits)
  { a := a, b := b, c := c, d := d, e := e, w := wx.1, x := wx.2,
    f := fg.1, g := fg.2, h := hj.1, j := hj.2, k := kl.1, l := kl.2, m := mn.1, n := mn.2,
    o := op.1, p := op.2, q := qr.1, r := qr.2, s := st.1, t := st.2, u := uv.1, v := uv.2,
    da := dab.1, db := dab.2, dc := dcd.1, dd := dcd.2, de := def_.1, df := def_.2,
    dg := dgh.1, dh := dgh.2, di := dij.1, dj := dij.2, dk := dkl.1, dl := dkl.2 }

/-- The body of the loop `for(i=c;i<=d;i++)` of `advanced` (seqinfo.cpp, lines 549-599)
for the index `i`; `none` is the undefined remainder.  `rcount` is an `int` that grows by
one per index of an array of 20,000,001 records: it never overflows. -/
def oldVisit (seqd : Nat → seqdata) (seqdd : Nat → seqdatad) (uselist : Bool) (P : Params)
    (st : ScanState) (i : Int) : Option ScanState :=
  match showFlag uselist P i (seqd i.toNat) (seqdd i.toNat) with
  | none => none
  | some sh =>
    if sh = true then
      some { emitted := st.emitted ++ [i], rcount := st.rcount + 1, crlf := true }
    else some st

/-- A loop body folded over a list of indices. -/
def oldRun (body : ScanState → Int → Option ScanState) : ScanState → List Int → Outcome
  | st, [] => .done st
  | st, i :: rest =>
    match body st i with
    | none => .divideFault st
    | some st' => oldRun body st' rest

/-- Lines 546-608 of `advanced` (seqinfo.cpp): the loop `for(i=c;i<=d;i++)`.  The prompts
leave `2 <= c` and `d <= seqscount - 1`, so the indices stay inside the arrays. -/
def oldAdvancedScan (seqd : Nat → seqdata) (seqdd : Nat → seqdatad) (uselist : Bool)
    (P : Params) : Outcome :=
  oldRun (oldVisit seqd seqdd uselist P) { emitted := [], rcount := 0, crlf := false }
    (List.map (fun j : Nat => P.c + (j : Int)) (List.range (P.d + 1 - P.c).toNat))

/-- The function `advanced(seqd, seqdd, seqscount, uselist)` of `seqinfo.cpp`: only an
answer that starts with `n` stops it before the scan. -/
def oldAdvanced (strtod : List Char → ℚ) (seqd : Nat → seqdata) (seqdd : Nat → seqdatad)
    (seqscount : Int) (uselist : Bool) (r : OldReplies) : Outcome :=
  if r.yn.take 1 = ['n'] then .declined
  else oldAdvancedScan seqd seqdd uselist (oldReadParams strtod seqscount r)

/-- Every prompt of `advanced` (seqinfo.cpp) answered with an empty line, final answer `y`. -/
def oldBlankReplies : OldReplies :=
  { modulus := [], range := [], selector := [], iterations := [], minimums := [],
    maximums := [], parity := [], evenAbundant := [], evenDeficient := [],
    oddDeficient := [], oddAbundant := [], downDriver := [], smallestQuotient := [],
    largestQuotient := [], arithMean := [], geoMean := [], minDigits := [], maxDigits := [],
    yn := ['y'] }

/-- The array `seqd` of `seqinfo.cpp` that holds the records of a store of
`seqinfo_double.cpp` whose first sequence number is 2: index `i` holds the record of
position `i - 2`.  The field `elD`, a string there, plays no part in the filter and is
left empty; the indices without a record hold zeros. -/
def seqdOf (data : reginaData) : Nat → seqdata :=
  fun i =>
    if i < 2 then mkSeqdata 0
    else
      match data.regina[i - 2]? with
      | none => mkSeqdata 0
      | some line =>
        { elB := line.elB, elC := line.elC, elD := "", elE := line.elE, elF := line.elF,
          elG := line.elG, elH := line.elH, elI := line.elI, elJ := line.elJ,
          elK := line.elK, elL := line.elL, elM := line.elM, elN := line.elN,
          ulist := line.ulist }

/-- The array `seqdd` that goes with `seqdOf`. -/
def seqddOf (data : reginaData) : Nat → seqdatad :=
  fun i =>
    if i < 2 then zeroSeqdatad
    else
      match data.regina[i - 2]? with
      | none => zeroSeqdatad
      | some line =>
        { elO := line.elO, elP := line.elP, elQ := line.elQ, elR := line.elR,
          elS := line.elS, elT := line.elT }

/-- The record `line` of `seqinfo_double.cpp` and the record `sd`, `sdd` of `seqinfo.cpp`
carry the same values in the fields the filter reads. -/
structure SameRecord (line : reginaDataLine) (sd : seqdata) (sdd : seqdatad) : Prop where
  elB : sd.elB = line.elB
  elC : sd.elC = line.elC
  elG : sd.elG = line.elG
  elH : sd.elH = line.elH
  elI : sd.elI = line.elI
  elJ : sd.elJ = line.elJ
  elK : sd.elK = line.elK
  elL : sd.elL = line.elL
  elM : sd.elM = line.elM
  elN : sd.elN = line.elN
  elO : sdd.elO = line.elO
  elP : sdd.elP = line.elP
  elQ : sdd.elQ = line.elQ
  elR : sdd.elR = line.elR
  elS : sdd.elS = line.elS
  elT : sdd.elT = line.elT
  ulist : sd.ulist = line.ulist

/-- The arrays of `seqinfo.cpp` hold the records of the store: the record at position `k`
of the vector is the record of index `k + 2` of the arrays. -/
def SameStore (data : reginaData) (seqd : Nat → seqdata) (seqdd : Nat → seqdatad) : Prop :=
  ∀ (k : Nat) (line : reginaDataLine), data.regina[k]? = some line →
    SameRecord line (seqd (k + 2)) (seqdd (k + 2))

/-! ## The cycle artifact in `seqinfo.cpp` -/

/-- The value a line of `cycle.tmp` contributes in the parse of `seqinfo.cpp`, when the
line has both markers and `substr` does not throw. -/
def oldLineValue (buff : List Char) : Option (List Char) :=
  (cycleFieldOld buff).join

/-- The loop `while(!cyc.eof())` of the cycle parse of `seqinfo.cpp` (lines 947-955 and
988-996) over the successive values of `buff`; `cycles` holds the entries written so far,
so that `c` is its length.  `none` is the exception of `substr`, or a write beyond the
forty entries of `cycles`. -/
def oldCycleLines : List (List Char) → List String → Option (List String)
  | [], cycles => some cycles
  | buff :: rest, cycles =>
    match cycleFieldOld buff with
    | none => none
    | some none => oldCycleLines rest cycles
    | some (some value) =>
      if cycles.length < 40 then oldCycleLines rest (cycles ++ [String.mk value]) else none

/-- The cycle parse of `seqinfo.cpp` with the statement `c-=2` that follows the loop
(lines 957 and 998): the entries written to `cycles` and the value of `c`. -/
def oldCycleParse (artifact : List (List Char)) : Option (List String × Int) :=
  (oldCycleLines artifact []).map (fun cycles => (cycles, (cycles.length : Int) - 2))

/-- The members the display loop `for(j=0;j<c;j++)` and the listing loop
`for(k=0;k<c;k++)` read: the entries `cycles[0..c)`. -/
def oldCycleMembers (parsed : List String × Int) : List String :=
  parsed.1.take parsed.2.toNat

/-! ## Inspecting one sequence: `manageSequence` -/

/-- The constant `s_perfectNumber`, a `std::set<double>`: the values of its ten `double`
literals.  The last two literals are not representable and stand for the nearest
doubles, `2^121` and `2^177`. -/
def s_perfectNumber : List ℚ :=
  [6, 28, 496, 8128, 33550336, 8589869056, 137438691328, 2305843008139952128,
    2658455991569831745807614120560689152,
    191561942608236107294793378393788647952342390272950272]

/-- How a call of `manageSequence` ends. -/
inductive Inspection where
  /-- The report `Value entered is outside current bounds`: the function returns before
  it reads a record. -/
  | outside : Inspection
  /-- The function read `vLines[pos]` with `pos` outside the vector (undefined behaviour). -/
  | badPosition (pos : Int) : Inspection
  /-- The record ends with a prime: `primesfind` ran. -/
  | primeEnded (res : FindResult) : Inspection
  /-- The record is open-ended: `manageOpenEndedSequence` ran. -/
  | openEnded (res : Listing) : Inspection
  /-- The record ends in a cycle and `managexxx` ran. -/
  | cycleEnded (res : Listing) : Inspection
  /-- The record ends in a cycle and the display of the cycle was declined:
  `manageCycleNumber` returned `false`. -/
  | cycleDeclined : Inspection
  /-- An exception left the function: the one of `std::stol` at line 885, or one of
  `LoadCycleSequence` inside `manageCycleNumber`. -/
  | threw : Inspection
  /-- The report `Sequence appears to be incomplete!`. -/
  | incomplete : Inspection
deriving DecidableEq

/-- Lines 886-916 of `manageSequence`: the function from the value `sequenceNumber` of its
`int32_t` variable on.  `ynShow` answers the prompt of
`manageCycleNumber`, `shown` is the artifact its `LoadCycleSequence` reads; `yn`, `yn2`,
`r`, `stod` and `artifact` go to the function that lists.  `managePerfectNumber` and
`manageEndWithPerfectNumber` only print and return `true`.  The subtraction is taken in
`Int`: it leaves `int32_t` only for a number below `INT32_MIN + 65535`, which the test
that follows rejects. -/
def manageSequenceBody (stod : List Char → Option ℚ) (shown artifact : Option (List (List Char)))
    (data : reginaData) (sequenceNumber : Int) (ynShow yn yn2 : Char) (r : Replies) :
    Inspection :=
  let sequenceIndex : Int := sequenceNumber - data.indexShift
  if sequenceNumber < data.indexShift ∨ sequenceNumber > data.lastIndex then .outside
  else
    match data.regina[sequenceIndex.toNat]? with
    | none => .badPosition sequenceIndex
    | some line =>
      if line.elB = 1 then .primeEnded (primesfind data line.elD yn yn2 r)
      else if line.elB = 0 then
        .openEnded (manageOpenEndedSequence data sequenceNumber sequenceIndex yn yn2 r)
      else if line.elB < 0 then
        if line.elD ∈ s_perfectNumber then
          .cycleEnded (managexxx stod artifact data sequenceIndex [] yn yn2 r)
        else if ynShow = 'n' ∨ (ynShow ≠ 'y' ∧ ynShow ≠ 'f') then .cycleDeclined
        else
          match LoadCycleSequence stod shown [] with
          | none => .threw
          | some cycleSet =>
            .cycleEnded (managexxx stod artifact data sequenceIndex cycleSet yn yn2 r)
      else .incomplete

/-- The conversion of a `long` to `int32_t`, as in the initialisation
`int32_t sequenceNumber = std::stol(...)` of line 885: the value modulo `2^32`, taken in
`[-2^31, 2^31)`. -/
def narrow32 (v : Int) : Int :=
  (v + 2147483648) % 4294967296 - 2147483648

/-- The function `manageSequence(data, sequenceNumberStr)`.  `parsed` is what
`std::stol(sequenceNumberStr)` returns, a `long` of 64 bits: the number at the head of the
text; it is `none` when `std::stol` throws (`std::invalid_argument` for a text without a
number, `std::out_of_range` for a number no `long` holds), and nothing catches the
exception.  Line 885 stores the result in the `int32_t` variable `sequenceNumber`, which
narrows it; the rest of the function works on that variable. -/
def manageSequence (stod : List Char → Option ℚ) (shown artifact : Option (List (List Char)))
    (data : reginaData) (parsed : Option Int) (ynShow yn yn2 : Char) (r : Replies) :
    Inspection :=
  match parsed with
  | none => .threw
  | some v => manageSequenceBody stod shown artifact data (narrow32 v) ynShow yn yn2 r

/-- The sequence numbers a call of `manageSequence` listed, when it listed. -/
def Inspection.listed : Inspection → Option (List Int)
  | .primeEnded res => res.listed.map (fun st => st.emitted)
  | .openEnded res => (res.result.bind (fun x => x.listed)).map (fun st => st.emitted)
  | .cycleEnded res => (res.result.bind (fun x => x.listed)).map (fun st => st.emitted)
  | _ => none

/-- The store a call of `manageSequence` on `data` leaves, when it returns. -/
def Inspection.store (data : reginaData) : Inspection → Option reginaData
  | .outside => some data
  | .badPosition _ => none
  | .primeEnded res => some res.data
  | .openEnded res => res.result.map (fun x => x.data)
  | .cycleEnded res => res.result.map (fun x => x.data)
  | .cycleDeclined => some data
  | .threw => none
  | .incomplete => some data

/-- The function `std::stod` on the texts of the examples: an unsigned decimal integer
without leading zero gives its value; every other text is taken as one that makes it
throw. -/
def stodDecimal (text : List Char) : Option ℚ :=
  if IsDecimal text then some (decimalValue text : ℚ) else none

/-- The store loaded from the file with the records 2, 3, 4, 6, 7: the file skips
sequence 5. -/
def storeGap : reginaData :=
  match loadReginaFile [mkLine 2 1 7, mkLine 3 1 7, mkLine 4 1 7, mkLine 6 1 7, mkLine 7 1 7]
      true emptyData with
  | some (_, data) => data
  | none => emptyData

/-- The store loaded from the records `2..6`, all prime-terminated, in which record 3 has
three down driver extracts (`elN = 3`). -/
def storeExtracts : reginaData :=
  match loadReginaFile
      [mkLine 2 1 7, { mkLine 3 1 7 with elN := 3 }, mkLine 4 1 7, mkLine 5 1 7, mkLine 6 1 7]
      true emptyData with
  | some (_, data) => data
  | none => emptyData

/-- The record a loaded line becomes: `operator>>` clears the tag. -/
def untagged (line : reginaDataLine) : reginaDataLine :=
  { line with ulist := false }

/-- An artifact of three lines with both markers followed by an empty line. -/
def artifactThree : List (List Char) :=
  [("0 .   220 = 2^2 * 5 * 11").data, ("1 .   284 = 2^2 * 71").data,
    ("2 .   1184 = 2^5 * 37").data, []]


/-! ## Lemmas on the scan loop -/

theorem forEach_slice (v : List reginaDataLine)
    (body : ScanState → reginaDataLine → Option ScanState) :
    ∀ (k i fuel : Nat) (st : ScanState), i + k ≤ v.length → k < fuel →
      forEach v ((i + k : Nat) : Int) body fuel (i : Int) st
        = runLines body st ((v.drop i).take k) := by
  intro k
  induction k with
  | zero =>
    intro i fuel st _ hf
    obtain ⟨f, rfl⟩ : ∃ f, fuel = f + 1 := ⟨fuel - 1, by omega⟩
    simp [forEach, runLines]
  | succ k ih =>
    intro i fuel st hi hf
    obtain ⟨f, rfl⟩ : ∃ f, fuel = f + 1 := ⟨fuel - 1, by omega⟩
    have hlt : i < v.length := by omega
    have hne : ¬ ((i : Int) = ((i + (k + 1) : Nat) : Int)) := by omega
    have hnn : ¬ ((i : Int) < 0) := by omega
    have hget : v[i]? = some v[i] := List.getElem?_eq_getElem hlt
    rw [List.drop_eq_getElem_cons hlt, List.take_succ_cons]
    simp only [forEach, runLines, hne, hnn, if_false, Int.toNat_ofNat, hget]
    cases hb : body st v[i] with
    | none => rfl
    | some st' =>
      have := ih (i + 1) f st' (by omega) (by omega)
      have hcast : ((i + 1 + k : Nat) : Int) = ((i + (k + 1) : Nat) : Int) := by omega
      rw [hcast] at this
      simpa using this

theorem forEach_done (v : List reginaDataLine) (last : Int)
    (body : ScanState → reginaDataLine → Option ScanState) :
    ∀ (fuel : Nat) (pos : Int) (st st' : ScanState),
      forEach v last body fuel pos st = .done st' →
      ∃ k : Nat, last = pos + k ∧ runLines body st ((v.drop pos.toNat).take k) = .done st' := by
  intro fuel
  induction fuel with
  | zero => intro pos st st' h; simp [forEach] at h
  | succ f ih =>
    intro pos st st' h
    unfold forEach at h
    by_cases h1 : pos = last
    · refine ⟨0, by simp [h1], ?_⟩
      simpa [h1, runLines] using h
    · simp only [h1, if_false] at h
      by_cases h2 : pos < 0
      · simp [h2] at h
      · simp only [h2, if_false] at h
        cases hg : v[pos.toNat]? with
        | none => simp [hg] at h
        | some line =>
          simp only [hg] at h
          cases hb : body st line with
          | none => simp [hb] at h
          | some st1 =>
            simp only [hb] at h
            obtain ⟨k, hk, hrun⟩ := ih (pos + 1) st1 st' h
            refine ⟨k + 1, by push_cast; omega, ?_⟩
            obtain ⟨hlt, hval⟩ := List.getElem?_eq_some.mp hg
            have hto : (pos + 1).toNat = pos.toNat + 1 := by omega
            rw [List.drop_eq_getElem_cons hlt, List.take_succ_cons, hval]
            simp only [runLines, hb]
            rw [hto] at hrun
            exact hrun

/-- The fuel `advancedScan` gives the loop is never exhausted. -/
theorem forEach_fuel (v : List reginaDataLine) (last : Int)
    (body : ScanState → reginaDataLine → Option ScanState) :
    ∀ (fuel : Nat) (pos : Int) (st : ScanState), 0 < fuel →
      (pos < 0 ∨ (v.length : Int) < pos + fuel) →
      forEach v last body fuel pos st ≠ .fuelOut := by
  intro fuel
  induction fuel with
  | zero => intro pos st h; omega
  | succ f ih =>
    intro pos st _ hpos
    unfold forEach
    by_cases h1 : pos = last
    · simp [h1]
    · by_cases h2 : pos < 0
      · simp [h1, h2]
      · simp only [h1, h2, if_false]
        cases hg : v[pos.toNat]? with
        | none => simp
        | some line =>
          simp only []
          cases hb : body st line with
          | none => simp
          | some st1 =>
            simp only []
            have hlt : pos.toNat < v.length := (List.getElem?_eq_some.mp hg).1
            exact ih (pos + 1) st1 (by omega) (Or.inr (by omega))

theorem advancedScan_ne_fuelOut (data : reginaData) (uselist : Bool) (P : Params) :
    advancedScan data uselist P ≠ .fuelOut := by
  unfold advancedScan
  apply forEach_fuel
  · omega
  · by_cases h : P.c - (data.indexShift : Int) < 0
    · exact Or.inl h
    · right
      push_cast
      omega

theorem cRem_of_pos (x b : Int) (hb : 1 ≤ b) : cRem x b = some (Int.tmod x b) := by
  have h0 : b ≠ 0 := by omega
  have h1 : b ≠ -1 := by omega
  simp [cRem, h0, h1]

theorem visit_of_cRem (uselist : Bool) (P : Params) (st : ScanState) (line : reginaDataLine)
    (h : cRem line.elA P.b = some (Int.tmod line.elA P.b)) :
    visit uselist P st line =
      some (if accepts uselist P line = true then
        { emitted := st.emitted ++ [line.elA], rcount := (st.rcount + 1) % 2 ^ 32, crlf := true }
      else st) := by
  unfold visit accepts
  rw [h]
  by_cases ha : P.a = Int.tmod line.elA P.b
  · by_cases hf : filterShow uselist P line = true <;> simp [ha, hf]
  · simp [ha]

theorem cRem_eq_some (x b r : Int) (h : cRem x b = some r) : r = Int.tmod x b := by
  unfold cRem at h
  split at h
  · simp at h
  · simpa using h.symm

theorem visit_some (uselist : Bool) (P : Params) (st st' : ScanState) (line : reginaDataLine)
    (h : visit uselist P st line = some st') :
    st' = (if accepts uselist P line = true then
        { emitted := st.emitted ++ [line.elA], rcount := (st.rcount + 1) % 2 ^ 32, crlf := true }
      else st) := by
  cases hc : cRem line.elA P.b with
  | none => simp [visit, hc] at h
  | some r =>
    have hr := cRem_eq_some _ _ _ hc
    subst hr
    rw [visit_of_cRem uselist P st line hc] at h
    exact (Option.some.inj h).symm

/-- A completed fold of the scan body has emitted, in order, the sequence numbers of the
accepted records. -/
theorem runLines_visit_done (uselist : Bool) (P : Params) :
    ∀ (lines : List reginaDataLine) (st st' : ScanState),
      runLines (visit uselist P) st lines = .done st' →
      st'.emitted = st.emitted ++ (lines.filter (accepts uselist P)).map (fun l => l.elA) := by
  intro lines
  induction lines with
  | nil =>
    intro st st' h
    simp only [runLines, Outcome.done.injEq] at h
    simp [h]
  | cons line rest ih =>
    intro st st' h
    simp only [runLines] at h
    cases hv : visit uselist P st line with
    | none => simp [hv] at h
    | some st1 =>
      simp only [hv] at h
      have h1 := visit_some uselist P st st1 line hv
      have h2 := ih st1 st' h
      by_cases ha : accepts uselist P line = true
      · simp only [ha, if_true] at h1
        simp [h2, h1, List.filter_cons, ha]
      · simp only [ha] at h1
        simp [h2, h1, List.filter_cons, ha]

/-- When every remainder is defined the fold of the scan body completes. -/
theorem runLines_visit_total (uselist : Bool) (P : Params) :
    ∀ (lines : List reginaDataLine) (st : ScanState),
      (∀ line ∈ lines, cRem line.elA P.b = some (Int.tmod line.elA P.b)) →
      ∃ st', runLines (visit uselist P) st lines = .done st' := by
  intro lines
  induction lines with
  | nil => intro st _; exact ⟨st, rfl⟩
  | cons line rest ih =>
    intro st h
    have hl := h line (List.mem_cons_self _ _)
    simp only [runLines, visit_of_cRem uselist P st line hl]
    exact ih _ (fun l hm => h l (List.mem_cons_of_mem _ hm))

theorem filterShow_false_iff (P : Params) (line : reginaDataLine) :
    filterShow false P line = true ↔
      ¬ (P.e = -1 ∧ line.elB > -1) ∧ ¬ (P.e ≠ line.elB ∧ P.e ≠ 2) ∧ withinIntervals P line := by
  unfold filterShow withinIntervals
  simp only [Bool.not_eq_true', Bool.or_eq_false_iff, Bool.and_eq_false_imp, decide_eq_true_eq,
    decide_eq_false_iff_not, not_lt, gt_iff_lt, beq_iff_eq, Bool.false_eq_true, false_implies,
    true_and, not_and, ne_eq, not_not, Bool.and_eq_true]
  tauto

/-- Inside the vector the scan of `advanced` is the fold of its body over the records
from `c` to `d`. -/
theorem advancedScan_eq_runLines (data : reginaData) (uselist : Bool) (P : Params)
    (h : InRange data P) :
    advancedScan data uselist P =
      runLines (visit uselist P) { emitted := [], rcount := 0, crlf := false }
        (scannedRange data P) := by
  obtain ⟨h1, h2, h3⟩ := h
  unfold advancedScan scannedRange
  have hi : P.c - (data.indexShift : Int) = (((P.c - data.indexShift).toNat : Nat) : Int) := by
    omega
  have hk : P.d - (data.indexShift : Int) + 1 =
      (((P.c - data.indexShift).toNat + (P.d + 1 - P.c).toNat : Nat) : Int) := by omega
  simp only []
  rw [hk, hi]
  have := forEach_slice data.regina (visit uselist P) (P.d + 1 - P.c).toNat
    (P.c - data.indexShift).toNat (data.regina.length + 1)
    { emitted := [], rcount := 0, crlf := false } (by omega) (by omega)
  simpa using this

theorem recordOf_elA (data : reginaData) (hload : Loaded data) (n : Int) (line : reginaDataLine)
    (h : recordOf data n = some line) : line.elA = n := by
  unfold recordOf at h
  split at h
  · simp at h
  · have := hload.contiguous _ _ h
    omega

theorem mem_scannedRange_iff (data : reginaData) (P : Params) (h : InRange data P)
    (line : reginaDataLine) :
    line ∈ scannedRange data P ↔ ∃ n, P.c ≤ n ∧ n ≤ P.d ∧ recordOf data n = some line := by
  obtain ⟨h1, h2, h3⟩ := h
  unfold scannedRange recordOf
  rw [List.mem_iff_getElem?]
  constructor
  · rintro ⟨j, hj⟩
    rw [List.getElem?_take] at hj
    split at hj
    · rename_i hlt
      rw [List.getElem?_drop] at hj
      refine ⟨P.c + j, by omega, by omega, ?_⟩
      have hn : ¬ (P.c + (j : Int) < data.indexShift) := by omega
      have he : (P.c + (j : Int) - data.indexShift).toNat = (P.c - data.indexShift).toNat + j := by
        omega
      simp only [hn, if_false, he]
      exact hj
    · simp at hj
  · rintro ⟨n, hc, hd, hr⟩
    have hn : ¬ (n < (data.indexShift : Int)) := by omega
    simp only [hn, if_false] at hr
    refine ⟨(n - P.c).toNat, ?_⟩
    rw [List.getElem?_take]
    have hlt : (n - P.c).toNat < (P.d + 1 - P.c).toNat := by omega
    simp only [hlt, if_true]
    rw [List.getElem?_drop]
    have he : (P.c - data.indexShift).toNat + (n - P.c).toNat = (n - data.indexShift).toNat := by
      omega
    rw [he]
    exact hr

theorem recordOf_some (data : reginaData) (hload : Loaded data) (n : Int)
    (hc : (data.indexShift : Int) ≤ n) (hd : n ≤ data.lastIndex) :
    ∃ line, recordOf data n = some line := by
  have hl := hload.last
  have hlt : (n - data.indexShift).toNat < data.regina.length := by omega
  refine ⟨data.regina[(n - data.indexShift).toNat], ?_⟩
  unfold recordOf
  have hn : ¬ (n < (data.indexShift : Int)) := by omega
  simp only [hn, if_false]
  exact List.getElem?_eq_getElem hlt

/-- Under the load invariant the records from `c` to `d` carry the numbers `c, c+1, ..., d`. -/
theorem scannedRange_elA (data : reginaData) (hload : Loaded data) (P : Params)
    (h : InRange data P) :
    (scannedRange data P).map (fun l => l.elA) =
      List.map (fun j : Nat => P.c + (j : Int)) (List.range (P.d + 1 - P.c).toNat) := by
  obtain ⟨h1, h2, h3⟩ := h
  apply List.ext_getElem?
  intro j
  unfold scannedRange
  simp only [List.getElem?_map, List.getElem?_take, List.getElem?_drop, List.getElem?_range]
  by_cases hj : j < (P.d + 1 - P.c).toNat
  · have hlt : (P.c - data.indexShift).toNat + j < data.regina.length := by omega
    rw [List.getElem?_range hj]
    simp only [hj, if_true, List.getElem?_eq_getElem hlt, Option.map_some']
    have := hload.contiguous _ _ (List.getElem?_eq_getElem hlt)
    congr 1
    omega
  · simp only [hj, if_false, Option.map_none']
    rw [List.getElem?_eq_none (by simp; omega)]
    rfl

theorem accepts_false_iff (P : Params) (line : reginaDataLine) (hA : 0 ≤ line.elA)
    (hb : 1 ≤ P.b) :
    accepts false P line = true ↔
      (line.elA % P.b = P.a ∧ (P.e = 2 ∨ line.elB = P.e) ∧ withinIntervals P line) := by
  unfold accepts
  rw [Bool.and_eq_true, filterShow_false_iff, decide_eq_true_eq,
    Int.tmod_eq_emod hA (by omega)]
  constructor
  · rintro ⟨h1, _, h3, h4⟩
    refine ⟨h1.symm, ?_, h4⟩
    by_cases h2 : P.e = 2
    · exact Or.inl h2
    · right
      by_contra hne
      exact h3 ⟨fun h => hne h.symm, h2⟩
  · rintro ⟨h1, h2, h3⟩
    refine ⟨h1.symm, ?_, ?_, h3⟩
    · intro h; omega
    · rintro ⟨h4, h5⟩
      rcases h2 with h2 | h2
      · exact h5 h2
      · exact h4 h2.symm

/-- Invariant of the scan loop of the model: the numbers produced before the run ends or
leaves defined behaviour form a sublist of the sequence numbers of the store, and
`rcount` is their number modulo `2^32`. -/
theorem forEach_produced (v : List reginaDataLine) (last : Int) (uselist : Bool) (P : Params) :
    ∀ (fuel : Nat) (pos : Int) (st : ScanState),
      st.emitted.Sublist ((v.take pos.toNat).map (fun l => l.elA)) →
      st.rcount = st.emitted.length % 2 ^ 32 →
      ((forEach v last (visit uselist P) fuel pos st).produced.emitted.Sublist
          (v.map (fun l => l.elA))) ∧
        (forEach v last (visit uselist P) fuel pos st).produced.rcount =
          (forEach v last (visit uselist P) fuel pos st).produced.emitted.length % 2 ^ 32 := by
  intro fuel
  induction fuel with
  | zero =>
    intro pos st _ _
    simp [forEach, Outcome.produced]
  | succ f ih =>
    intro pos st hsub hcnt
    have hall : st.emitted.Sublist (v.map (fun l => l.elA)) :=
      hsub.trans ((List.take_sublist _ _).map _)
    unfold forEach
    by_cases h1 : pos = last
    · simp only [h1, if_true, Outcome.produced]
      exact ⟨hall, hcnt⟩
    · simp only [h1, if_false]
      by_cases h2 : pos < 0
      · simp only [h2, if_true, Outcome.produced]
        exact ⟨hall, hcnt⟩
      · simp only [h2, if_false]
        cases hg : v[pos.toNat]? with
        | none =>
          simp only [Outcome.produced]
          exact ⟨hall, hcnt⟩
        | some line =>
          simp only []
          cases hb : visit uselist P st line with
          | none =>
            simp only [Outcome.produced]
            exact ⟨hall, hcnt⟩
          | some st1 =>
            simp only []
            have hst1 := visit_some uselist P st st1 line hb
            have hto : (pos + 1).toNat = pos.toNat + 1 := by omega
            have htake : (v.take (pos + 1).toNat).map (fun l => l.elA) =
                (v.take pos.toNat).map (fun l => l.elA) ++ [line.elA] := by
              rw [hto, List.take_succ, hg]
              simp
            apply ih (pos + 1) st1
            · rw [htake, hst1]
              split
              · exact hsub.append (List.Sublist.refl _)
              · exact List.sublist_append_of_sublist_left hsub
            · rw [hst1]
              split
              · simp only [List.length_append, List.length_singleton]
                omega
              · exact hcnt

theorem advanced_fst (data : reginaData) (uselist : Bool) (r : Replies) :
    (advanced data uselist r).1 = data := by
  unfold advanced
  by_cases h1 : reginaSize data < int32Max.toNat
  · by_cases h2 : r.yn = 'n' ∨ (r.yn ≠ 'y' ∧ r.yn ≠ 'c' ∧ r.yn ≠ 'f')
    · simp only [h1, h2, if_true]
    · simp only [h1, h2, if_true, if_false]
  · simp only [h1, if_false]

theorem advanced_snd (data : reginaData) (uselist : Bool) (r : Replies)
    (h1 : reginaSize data < int32Max.toNat)
    (h2 : ¬ (r.yn = 'n' ∨ (r.yn ≠ 'y' ∧ r.yn ≠ 'c' ∧ r.yn ≠ 'f'))) :
    (advanced data uselist r).2 = advancedScan data uselist (readParams (reginaSize data) r) := by
  unfold advanced
  simp only [h1, h2, if_true, if_false]

theorem advanced_done (data : reginaData) (uselist : Bool) (r : Replies) (st : ScanState)
    (h : (advanced data uselist r).2 = .done st) :
    reginaSize data < int32Max.toNat ∧
      advancedScan data uselist (readParams (reginaSize data) r) = .done st := by
  unfold advanced at h
  by_cases h1 : reginaSize data < int32Max.toNat
  · by_cases h2 : r.yn = 'n' ∨ (r.yn ≠ 'y' ∧ r.yn ≠ 'c' ∧ r.yn ≠ 'f')
    · simp [h1, h2] at h
    · simp only [h1, h2, if_true, if_false] at h
      exact ⟨h1, h⟩
  · simp [h1] at h

theorem loaded_of_check (data : reginaData) (h1 : data.regina ≠ [])
    (h2 : data.regina.map (fun l => l.elA) =
      List.map (fun i : Nat => (data.indexShift : Int) + (i : Int))
        (List.range data.regina.length))
    (h3 : data.lastIndex = (data.indexShift : Int) + data.regina.length - 1) : Loaded data := by
  refine ⟨h1, ?_, h3⟩
  intro i line hi
  have hlt : i < data.regina.length := (List.getElem?_eq_some.mp hi).1
  have h := congrArg (fun l => l[i]?) h2
  simp only [List.getElem?_map, hi, Option.map_some', List.getElem?_range hlt] at h
  exact Option.some.inj h

/-- A completed scan has emitted, in order, the numbers of the accepted records of the
scanned range. -/
theorem advancedScan_done_emitted (data : reginaData) (uselist : Bool) (P : Params)
    (st : ScanState) (h : advancedScan data uselist P = .done st) :
    st.emitted = ((scannedRange data P).filter (accepts uselist P)).map (fun l => l.elA) := by
  unfold advancedScan at h
  obtain ⟨k, hk, hrun⟩ := forEach_done _ _ _ _ _ _ _ h
  have hem := runLines_visit_done uselist P _ _ _ hrun
  have hk' : k = (P.d + 1 - P.c).toNat := by omega
  simp only [List.nil_append] at hem
  rw [hem, hk']
  rfl

/-- On a loaded store, with a divisor `b >= 1` and the range inside the vector, the scan
completes; it emits only numbers of the range, and the number `n` of the range is
emitted iff the body of the scan accepts the record of `n`. -/
theorem advancedScan_emits (data : reginaData) (uselist : Bool) (P : Params)
    (hload : Loaded data) (hb : 1 ≤ P.b) (hin : InRange data P) :
    ∃ st, advancedScan data uselist P = .done st ∧
      st.emitted = ((scannedRange data P).filter (accepts uselist P)).map (fun l => l.elA) ∧
      (∀ n ∈ st.emitted, P.c ≤ n ∧ n ≤ P.d) ∧
      (∀ n, P.c ≤ n → n ≤ P.d → ∃ line, recordOf data n = some line ∧ line.elA = n ∧
        (n ∈ st.emitted ↔ accepts uselist P line = true)) := by
  have hlast := hload.last
  obtain ⟨h1, h2, h3⟩ := hin
  have hin : InRange data P := ⟨h1, h2, h3⟩
  obtain ⟨st, hst⟩ := runLines_visit_total uselist P (scannedRange data P)
    { emitted := [], rcount := 0, crlf := false } (fun line _ => cRem_of_pos _ _ hb)
  have hem := runLines_visit_done uselist P _ _ _ hst
  simp only [List.nil_append] at hem
  have hmem : ∀ n, n ∈ st.emitted ↔
      ∃ line, line ∈ scannedRange data P ∧ accepts uselist P line = true ∧ line.elA = n := by
    intro n
    rw [hem, List.mem_map]
    constructor
    · rintro ⟨line, hl, rfl⟩
      rw [List.mem_filter] at hl
      exact ⟨line, hl.1, hl.2, rfl⟩
    · rintro ⟨line, hl, ha, rfl⟩
      exact ⟨line, List.mem_filter.mpr ⟨hl, ha⟩, rfl⟩
  refine ⟨st, by rw [advancedScan_eq_runLines data uselist P hin]; exact hst, hem, ?_, ?_⟩
  · intro n hn
    obtain ⟨line, hl, _, hA⟩ := (hmem n).mp hn
    obtain ⟨m, hm1, hm2, hr⟩ := (mem_scannedRange_iff data P hin line).mp hl
    have := recordOf_elA data hload m line hr
    omega
  · intro n hn1 hn2
    obtain ⟨line, hr⟩ := recordOf_some data hload n (by omega) (by omega)
    have hA := recordOf_elA data hload n line hr
    refine ⟨line, hr, hA, ?_⟩
    rw [hmem]
    constructor
    · rintro ⟨line', hl, ha, hA'⟩
      obtain ⟨m, _, _, hr'⟩ := (mem_scannedRange_iff data P hin line').mp hl
      have hm := recordOf_elA data hload m line' hr'
      have : m = n := by omega
      subst this
      rw [hr] at hr'
      cases hr'
      exact ha
    · intro ha
      exact ⟨line, (mem_scannedRange_iff data P hin line).mpr ⟨n, hn1, hn2, hr⟩, ha, hA⟩

/-- The range prompt: the begin is at least 2 and the end at most `indexMax`. -/
theorem getParamPair_range (rg : Reply Int) (indexMax : Int) (hM : indexMax < int32Max) :
    2 ≤ (getParamPair int32Max rg 2 indexMax indexMax false).1 ∧
      (getParamPair int32Max rg 2 indexMax indexMax false).2 ≤ indexMax := by
  have hne : indexMax ≠ int32Max := by omega
  unfold getParamPair
  cases rg <;> simp only [extractPair] <;> constructor <;> split_ifs <;>
    simp only [int32Max] at * <;> omega

/-- The modulus prompt answered with an empty line leaves `a = 0`, and `b = 1` once the
store holds more than one record. -/
theorem getParamPair_modulus_blank (indexMax : Int) (h1 : 1 ≤ indexMax) :
    getParamPair int32Max Reply.blank 0 1 indexMax true = (0, 1) := by
  unfold getParamPair
  simp only [extractPair]
  have h : ¬ (indexMax < 1) := by omega
  simp [h]

/-- The parameters left by empty replies to the modulus prompt and to the fifteen range
prompts, with the selector on all. -/
theorem readParams_blank (indexMax : Int) (rg : Reply Int) (sel yn : Char)
    (h1 : 1 ≤ indexMax) (hsel : selectorCode sel = 2) :
    readParams indexMax { blankReplies with range := rg, selector := sel, yn := yn } =
      defaultParams (getParamPair int32Max rg 2 indexMax indexMax false).1
        (getParamPair int32Max rg 2 indexMax indexMax false).2 := by
  have hI : getParamPairInt Reply.blank = (0, 10000) := by decide
  have hD : getParamPairDouble Reply.blank = (0, 10000) := by decide
  have hW : getParamPair int32Max Reply.blank 0 3000 int32Max false = (0, 3000) := by decide
  simp only [readParams, blankReplies, defaultParams, hI, hD, hW,
    getParamPair_modulus_blank indexMax h1, hsel]

theorem findLoop_fst (primeToSearch : ℚ) :
    ∀ (lines seen : List reginaDataLine) (st : ScanState),
      (findLoop primeToSearch lines seen st).1 = seen ++ lines.map (tagFor primeToSearch) := by
  intro lines
  induction lines with
  | nil => intro seen st; simp [findLoop]
  | cons line rest ih =>
    intro seen st
    simp only [findLoop, ih, List.map_cons, List.append_assoc, List.singleton_append]
    congr 2
    unfold findVisit tagFor
    split <;> simp [*]

theorem findLoop_emitted (primeToSearch : ℚ) :
    ∀ (lines seen : List reginaDataLine) (st : ScanState),
      (findLoop primeToSearch lines seen st).2.emitted =
        st.emitted ++
          (lines.filter (fun l => decide (l.elD = primeToSearch))).map (fun l => l.elA) := by
  intro lines
  induction lines with
  | nil => intro seen st; simp [findLoop]
  | cons line rest ih =>
    intro seen st
    simp only [findLoop, ih]
    unfold findVisit
    by_cases h : line.elD = primeToSearch
    · simp [h, List.filter_cons]
    · simp [h, List.filter_cons]

/-- The store `primesfind` leaves: every record tagged with `elD == primeToSearch`. -/
theorem primesfindScan_regina (data : reginaData) (primeToSearch : ℚ) :
    (primesfindScan data primeToSearch).1.regina = data.regina.map (tagFor primeToSearch) := by
  simp [primesfindScan, findLoop_fst]

/-- The numbers `primesfind` lists: those of the records with `elD == primeToSearch`. -/
theorem primesfindScan_emitted (data : reginaData) (primeToSearch : ℚ) :
    (primesfindScan data primeToSearch).2.emitted =
      (data.regina.filter (fun l => decide (l.elD = primeToSearch))).map (fun l => l.elA) := by
  simp [primesfindScan, findLoop_emitted]

theorem accepts_tagFor (primeToSearch : ℚ) (P : Params) (line : reginaDataLine) :
    accepts true P (tagFor primeToSearch line) =
      (decide (line.elD = primeToSearch) && accepts false P line) := by
  unfold accepts filterShow tagFor
  by_cases h : line.elD = primeToSearch
  · simp [h]
  · simp [h]

/-- The records a scan visits on the store `primesfind` leaves are the tagged records
of the original scanned range. -/
theorem scannedRange_primesfindScan (data : reginaData) (primeToSearch : ℚ) (P : Params) :
    scannedRange (primesfindScan data primeToSearch).1 P =
      (scannedRange data P).map (tagFor primeToSearch) := by
  unfold scannedRange
  rw [primesfindScan_regina, List.map_take, List.map_drop]
  rfl

theorem reginaSize_primesfindScan (data : reginaData) (primeToSearch : ℚ) :
    reginaSize (primesfindScan data primeToSearch).1 = reginaSize data := by
  unfold reginaSize
  rw [primesfindScan_regina, List.length_map]

theorem findLoop_rcount (primeToSearch : ℚ) :
    ∀ (lines seen : List reginaDataLine) (st : ScanState),
      (findLoop primeToSearch lines seen st).2.rcount % 2 ^ 32 =
        (st.rcount + (lines.filter (fun l => decide (l.elD = primeToSearch))).length) % 2 ^ 32 := by
  intro lines
  induction lines with
  | nil => intro seen st; simp [findLoop]
  | cons line rest ih =>
    intro seen st
    simp only [findLoop, ih]
    unfold findVisit
    by_cases h : line.elD = primeToSearch
    · simp only [h, if_true, List.filter_cons, decide_True, List.length_cons]
      omega
    · simp [h, List.filter_cons]

theorem findLoop_rcount_lt (primeToSearch : ℚ) :
    ∀ (lines seen : List reginaDataLine) (st : ScanState), st.rcount < 2 ^ 32 →
      (findLoop primeToSearch lines seen st).2.rcount < 2 ^ 32 := by
  intro lines
  induction lines with
  | nil => intro seen st h; simpa [findLoop] using h
  | cons line rest ih =>
    intro seen st h
    simp only [findLoop]
    apply ih
    unfold findVisit
    split
    · exact Nat.mod_lt _ (by norm_num)
    · exact h

/-- The count `primesfind` reports: the number of records with `elD == primeToSearch`,
modulo `2^32`. -/
theorem primesfindScan_rcount (data : reginaData) (primeToSearch : ℚ) :
    (primesfindScan data primeToSearch).2.rcount =
      (data.regina.filter (fun l => decide (l.elD = primeToSearch))).length % 2 ^ 32 := by
  have h1 := findLoop_rcount primeToSearch data.regina []
    { emitted := [], rcount := 0, crlf := false }
  have h2 := findLoop_rcount_lt primeToSearch data.regina []
    { emitted := [], rcount := 0, crlf := false } (by norm_num)
  simp only [Nat.zero_add] at h1
  rw [Nat.mod_eq_of_lt h2] at h1
  exact h1

/-- When the answer to the listing prompt is `y`, `c` or `f`, `primesfind` lists what its
scan produces. -/
theorem primesfind_listed (data : reginaData) (primeToSearch : ℚ) (yn yn2 : Char) (r : Replies)
    (hyn : yn = 'y' ∨ yn = 'c' ∨ yn = 'f') :
    (primesfind data primeToSearch yn yn2 r).listed = some (primesfindScan data primeToSearch).2 := by
  have hyn' : ¬ (yn = 'n' ∨ (yn ≠ 'y' ∧ yn ≠ 'c' ∧ yn ≠ 'f')) := by
    rcases hyn with h | h | h <;> subst h <;> decide
  unfold primesfind
  simp only [hyn', if_false]
  by_cases h1 : (primesfindScan data primeToSearch).2.rcount > 1
  · by_cases h2 : yn2 = 'y'
    · simp only [h1, h2, if_true]
    · simp only [h1, h2, if_true, if_false]
  · simp only [h1, if_false]

/-- Whatever the answers, what `primesfind` lists is what its scan produces. -/
theorem primesfind_listed_some (data : reginaData) (primeToSearch : ℚ) (yn yn2 : Char)
    (r : Replies) (st : ScanState)
    (h : (primesfind data primeToSearch yn yn2 r).listed = some st) :
    st = (primesfindScan data primeToSearch).2 := by
  unfold primesfind at h
  by_cases h0 : yn = 'n' ∨ (yn ≠ 'y' ∧ yn ≠ 'c' ∧ yn ≠ 'f')
  · simp [h0] at h
  · simp only [h0, if_false] at h
    by_cases h1 : (primesfindScan data primeToSearch).2.rcount > 1
    · by_cases h2 : yn2 = 'y'
      · simp only [h1, h2, if_true, Option.some.injEq] at h
        exact h.symm
      · simp only [h1, h2, if_true, if_false, Option.some.injEq] at h
        exact h.symm
    · simp only [h1, if_false, Option.some.injEq] at h
      exact h.symm


theorem firstAt_eq_some (ch : Char) :
    ∀ (text : List Char) (i : Nat), text[i]? = some ch → (∀ j, j < i → text[j]? ≠ some ch) →
      firstAt ch text = some i := by
  intro text
  induction text with
  | nil => intro i h _; simp at h
  | cons c rest ih =>
    intro i h hfirst
    cases i with
    | zero =>
      simp only [List.getElem?_cons_zero, Option.some.injEq] at h
      simp [firstAt, h]
    | succ k =>
      have hc : c ≠ ch := by
        intro hc
        exact hfirst 0 (Nat.succ_pos k) (by simp [hc])
      simp only [List.getElem?_cons_succ] at h
      have := ih k h (fun j hj => by
        have := hfirst (j + 1) (by omega)
        simpa using this)
      simp [firstAt, hc, this]

/-- The call `line.find(ch, pos)` returns the offset `k` when `k` is the first offset at
or after `pos` that holds `ch`. -/
theorem strFind_eq (text : List Char) (ch : Char) (pos k : Nat) (hpos : pos ≤ k)
    (he : text[k]? = some ch) (hfirst : ∀ i, pos ≤ i → i < k → text[i]? ≠ some ch) :
    strFind text ch pos = k := by
  unfold strFind
  have h := firstAt_eq_some ch (text.drop pos) (k - pos)
    (by rw [List.getElem?_drop]; rw [show pos + (k - pos) = k by omega]; exact he)
    (fun j hj => by
      rw [List.getElem?_drop]
      exact hfirst (pos + j) (by omega) (by omega))
  rw [h]
  simp only
  omega


theorem bumpLoop_map (elD : String) (f : String → Int) :
    ∀ ps : List String,
      bumpLoop elD ps (ps.map f) =
        (decide (elD ∈ ps), ps.map (fun p => if elD = p then f p + 1 else f p)) := by
  intro ps
  induction ps with
  | nil => simp [bumpLoop]
  | cons p rest ih =>
    simp only [List.map_cons, bumpLoop, ih]
    by_cases h : elD = p
    · simp [h]
    · simp [h]

theorem primesOf_append (done : List seqdata) (record : seqdata) :
    primesOf (done ++ [record]) =
      if record.elB = 1 then primesOf done ++ [record.elD] else primesOf done := by
  unfold primesOf
  by_cases h : record.elB = 1
  · simp [h, List.filter_append, List.filter_cons]
  · simp [h, List.filter_append, List.filter_cons]

theorem groupVisit_grouped (t : PrimeTable) (done : List seqdata) (record : seqdata)
    (h : Grouped t done) (bound : Nat)
    (hbound : ∀ l : List String, l.Nodup → (∀ p ∈ l, p ∈ primesOf (done ++ [record])) →
      l.length ≤ bound)
    (hcap : bound ≤ 2000000) :
    ∃ t', groupVisit t record = some t' ∧ Grouped t' (done ++ [record]) := by
  obtain ⟨hnd, hmem, hcount⟩ := h
  unfold groupVisit
  by_cases hB : record.elB = 1
  · simp only [hB, if_true]
    rw [hcount, bumpLoop_map]
    simp only [decide_eq_false_iff_not]
    by_cases hin : record.elD ∈ t.plist
    · simp only [hin, not_true_eq_false, if_false]
      refine ⟨_, rfl, ⟨hnd, ?_, ?_⟩⟩
      · intro p
        rw [primesOf_append, if_pos hB, List.mem_append, List.mem_singleton, ← hmem]
        constructor
        · exact Or.inl
        · rintro (hp | rfl)
          · exact hp
          · exact hin
      · simp only
        apply List.map_congr_left
        intro p _
        rw [primesOf_append, if_pos hB, List.count_append]
        by_cases hp : record.elD = p
        · simp [hp]
        · have : p ≠ record.elD := fun h => hp h.symm
          simp [hp, List.count_singleton, this]
    · simp only [hin, not_false_eq_true, if_true]
      have hnd' : (t.plist ++ [record.elD]).Nodup := by
        rw [List.nodup_append]
        refine ⟨hnd, List.nodup_singleton _, ?_⟩
        intro a ha hb
        rw [List.mem_singleton] at hb
        exact hin (hb ▸ ha)
      have hmem' : ∀ p, p ∈ t.plist ++ [record.elD] ↔ p ∈ primesOf (done ++ [record]) := by
        intro p
        rw [primesOf_append, if_pos hB, List.mem_append, List.mem_append, hmem]
      have hlen := hbound (t.plist ++ [record.elD]) hnd' (fun p hp => (hmem' p).mp hp)
      simp only [List.length_append, List.length_singleton] at hlen
      have hlt : t.plist.length < 2000000 := by omega
      simp only [hlt, if_true]
      refine ⟨_, rfl, ⟨hnd', hmem', ?_⟩⟩
      simp only [List.map_append, List.map_cons, List.map_nil]
      have hnot : record.elD ∉ primesOf done := fun hp => hin ((hmem _).mpr hp)
      congr 1
      · apply List.map_congr_left
        intro p hp
        have hne : record.elD ≠ p := fun h => hin (h ▸ hp)
        have hne' : p ≠ record.elD := fun h => hne h.symm
        rw [primesOf_append, if_pos hB, List.count_append]
        simp [hne, List.count_singleton, hne']
      · rw [primesOf_append, if_pos hB, List.count_append, List.count_eq_zero_of_not_mem hnot]
        simp
  · simp only [hB, if_false]
    refine ⟨t, rfl, ⟨hnd, ?_, ?_⟩⟩
    · intro p
      rw [primesOf_append, if_neg hB]
      exact hmem p
    · rw [primesOf_append, if_neg hB]
      exact hcount

theorem groupLoop_grouped :
    ∀ (rest done : List seqdata) (t : PrimeTable), Grouped t done →
      (∀ l : List String, l.Nodup → (∀ p ∈ l, p ∈ primesOf (done ++ rest)) →
        l.length ≤ 2000000) →
      ∃ t', groupLoop rest t = some t' ∧ Grouped t' (done ++ rest) := by
  intro rest
  induction rest with
  | nil =>
    intro done t h _
    exact ⟨t, rfl, by simpa using h⟩
  | cons record rest ih =>
    intro done t h hbound
    have hsub : ∀ p, p ∈ primesOf (done ++ [record]) → p ∈ primesOf (done ++ record :: rest) := by
      intro p hp
      unfold primesOf at hp ⊢
      rw [List.mem_map] at hp ⊢
      obtain ⟨x, hx, rfl⟩ := hp
      rw [List.mem_filter] at hx
      refine ⟨x, List.mem_filter.mpr ⟨?_, hx.2⟩, rfl⟩
      have := hx.1
      simp only [List.mem_append, List.mem_singleton] at this
      simp only [List.mem_append, List.mem_cons]
      rcases this with h1 | h1
      · exact Or.inl h1
      · exact Or.inr (Or.inl h1)
    obtain ⟨t1, h1, hg1⟩ := groupVisit_grouped t done record h 2000000
      (fun l hl hp => hbound l hl (fun p hpl => hsub p (hp p hpl))) (le_refl _)
    simp only [groupLoop, h1]
    have := ih (done ++ [record]) t1 hg1 (by
      intro l hl hp
      apply hbound l hl
      intro p hpl
      have := hp p hpl
      simpa using this)
    simpa using this

/-- A list without repetition whose entries all belong to `l` is not longer than `l`
without its repetitions. -/
theorem length_le_dedup (l m : List String) (hm : m.Nodup) (hsub : ∀ p ∈ m, p ∈ l) :
    m.length ≤ l.dedup.length := by
  have hs : m ⊆ l.dedup := fun p hp => List.mem_dedup.mpr (hsub p hp)
  exact (List.subperm_of_subset hm hs).length_le

/-! ## Lemmas on the sort of `seqinfo.cpp` -/

theorem compareChars_swap : ∀ x y : List Char, compareChars y x = - compareChars x y := by
  intro x
  induction x with
  | nil => intro y; cases y <;> simp [compareChars]
  | cons a x ih =>
    intro y
    cases y with
    | nil => simp [compareChars]
    | cons b y =>
      simp only [compareChars]
      rcases lt_trichotomy a b with h | h | h
      · simp [h, lt_asymm h]
      · subst h
        simp [ih]
      · simp [h, lt_asymm h]

theorem compareChars_eq_zero : ∀ x y : List Char, compareChars x y = 0 → x = y := by
  intro x
  induction x with
  | nil => intro y h; cases y <;> simp_all [compareChars]
  | cons a x ih =>
    intro y h
    cases y with
    | nil => simp [compareChars] at h
    | cons b y =>
      simp only [compareChars] at h
      rcases lt_trichotomy a b with hab | hab | hab
      · simp [hab] at h
      · subst hab
        simp only [lt_self_iff_false, if_false] at h
        rw [ih y h]
      · simp [hab, lt_asymm hab] at h

theorem compareChars_le_one : ∀ x y : List Char, compareChars x y ≤ 1 := by
  intro x
  induction x with
  | nil => intro y; cases y <;> simp [compareChars]
  | cons a x ih =>
    intro y
    cases y with
    | nil => simp [compareChars]
    | cons b y =>
      simp only [compareChars]
      split_ifs <;> first | omega | exact ih y

theorem compareChars_trans :
    ∀ x y z : List Char, compareChars x y ≤ 0 → compareChars y z ≤ 0 → compareChars x z ≤ 0 := by
  intro x
  induction x with
  | nil => intro y z _ _; cases z <;> simp [compareChars]
  | cons a x ih =>
    intro y z hxy hyz
    cases y with
    | nil => simp [compareChars] at hxy
    | cons b y =>
      cases z with
      | nil => simp [compareChars] at hyz
      | cons c z =>
        simp only [compareChars] at hxy hyz ⊢
        rcases lt_trichotomy a b with hab | hab | hab
        · rcases lt_trichotomy b c with hbc | hbc | hbc
          · simp [lt_trans hab hbc]
          · subst hbc; simp [hab]
          · simp [hbc, lt_asymm hbc] at hyz
        · subst hab
          rcases lt_trichotomy a c with hbc | hbc | hbc
          · simp [hbc]
          · subst hbc
            simp only [lt_self_iff_false, if_false] at hxy hyz ⊢
            exact ih y z hxy hyz
          · simp [hbc, lt_asymm hbc] at hyz
        · simp [hab, lt_asymm hab] at hxy

theorem shortlexLe_total (x y : String) : shortlexLe x y ∨ shortlexLe y x := by
  unfold shortlexLe
  rcases lt_trichotomy x.length y.length with h | h | h
  · exact Or.inl (Or.inl h)
  · have := compareChars_swap x.data y.data
    by_cases hc : compareChars x.data y.data ≤ 0
    · exact Or.inl (Or.inr ⟨h, hc⟩)
    · exact Or.inr (Or.inr ⟨h.symm, by omega⟩)
  · exact Or.inr (Or.inl h)

theorem shortlexLe_trans (x y z : String) (hxy : shortlexLe x y) (hyz : shortlexLe y z) :
    shortlexLe x z := by
  unfold shortlexLe at *
  rcases hxy with h1 | ⟨h1, c1⟩
  · rcases hyz with h2 | ⟨h2, _⟩
    · exact Or.inl (by omega)
    · exact Or.inl (by omega)
  · rcases hyz with h2 | ⟨h2, c2⟩
    · exact Or.inl (by omega)
    · exact Or.inr ⟨by omega, compareChars_trans _ _ _ c1 c2⟩

theorem bubbleFrom_perm {α : Type} (le : α → α → Prop) [DecidableRel le] :
    ∀ (rest : List α) (a : α), (bubbleFrom le a rest).Perm (a :: rest) := by
  intro rest
  induction rest with
  | nil => intro a; exact List.Perm.refl _
  | cons b rest ih =>
    intro a
    simp only [bubbleFrom]
    split
    · exact (ih b).cons a
    · exact ((ih a).cons b).trans (List.Perm.swap a b rest)

theorem bubble_perm {α : Type} (le : α → α → Prop) [DecidableRel le] (l : List α) :
    (bubble le l).Perm l := by
  cases l with
  | nil => exact List.Perm.refl _
  | cons a rest => exact bubbleFrom_perm le rest a

theorem bubbleFrom_last {α : Type} (le : α → α → Prop) [DecidableRel le]
    (htotal : ∀ a b, le a b ∨ le b a) (htrans : ∀ a b c, le a b → le b c → le a c) :
    ∀ (rest : List α) (a : α),
      ∃ init m, bubbleFrom le a rest = init ++ [m] ∧ ∀ z ∈ a :: rest, le z m := by
  intro rest
  induction rest with
  | nil =>
    intro a
    refine ⟨[], a, rfl, ?_⟩
    intro z hz
    rw [List.mem_singleton] at hz
    subst hz
    exact (htotal z z).elim id id
  | cons b rest ih =>
    intro a
    simp only [bubbleFrom]
    by_cases h : le a b
    · obtain ⟨init, m, hm, hmax⟩ := ih b
      refine ⟨a :: init, m, by simp [h, hm], ?_⟩
      intro z hz
      rcases List.mem_cons.mp hz with rfl | hz
      · exact htrans _ _ _ h (hmax b (List.mem_cons_self _ _))
      · exact hmax z hz
    · obtain ⟨init, m, hm, hmax⟩ := ih a
      have hba : le b a := (htotal a b).resolve_left h
      refine ⟨b :: init, m, by simp [h, hm], ?_⟩
      intro z hz
      rcases List.mem_cons.mp hz with rfl | hz
      · exact hmax z (List.mem_cons_self _ _)
      · rcases List.mem_cons.mp hz with rfl | hz
        · exact htrans _ _ _ hba (hmax a (List.mem_cons_self _ _))
        · exact hmax z (List.mem_cons_of_mem _ hz)

theorem bubbleFrom_sorted {α : Type} (le : α → α → Prop) [DecidableRel le] :
    ∀ (s : List α) (a : α), (∀ y ∈ s, le a y) → s.Pairwise le → bubbleFrom le a s = a :: s := by
  intro s
  induction s with
  | nil => intro a _ _; rfl
  | cons b s ih =>
    intro a ha hs
    have hab : le a b := ha b (List.mem_cons_self _ _)
    rw [List.pairwise_cons] at hs
    simp only [bubbleFrom, hab, if_true]
    rw [ih b hs.1 hs.2]

theorem bubbleFrom_append {α : Type} (le : α → α → Prop) [DecidableRel le] :
    ∀ (r : List α) (a : α) (s : List α), (∀ z ∈ a :: r, ∀ y ∈ s, le z y) → s.Pairwise le →
      bubbleFrom le a (r ++ s) = bubbleFrom le a r ++ s := by
  intro r
  induction r with
  | nil =>
    intro a s h hs
    simp only [List.nil_append, bubbleFrom, List.singleton_append]
    exact bubbleFrom_sorted le s a (h a (List.mem_cons_self _ _)) hs
  | cons b r ih =>
    intro a s h hs
    simp only [List.cons_append, bubbleFrom, List.append_eq]
    split
    · rw [ih b s (fun z hz => h z (List.mem_cons_of_mem _ hz)) hs]
      rfl
    · rw [ih a s (fun z hz => h z (by
        rcases List.mem_cons.mp hz with rfl | hz
        · exact List.mem_cons_self _ _
        · exact List.mem_cons_of_mem _ (List.mem_cons_of_mem _ hz))) hs]
      rfl

/-- After `k` sweeps the list is an unsettled part followed by a sorted part that
dominates it, and the unsettled part has lost `k` entries or is empty. -/
theorem bubble_iterate {α : Type} (le : α → α → Prop) [DecidableRel le]
    (htotal : ∀ a b, le a b ∨ le b a) (htrans : ∀ a b c, le a b → le b c → le a c)
    (l : List α) :
    ∀ k : Nat, ∃ u s, (bubble le)^[k] l = u ++ s ∧ s.Pairwise le ∧
      (∀ x ∈ u, ∀ y ∈ s, le x y) ∧ (u.length + k ≤ l.length ∨ u = []) := by
  intro k
  induction k with
  | zero => exact ⟨l, [], by simp, List.Pairwise.nil, by simp, Or.inl (by simp)⟩
  | succ k ih =>
    obtain ⟨u, s, hus, hs, hdom, hlen⟩ := ih
    rw [Function.iterate_succ_apply', hus]
    cases u with
    | nil =>
      refine ⟨[], s, ?_, hs, by simp, Or.inr rfl⟩
      simp only [List.nil_append]
      cases s with
      | nil => rfl
      | cons a s' =>
        rw [List.pairwise_cons] at hs
        exact bubbleFrom_sorted le s' a hs.1 hs.2
    | cons a r =>
      have hlen' : (a :: r).length + k ≤ l.length := by
        rcases hlen with h | h
        · exact h
        · cases h
      obtain ⟨init, m, hm, hmax⟩ := bubbleFrom_last le htotal htrans r a
      have hperm := bubbleFrom_perm le r a
      rw [hm] at hperm
      have hmem : ∀ x, x ∈ init ++ [m] → x ∈ a :: r := fun x hx => hperm.subset hx
      have hplen := hperm.length_eq
      simp only [List.length_append, List.length_singleton, List.length_cons] at hplen hlen'
      refine ⟨init, m :: s, ?_, ?_, ?_, Or.inl (by omega)⟩
      · show bubbleFrom le a (r ++ s) = init ++ m :: s
        rw [bubbleFrom_append le r a s hdom hs, hm]
        simp
      · rw [List.pairwise_cons]
        exact ⟨fun y hy => hdom m (hmem m (by simp)) y hy, hs⟩
      · intro x hx y hy
        rcases List.mem_cons.mp hy with rfl | hy
        · exact hmax x (hmem x (by simp [hx]))
        · exact hdom x (hmem x (by simp [hx])) y hy

/-- As many sweeps as the list has entries, less one, leave the list sorted. -/
theorem bubble_sorts {α : Type} (le : α → α → Prop) [DecidableRel le]
    (htotal : ∀ a b, le a b ∨ le b a) (htrans : ∀ a b c, le a b → le b c → le a c)
    (l : List α) : ((bubble le)^[l.length - 1] l).Pairwise le := by
  obtain ⟨u, s, hus, hs, hdom, hlen⟩ := bubble_iterate le htotal htrans l (l.length - 1)
  rw [hus]
  cases u with
  | nil => simpa using hs
  | cons a r =>
    have hr : r = [] := by
      rcases hlen with h | h
      · simp only [List.length_cons] at h
        have : r.length = 0 := by omega
        exact List.length_eq_zero.mp this
      · cases h
    subst hr
    simp only [List.singleton_append, List.pairwise_cons]
    exact ⟨fun y hy => hdom a (by simp) y hy, hs⟩

theorem bubble_iterate_perm {α : Type} (le : α → α → Prop) [DecidableRel le] (l : List α) :
    ∀ k : Nat, ((bubble le)^[k] l).Perm l := by
  intro k
  induction k with
  | zero => exact List.Perm.refl _
  | succ k ih =>
    rw [Function.iterate_succ_apply']
    exact (bubble_perm le _).trans ih

theorem swapAt_cons {α : Type} (c : α) (l : List α) (j : Nat) :
    swapAt (c :: l) (j + 2) = c :: swapAt l (j + 1) := by
  unfold swapAt
  simp only [Nat.add_sub_cancel, List.getElem?_cons_succ, show j + 2 - 1 = j + 1 by omega]
  cases l[j]? <;> cases l[j + 1]? <;> simp [List.set_cons_succ]

/-- The exchange of two neighbours inside an array. -/
theorem swapAt_append {α : Type} (a b : α) (rest : List α) :
    ∀ pre : List α, swapAt (pre ++ a :: b :: rest) (pre.length + 1) = pre ++ b :: a :: rest := by
  intro pre
  induction pre with
  | nil => simp [swapAt]
  | cons c pre ih =>
    simp only [List.cons_append, List.length_cons]
    rw [swapAt_cons, ih]

theorem getD_append_here {α : Type} (a : α) (rest : List α) (d : α) :
    ∀ pre : List α, (pre ++ a :: rest).getD pre.length d = a := by
  intro pre
  induction pre with
  | nil => rfl
  | cons c pre ih => simpa using ih

theorem getD_append_next {α : Type} (pre : List α) (a b : α) (rest : List α) (d : α) :
    (pre ++ a :: b :: rest).getD (pre.length + 1) d = b := by
  have : pre ++ a :: b :: rest = (pre ++ [a]) ++ b :: rest := by simp
  rw [this]
  have hl : pre.length + 1 = (pre ++ [a]).length := by simp
  rw [hl]
  exact getD_append_here _ _ _ _

/-- The body of the inner loop of the sort on two neighbours: the two swaps together put
the pair in the order `entryLe`. -/
theorem sortVisit_tableOf (pre : List (String × Int)) (x y : String × Int)
    (rest : List (String × Int)) :
    sortVisit (tableOf (pre ++ x :: y :: rest)) (pre.length + 1) =
      tableOf (if entryLe x y then pre ++ x :: y :: rest else pre ++ y :: x :: rest) := by
  have hget1 : ∀ l : List (String × Int), l = pre ++ x :: y :: rest →
      (l.map (fun e => e.1)).getD pre.length "" = x.1 := by
    intro l hl
    subst hl
    have := getD_append_here x.1 ((y :: rest).map (fun e => e.1)) "" (pre.map (fun e => e.1))
    simpa using this
  have hget2 : ∀ l : List (String × Int), l = pre ++ x :: y :: rest →
      (l.map (fun e => e.1)).getD (pre.length + 1) "" = y.1 := by
    intro l hl
    subst hl
    have := getD_append_next (pre.map (fun e => e.1)) x.1 y.1 (rest.map (fun e => e.1)) ""
    simpa using this
  have hswap : ∀ (β : Type) (f : String × Int → β) (a b : String × Int),
      swapAt ((pre ++ a :: b :: rest).map f) (pre.length + 1) = (pre ++ b :: a :: rest).map f := by
    intro β f a b
    have := swapAt_append (f a) (f b) (rest.map f) (pre.map f)
    simpa using this
  have hget1' : ∀ l : List (String × Int), l = pre ++ y :: x :: rest →
      (l.map (fun e => e.1)).getD pre.length "" = y.1 := by
    intro l hl
    subst hl
    have := getD_append_here y.1 ((x :: rest).map (fun e => e.1)) "" (pre.map (fun e => e.1))
    simpa using this
  have hget2' : ∀ l : List (String × Int), l = pre ++ y :: x :: rest →
      (l.map (fun e => e.1)).getD (pre.length + 1) "" = x.1 := by
    intro l hl
    subst hl
    have := getD_append_next (pre.map (fun e => e.1)) y.1 x.1 (rest.map (fun e => e.1)) ""
    simpa using this
  unfold sortVisit
  simp only [tableOf, Nat.add_sub_cancel, hget1 _ rfl, hget2 _ rfl, hswap]
  by_cases hc : compareChars x.1.data y.1.data > 0
  · simp only [hc, if_true, hget1' _ rfl, hget2' _ rfl, hswap]
    by_cases hl : y.1.length > x.1.length
    · have hle : entryLe x y := Or.inl hl
      rw [if_pos hl, if_pos hle]
    · have hle : ¬ entryLe x y := by
        rintro (h | ⟨_, h⟩) <;> omega
      rw [if_neg hl, if_neg hle]
  · simp only [hc, if_false, hget1 _ rfl, hget2 _ rfl, hswap]
    by_cases hl : x.1.length > y.1.length
    · have hle : ¬ entryLe x y := by
        rintro (h | ⟨h, _⟩) <;> omega
      rw [if_pos hl, if_neg hle]
    · have hle : entryLe x y := by
        by_cases he : x.1.length = y.1.length
        · exact Or.inr ⟨he, by omega⟩
        · exact Or.inl (by omega)
      rw [if_neg hl, if_pos hle]

/-- The inner loop of the sort from the index after `pre` on is a sweep that carries
the entry found there. -/
theorem sortVisit_foldl :
    ∀ (tail pre : List (String × Int)) (x : String × Int),
      (List.range' (pre.length + 1) tail.length).foldl sortVisit (tableOf (pre ++ x :: tail)) =
        tableOf (pre ++ bubbleFrom entryLe x tail) := by
  intro tail
  induction tail with
  | nil => intro pre x; simp [bubbleFrom]
  | cons y rest ih =>
    intro pre x
    simp only [List.length_cons, List.range'_succ, List.foldl_cons, sortVisit_tableOf, bubbleFrom]
    by_cases h : entryLe x y
    · simp only [h, if_true]
      have := ih (pre ++ [x]) y
      simp only [List.length_append, List.length_singleton, List.append_assoc,
        List.singleton_append] at this
      exact this
    · simp only [h, if_false]
      have := ih (pre ++ [y]) x
      simp only [List.length_append, List.length_singleton, List.append_assoc,
        List.singleton_append] at this
      exact this

/-- The inner loop of the sort is one sweep over the pairs. -/
theorem sortPass_tableOf (l : List (String × Int)) :
    sortPass l.length (tableOf l) = tableOf (bubble entryLe l) := by
  unfold sortPass
  cases l with
  | nil => simp [bubble]
  | cons x tail =>
    have := sortVisit_foldl tail [] x
    simpa [bubble] using this

/-- The sort is `pcount - 1` sweeps over the pairs. -/
theorem sortLoop_tableOf (l : List (String × Int)) :
    sortLoop l.length (tableOf l) = tableOf ((bubble entryLe)^[l.length - 1] l) := by
  unfold sortLoop
  have key : ∀ k : Nat, (List.range k).foldl (fun acc _ => sortPass l.length acc) (tableOf l) =
      tableOf ((bubble entryLe)^[k] l) := by
    intro k
    induction k with
    | zero => simp
    | succ k ih =>
      rw [List.range_succ, List.foldl_append, ih, Function.iterate_succ_apply']
      simp only [List.foldl_cons, List.foldl_nil]
      have hlen : ((bubble entryLe)^[k] l).length = l.length :=
        (bubble_iterate_perm entryLe l k).length_eq
      rw [← hlen, sortPass_tableOf]
  exact key _

theorem tableOf_zip (t : PrimeTable) (h : t.plist.length = t.plcount.length) :
    tableOf (t.plist.zip t.plcount) = t := by
  cases t with
  | mk plist plcount =>
    simp only at h
    simp only [tableOf, PrimeTable.mk.injEq]
    constructor
    · exact List.map_fst_zip _ _ (le_of_eq h)
    · exact List.map_snd_zip _ _ (le_of_eq h.symm)

theorem digit_toNat (c : Char) (h : '0' ≤ c ∧ c ≤ '9') : 48 ≤ c.toNat ∧ c.toNat ≤ 57 :=
  ⟨h.1, h.2⟩

theorem char_lt_toNat (a b : Char) (h : a < b) : a.toNat < b.toNat := h

theorem decimalValue_lt :
    ∀ s : List Char, (∀ c ∈ s, '0' ≤ c ∧ c ≤ '9') → decimalValue s < 10 ^ s.length := by
  intro s
  induction s with
  | nil => intro _; simp [decimalValue]
  | cons c rest ih =>
    intro h
    have hc := digit_toNat c (h c (List.mem_cons_self _ _))
    have hr := ih (fun d hd => h d (List.mem_cons_of_mem _ hd))
    have hd : digitOf c ≤ 9 := by unfold digitOf; omega
    simp only [decimalValue, List.length_cons, pow_succ]
    nlinarith [Nat.mul_le_mul_right (10 ^ rest.length) hd]

theorem decimalValue_ge (s : List Char) (h : IsDecimal s) :
    10 ^ (s.length - 1) ≤ decimalValue s := by
  obtain ⟨hne, hdig, hhead⟩ := h
  cases s with
  | nil => exact absurd rfl hne
  | cons c rest =>
    have hc := digit_toNat c (hdig c (List.mem_cons_self _ _))
    have hc0 : c.toNat ≠ 48 := by
      intro h48
      apply hhead
      simp only [List.head?_cons, Option.some.injEq]
      apply Char.eq_of_val_eq
      apply UInt32.eq_of_val_eq
      apply Fin.eq_of_val_eq
      exact h48
    have hd : 1 ≤ digitOf c := by unfold digitOf; omega
    simp only [decimalValue, List.length_cons, Nat.add_sub_cancel]
    nlinarith [Nat.mul_le_mul_right (10 ^ rest.length) hd]

theorem decimalValue_lt_of_compare :
    ∀ x y : List Char, x.length = y.length → (∀ c ∈ x, '0' ≤ c ∧ c ≤ '9') →
      (∀ c ∈ y, '0' ≤ c ∧ c ≤ '9') → compareChars x y < 0 →
      decimalValue x < decimalValue y := by
  intro x
  induction x with
  | nil =>
    intro y hl _ _ hc
    cases y with
    | nil => simp [compareChars] at hc
    | cons b y => simp at hl
  | cons a x ih =>
    intro y hl hx hy hc
    cases y with
    | nil => simp at hl
    | cons b y =>
      simp only [List.length_cons, Nat.add_right_cancel_iff] at hl
      have ha := digit_toNat a (hx a (List.mem_cons_self _ _))
      have hb := digit_toNat b (hy b (List.mem_cons_self _ _))
      have hxlt := decimalValue_lt x (fun d hd => hx d (List.mem_cons_of_mem _ hd))
      simp only [compareChars] at hc
      simp only [decimalValue, hl]
      rw [hl] at hxlt
      rcases lt_trichotomy a b with hab | hab | hab
      · have := char_lt_toNat a b hab
        have hd : digitOf a + 1 ≤ digitOf b := by unfold digitOf; omega
        nlinarith [Nat.mul_le_mul_right (10 ^ y.length) hd]
      · subst hab
        simp only [lt_self_iff_false, if_false] at hc
        have := ih y hl (fun d hd => hx d (List.mem_cons_of_mem _ hd))
          (fun d hd => hy d (List.mem_cons_of_mem _ hd)) hc
        omega
      · simp [hab, lt_asymm hab] at hc

theorem string_length_data (s : String) : s.length = s.data.length := by
  cases s; rfl

/-- On decimal strings without leading zero the order of the sort is the order of the
numbers they write. -/
theorem decimalValue_lt_of_shortlexLt (x y : String) (hx : IsDecimal x.data)
    (hy : IsDecimal y.data) (h : shortlexLt x y) :
    decimalValue x.data < decimalValue y.data := by
  unfold shortlexLt at h
  rw [string_length_data, string_length_data] at h
  rcases h with h | ⟨h, hc⟩
  · have h1 := decimalValue_lt x.data hx.2.1
    have h2 := decimalValue_ge y.data hy
    have h3 : 10 ^ x.data.length ≤ 10 ^ (y.data.length - 1) :=
      Nat.pow_le_pow_right (by norm_num) (by omega)
    omega
  · exact decimalValue_lt_of_compare _ _ h hx.2.1 hy.2.1 hc

theorem shortlexLt_of_le_of_ne (x y : String) (h : shortlexLe x y) (hne : x ≠ y) :
    shortlexLt x y := by
  unfold shortlexLe at h
  unfold shortlexLt
  rcases h with h | ⟨h, hc⟩
  · exact Or.inl h
  · right
    refine ⟨h, ?_⟩
    have h0 : compareChars x.data y.data ≠ 0 := by
      intro h0
      exact hne (String.ext (compareChars_eq_zero _ _ h0))
    omega


/-! ## Lemmas on the filter of `seqinfo.cpp` -/

theorem showStep (sh : Bool) (c : Prop) [Decidable c] :
    (if sh = true ∧ c then false else sh) = (sh && !decide c) := by
  cases sh <;> by_cases h : c <;> simp [h]

/-- On records that carry the same values, the `show` flag of `seqinfo.cpp` is the test
of the body of the scan of `seqinfo_double.cpp`. -/
theorem showFlag_eq (uselist : Bool) (P : Params) (line : reginaDataLine) (sd : seqdata)
    (sdd : seqdatad) (h : SameRecord line sd sdd) :
    showFlag uselist P line.elA sd sdd =
      (cRem line.elA P.b).map (fun rem => decide (P.a = rem) && filterShow uselist P line) := by
  unfold showFlag
  cases cRem line.elA P.b with
  | none => rfl
  | some rem =>
    have h0 : (if P.a ≠ rem then false else true) = decide (P.a = rem) := by
      by_cases ha : P.a = rem <;> simp [ha]
    simp only [showStep, h0, Option.map_some', h.elB, h.elC, h.elG, h.elH, h.elI, h.elJ, h.elK,
      h.elL, h.elM, h.elN, h.elO, h.elP, h.elQ, h.elR, h.elS, h.elT, h.ulist]
    unfold filterShow
    simp only [Bool.decide_and, Bool.decide_or, Bool.not_or, Bool.and_assoc, Bool.decide_eq_true,
      Bool.decide_eq_false, beq_true, beq_false]

theorem oldVisit_eq_visit (seqd : Nat → seqdata) (seqdd : Nat → seqdatad) (uselist : Bool)
    (P : Params) (st : ScanState) (line : reginaDataLine)
    (h : SameRecord line (seqd line.elA.toNat) (seqdd line.elA.toNat))
    (hr : st.rcount + 1 < 2 ^ 32) :
    oldVisit seqd seqdd uselist P st line.elA = visit uselist P st line := by
  unfold oldVisit visit
  rw [showFlag_eq uselist P line _ _ h]
  cases cRem line.elA P.b with
  | none => rfl
  | some rem =>
    simp only [Option.map_some', Nat.mod_eq_of_lt hr]
    by_cases ha : P.a = rem
    · by_cases hf : filterShow uselist P line = true <;> simp [ha, hf]
    · simp [ha]

theorem visit_rcount_le (uselist : Bool) (P : Params) (st st' : ScanState)
    (line : reginaDataLine) (h : visit uselist P st line = some st') :
    st'.rcount ≤ st.rcount + 1 := by
  rw [visit_some uselist P st st' line h]
  split
  · exact Nat.mod_le _ _
  · exact Nat.le_succ _

/-- The loop of `seqinfo.cpp` over the indices of a list of records is the fold of the
scan body of `seqinfo_double.cpp` over these records, as long as the count stays below
`2^32`. -/
theorem oldRun_eq_runLines (seqd : Nat → seqdata) (seqdd : Nat → seqdatad) (uselist : Bool)
    (P : Params) :
    ∀ (lines : List reginaDataLine) (st : ScanState),
      (∀ line ∈ lines, SameRecord line (seqd line.elA.toNat) (seqdd line.elA.toNat)) →
      st.rcount + lines.length < 2 ^ 32 →
      oldRun (oldVisit seqd seqdd uselist P) st (lines.map (fun l => l.elA)) =
        runLines (visit uselist P) st lines := by
  intro lines
  induction lines with
  | nil => intro st _ _; rfl
  | cons line rest ih =>
    intro st hsame hr
    simp only [List.length_cons] at hr
    simp only [List.map_cons, oldRun, runLines]
    rw [oldVisit_eq_visit seqd seqdd uselist P st line (hsame line (List.mem_cons_self _ _))
      (by omega)]
    cases hv : visit uselist P st line with
    | none => rfl
    | some st1 =>
      simp only []
      have hle := visit_rcount_le uselist P st st1 line hv
      exact ih st1 (fun l hl => hsame l (List.mem_cons_of_mem _ hl)) (by omega)

/-- A completed fold of the scan body counts what it emits, as long as the count stays
below `2^32`. -/
theorem runLines_visit_rcount (uselist : Bool) (P : Params) :
    ∀ (lines : List reginaDataLine) (st st' : ScanState),
      st.rcount = st.emitted.length → st.rcount + lines.length < 2 ^ 32 →
      runLines (visit uselist P) st lines = .done st' → st'.rcount = st'.emitted.length := by
  intro lines
  induction lines with
  | nil =>
    intro st st' h0 _ h
    simp only [runLines, Outcome.done.injEq] at h
    rw [← h]; exact h0
  | cons line rest ih =>
    intro st st' h0 hr h
    simp only [List.length_cons] at hr
    simp only [runLines] at h
    cases hv : visit uselist P st line with
    | none => simp [hv] at h
    | some st1 =>
      simp only [hv] at h
      have h1 := visit_some uselist P st st1 line hv
      have hle := visit_rcount_le uselist P st st1 line hv
      refine ih st1 st' ?_ (by omega) h
      rw [h1]
      split
      · simp only [List.length_append, List.length_singleton]
        rw [Nat.mod_eq_of_lt (by omega), h0]
      · exact h0

theorem sameStore_seqdOf (data : reginaData) : SameStore data (seqdOf data) (seqddOf data) := by
  intro k line hk
  have h2 : ¬ (k + 2 < 2) := by omega
  constructor <;> simp [seqdOf, seqddOf, h2, hk]

theorem length_scannedRange_le (data : reginaData) (P : Params) :
    (scannedRange data P).length ≤ data.regina.length := by
  unfold scannedRange
  simp only [List.length_take, List.length_drop]
  omega

/-! ## Lemmas on the cycle parse of `seqinfo.cpp` and on the loader -/

theorem oldCycleLines_eq :
    ∀ (artifact : List (List Char)) (cycles : List String),
      (∀ buff ∈ artifact, cycleFieldOld buff ≠ none) →
      cycles.length + (artifact.filterMap oldLineValue).length ≤ 40 →
      oldCycleLines artifact cycles =
        some (cycles ++ (artifact.filterMap oldLineValue).map String.mk) := by
  intro artifact
  induction artifact with
  | nil => intro cycles _ _; simp [oldCycleLines]
  | cons buff rest ih =>
    intro cycles hthrow hk
    have hb := hthrow buff (List.mem_cons_self _ _)
    have hrest : ∀ b ∈ rest, cycleFieldOld b ≠ none :=
      fun b hb => hthrow b (List.mem_cons_of_mem _ hb)
    cases hf : cycleFieldOld buff with
    | none => exact absurd hf hb
    | some field =>
      cases field with
      | none =>
        have hv : oldLineValue buff = none := by simp [oldLineValue, hf]
        simp only [List.filterMap_cons, hv] at hk ⊢
        simp only [oldCycleLines, hf]
        exact ih cycles hrest hk
      | some value =>
        have hv : oldLineValue buff = some value := by simp [oldLineValue, hf]
        simp only [List.filterMap_cons, hv, List.length_cons] at hk ⊢
        have hlt : cycles.length < 40 := by omega
        simp only [oldCycleLines, hf, hlt, if_true]
        have hlen : (cycles ++ [String.mk value]).length +
            (rest.filterMap oldLineValue).length ≤ 40 := by
          simp only [List.length_append, List.length_singleton]
          omega
        rw [ih (cycles ++ [String.mk value]) hrest hlen]
        simp

theorem loadLine_regina (i : reginaData) (line : reginaDataLine) :
    (loadLine i line).regina = i.regina ++ [untagged line] := by
  unfold loadLine untagged
  simp only []
  split
  · rfl
  · split
    · rfl
    · split <;> rfl

theorem readStream_regina :
    ∀ (lines : List reginaDataLine) (i : reginaData),
      (readStream lines i).regina = i.regina ++ lines.map untagged := by
  intro lines
  induction lines with
  | nil => intro i; simp [readStream]
  | cons line rest ih =>
    intro i
    have := ih (loadLine i line)
    unfold readStream at this ⊢
    rw [List.foldl_cons, this, loadLine_regina]
    simp

theorem loadLine_counts (i : reginaData) (line : reginaDataLine) :
    (loadLine i line).pcount = (if line.elB > 0 then (i.pcount + 1) % 2 ^ 32 else i.pcount) ∧
    (loadLine i line).ocount = (if line.elB = 0 then (i.ocount + 1) % 2 ^ 32 else i.ocount) ∧
    (loadLine i line).ccount = (if line.elB < 0 then (i.ccount + 1) % 2 ^ 32 else i.ccount) := by
  unfold loadLine
  simp only []
  by_cases h1 : line.elB > 0
  · have h2 : ¬ line.elB = 0 := by omega
    have h3 : ¬ line.elB < 0 := by omega
    simp [h1, h2, h3]
  · by_cases h2 : line.elB = 0
    · have h3 : ¬ line.elB < 0 := by omega
      simp [h1, h2, h3]
    · have h3 : line.elB < 0 := by omega
      simp [h1, h2, h3]

/-- The counters after the loop of the loader, modulo `2^32`. -/
theorem readStream_counts :
    ∀ (lines : List reginaDataLine) (i : reginaData),
      i.pcount < 2 ^ 32 → i.ocount < 2 ^ 32 → i.ccount < 2 ^ 32 →
      (readStream lines i).pcount =
          (i.pcount + (lines.filter (fun l => decide (l.elB > 0))).length) % 2 ^ 32 ∧
      (readStream lines i).ocount =
          (i.ocount + (lines.filter (fun l => decide (l.elB = 0))).length) % 2 ^ 32 ∧
      (readStream lines i).ccount =
          (i.ccount + (lines.filter (fun l => decide (l.elB < 0))).length) % 2 ^ 32 := by
  intro lines
  induction lines with
  | nil =>
    intro i hp ho hc
    simp only [readStream, List.foldl_nil, List.filter_nil, List.length_nil, Nat.add_zero]
    exact ⟨(Nat.mod_eq_of_lt hp).symm, (Nat.mod_eq_of_lt ho).symm, (Nat.mod_eq_of_lt hc).symm⟩
  | cons line rest ih =>
    intro i hp ho hc
    obtain ⟨e1, e2, e3⟩ := loadLine_counts i line
    have hp' : (loadLine i line).pcount < 2 ^ 32 := by
      rw [e1]; split
      · exact Nat.mod_lt _ (by norm_num)
      · exact hp
    have ho' : (loadLine i line).ocount < 2 ^ 32 := by
      rw [e2]; split
      · exact Nat.mod_lt _ (by norm_num)
      · exact ho
    have hc' : (loadLine i line).ccount < 2 ^ 32 := by
      rw [e3]; split
      · exact Nat.mod_lt _ (by norm_num)
      · exact hc
    have h := ih (loadLine i line) hp' ho' hc'
    unfold readStream at h ⊢
    rw [List.foldl_cons]
    obtain ⟨h1, h2, h3⟩ := h
    rw [h1, h2, h3, e1, e2, e3]
    simp only [List.filter_cons]
    refine ⟨?_, ?_, ?_⟩
    · by_cases hb : line.elB > 0
      · simp only [hb, decide_True, if_true, List.length_cons]; omega
      · simp only [hb, decide_False, if_false]
        rfl
    · by_cases hb : line.elB = 0
      · simp only [hb, decide_True, if_true, List.length_cons]; omega
      · simp only [hb, decide_False, if_false]
        rfl
    · by_cases hb : line.elB < 0
      · simp only [hb, decide_True, if_true, List.length_cons]; omega
      · simp only [hb, decide_False, if_false]
        rfl

/-- Every record is counted by exactly one of the three tests of the loader. -/
theorem kinds_partition :
    ∀ lines : List reginaDataLine,
      (lines.filter (fun l => decide (l.elB > 0))).length +
        (lines.filter (fun l => decide (l.elB = 0))).length +
        (lines.filter (fun l => decide (l.elB < 0))).length = lines.length := by
  intro lines
  induction lines with
  | nil => rfl
  | cons line rest ih =>
    simp only [gt_iff_lt] at ih
    simp only [List.filter_cons, List.length_cons]
    by_cases h1 : line.elB > 0
    · have h2 : ¬ line.elB = 0 := by omega
      have h3 : ¬ line.elB < 0 := by omega
      simp [h1, h2, h3]
      omega
    · by_cases h2 : line.elB = 0
      · have h3 : ¬ line.elB < 0 := by omega
        simp [h1, h2, h3]
        omega
      · have h3 : line.elB < 0 := by omega
        simp [h1, h2, h3]
        omega


/-! ## The claims -/

/-- C1: in the scan of `advanced` (seqinfo_double.cpp) with chaining off, for every loaded
store (contiguous sequence numbers), every divisor `b >= 1`, every range `[c, d]` inside
the store and every selector value `e` (in particular all `e = 2`, prime-only `e = 1` and
open-only `e = 0`), the scan completes, emits only numbers of `[c, d]`, and a number `n` of
`[c, d]` is emitted iff `n mod b = a`, the selector is all or the record's `elB` equals
the selected kind, and each of the fifteen filtered fields lies in its inclusive
interval.  In particular `a = 1, b = 2` over `[2, 10]` with the selector on all and
intervals that admit every record emits exactly `[3, 5, 7, 9]`. -/
theorem C1_scan_emits_iff (data : reginaData) (P : Params) (hload : Loaded data)
    (hb : 1 ≤ P.b)
    (hc : (data.indexShift : Int) ≤ P.c) (hcd : P.c ≤ P.d) (hd : P.d ≤ data.lastIndex) :
    ∃ st, advancedScan data false P = .done st ∧
      (∀ n ∈ st.emitted, P.c ≤ n ∧ n ≤ P.d) ∧
      (∀ n, P.c ≤ n → n ≤ P.d → ∃ line, recordOf data n = some line ∧ line.elA = n ∧
        (n ∈ st.emitted ↔
          (n % P.b = P.a ∧ (P.e = 2 ∨ line.elB = P.e) ∧ withinIntervals P line))) ∧
      (P.a = 1 → P.b = 2 → P.c = 2 → P.d = 10 → P.e = 2 →
        (∀ line ∈ data.regina, withinIntervals P line) → st.emitted = [3, 5, 7, 9]) := by
  have hlast := hload.last
  have hin : InRange data P := ⟨hc, by omega, by omega⟩
  obtain ⟨st, hst, hem, hrange, hiff⟩ := advancedScan_emits data false P hload hb hin
  refine ⟨st, hst, hrange, ?_, ?_⟩
  · intro n hn1 hn2
    obtain ⟨line, hr, hA, hi⟩ := hiff n hn1 hn2
    refine ⟨line, hr, hA, ?_⟩
    have hacc := accepts_false_iff P line (by omega) hb
    rw [hA] at hacc
    rw [← hacc]
    exact hi
  · intro ha hb2 hc2 hd2 he2 hall
    have hfilter : (scannedRange data P).filter (accepts false P) =
        (scannedRange data P).filter ((fun n : Int => decide (n % 2 = 1)) ∘ fun l => l.elA) := by
      apply List.filter_congr
      intro line hl
      obtain ⟨m, hm1, _, hr⟩ := (mem_scannedRange_iff data P hin line).mp hl
      have hA := recordOf_elA data hload m line hr
      have hreg : line ∈ data.regina := by
        unfold scannedRange at hl
        exact List.mem_of_mem_drop (List.mem_of_mem_take hl)
      have hacc := accepts_false_iff P line (by omega) hb
      rw [hb2, ha] at hacc
      have hw := hall line hreg
      by_cases hodd : line.elA % 2 = 1
      · simp only [Function.comp, hodd, decide_True]
        exact hacc.mpr ⟨hodd, Or.inl he2, hw⟩
      · simp only [Function.comp, hodd, decide_False]
        cases hacc' : accepts false P line with
        | false => rfl
        | true => exact absurd (hacc.mp hacc').1 hodd
    rw [hem, hfilter, ← List.filter_map, scannedRange_elA data hload P hin, hc2, hd2]
    decide

/-- C1 at Scenario B: on the loaded store `2..12`, the replies `1 2` (modulus) and `2 10`
(range) with every other prompt left empty give `a = 1, b = 2, c = 2, d = 10`, and the
scan emits `[3, 5, 7, 9]`. -/
theorem C1_scan_emits_iff_witness :
    readParams (reginaSize (storeFrom 2 11))
        { blankReplies with modulus := .two 1 2, range := .two 2 10 }
      = { defaultParams 2 10 with a := 1, b := 2 } ∧
    ∃ st, advancedScan (storeFrom 2 11) false { defaultParams 2 10 with a := 1, b := 2 }
        = .done st ∧ st.emitted = [3, 5, 7, 9] := by
  obtain ⟨st, h1, _, _, h4⟩ := C1_scan_emits_iff (storeFrom 2 11)
    { defaultParams 2 10 with a := 1, b := 2 }
    (loaded_of_check _ (by decide) (by decide) (by decide))
    (by decide) (by decide) (by decide) (by decide)
  exact ⟨by decide, st, h1, h4 rfl rfl rfl rfl rfl (by decide)⟩

/-- In the model of `advanced`, what has been emitted before the run ended or left
defined behaviour is in strictly ascending order and counted by `rcount`, on every store
with strictly increasing sequence numbers. -/
theorem advanced_produced_ascending (data : reginaData) (uselist : Bool) (r : Replies)
    (hinc : (data.regina.map (fun l => l.elA)).Pairwise (fun x y => x < y)) :
    (advanced data uselist r).2.produced.emitted.Pairwise (fun x y => x < y) ∧
      (advanced data uselist r).2.produced.rcount =
        (advanced data uselist r).2.produced.emitted.length := by
  by_cases h1 : reginaSize data < int32Max.toNat
  · by_cases h2 : r.yn = 'n' ∨ (r.yn ≠ 'y' ∧ r.yn ≠ 'c' ∧ r.yn ≠ 'f')
    · simp [advanced, h1, h2, Outcome.produced]
    · rw [advanced_snd data uselist r h1 h2]
      obtain ⟨hs, hc⟩ := forEach_produced data.regina
        ((readParams (reginaSize data) r).d - data.indexShift + 1) uselist
        (readParams (reginaSize data) r) (data.regina.length + 1)
        ((readParams (reginaSize data) r).c - data.indexShift)
        { emitted := [], rcount := 0, crlf := false } (by simp) (by simp)
      refine ⟨hinc.sublist hs, ?_⟩
      have hlen := hs.length_le
      simp only [List.length_map] at hlen
      unfold advancedScan
      simp only []
      rw [hc]
      apply Nat.mod_eq_of_lt
      have : data.regina.length ≤ 2147483647 := by
        simp only [int32Max, reginaSize] at h1
        split at h1 <;> omega
      omega
  · simp [advanced, h1, Outcome.produced]

/-- A run of `advanced` that reaches the report of `rcount` has emitted sequence numbers
in strictly ascending order, and `rcount` is their number. -/
theorem advanced_done_ascending (data : reginaData) (uselist : Bool) (r : Replies)
    (st : ScanState)
    (hinc : (data.regina.map (fun l => l.elA)).Pairwise (fun x y => x < y))
    (hdone : (advanced data uselist r).2 = .done st) :
    st.emitted.Pairwise (fun x y => x < y) ∧ st.rcount = st.emitted.length := by
  have h := advanced_produced_ascending data uselist r hinc
  rw [hdone] at h
  exact h

/-- C2 (failing input): the loaded store `2..10` has strictly increasing sequence
numbers.  With the range reply `9 3` (every other prompt empty) the scan of `advanced`
starts at position 7 with its end at position 2: it emits 9 and 10 and then reads
position 9, outside the vector.  The run does not reach the statement that reports
`rcount`, and what `std::for_each` reads from there on is no record of the store.  With the
modulus `1 (mod 2)` and the same range the scan emits 9 and leaves the vector the same
way. -/
theorem C2_run_off_the_store_reports_no_count :
    (storeFrom 2 9).regina.map (fun l => l.elA) = [2, 3, 4, 5, 6, 7, 8, 9, 10] ∧
      (readParams (reginaSize (storeFrom 2 9)) { blankReplies with range := .two 9 3 }).c
        - ((storeFrom 2 9).indexShift : Int) = 7 ∧
      (readParams (reginaSize (storeFrom 2 9)) { blankReplies with range := .two 9 3 }).d
        - ((storeFrom 2 9).indexShift : Int) + 1 = 2 ∧
      (storeFrom 2 9).regina.length = 9 ∧
      (advanced (storeFrom 2 9) false { blankReplies with range := .two 9 3 }).2
        = .outOfBounds 9 { emitted := [9, 10], rcount := 2, crlf := true } ∧
      (∀ st, (advanced (storeFrom 2 9) false { blankReplies with range := .two 9 3 }).2
        ≠ .done st) ∧
      (advanced (storeFrom 2 9) false
          { blankReplies with modulus := .two 1 2, range := .two 9 3 }).2
        = .outOfBounds 9 { emitted := [9], rcount := 1, crlf := true } := by
  refine ⟨by decide, by decide, by decide, by decide, by decide, ?_, by decide⟩
  intro st h
  have h9 : (advanced (storeFrom 2 9) false { blankReplies with range := .two 9 3 }).2
      = .outOfBounds 9 { emitted := [9, 10], rcount := 2, crlf := true } := by decide
  rw [h9] at h
  cases h

/-- C3 (failing input): on the loaded store `2..10` (`lastIndex = 10`) the range reply
`2 11` asks for an end above `lastIndex`.  `advanced` clamps the end to
`vLines.size() - 1 = 8`, two below `lastIndex`: the scan stops after sequence 8, and the
record of sequence 10, which every predicate accepts, is not emitted. -/
theorem C3_end_clamped_to_size_minus_one :
    (storeFrom 2 9).lastIndex = 10 ∧
      (readParams (reginaSize (storeFrom 2 9)) { blankReplies with range := .two 2 11 }).d = 8 ∧
      (advanced (storeFrom 2 9) false { blankReplies with range := .two 2 11 }).2
        = .done { emitted := [2, 3, 4, 5, 6, 7, 8], rcount := 7, crlf := true } ∧
      recordOf (storeFrom 2 9) 10 = some (mkLine 10 1 7) ∧
      accepts false
        (readParams (reginaSize (storeFrom 2 9)) { blankReplies with range := .two 2 11 })
        (mkLine 10 1 7) = true := by
  decide

/-- C4 (failing input): on the store loaded from the records `5..10` the base offset is
`indexShift = 5`.  The range reply `3 6` asks for a begin below it; `advanced` clamps the
begin to the constant 2, not to the base offset, so `c = 3`, the start position
`c - indexShift` is `-2`, and the scan dereferences position `-2`. -/
theorem C4_begin_clamped_to_two :
    (storeFrom 5 6).indexShift = 5 ∧
      (readParams (reginaSize (storeFrom 5 6)) { blankReplies with range := .two 3 6 }).c = 3 ∧
      (readParams (reginaSize (storeFrom 5 6)) { blankReplies with range := .two 3 6 }).c
        - ((storeFrom 5 6).indexShift : Int) = -2 ∧
      (advanced (storeFrom 5 6) false { blankReplies with range := .two 3 6 }).2
        = .outOfBounds (-2) { emitted := [], rcount := 0, crlf := false } := by
  decide

/-- C5 (failing inputs): on the loaded store `2..10`, the range reply `9 3` leaves
`c = 9 > d = 3`; the scan starts at position 7 with its end at position 2, emits 9 and 10
and then dereferences position 9, outside the vector.  The range reply `50 60` (begin
above the last sequence number) leaves `c = 50 > d = 8` and dereferences position 48. -/
theorem C5_begin_after_end_runs_off_the_store :
    (readParams (reginaSize (storeFrom 2 9)) { blankReplies with range := .two 9 3 }).c = 9 ∧
      (readParams (reginaSize (storeFrom 2 9)) { blankReplies with range := .two 9 3 }).d = 3 ∧
      (advanced (storeFrom 2 9) false { blankReplies with range := .two 9 3 }).2
        = .outOfBounds 9 { emitted := [9, 10], rcount := 2, crlf := true } ∧
      (readParams (reginaSize (storeFrom 2 9)) { blankReplies with range := .two 50 60 }).c = 50 ∧
      (readParams (reginaSize (storeFrom 2 9)) { blankReplies with range := .two 50 60 }).d = 8 ∧
      (advanced (storeFrom 2 9) false { blankReplies with range := .two 50 60 }).2
        = .outOfBounds 48 { emitted := [], rcount := 0, crlf := false } := by
  decide

/-- C6 (claim as stated, refuted): on the loaded store `2..5`, every constraint unset and
the range `[2, 3]` inside the store, sequence number 3 (a record with `elC = 5000`) is in
the range but is not emitted. -/
theorem C6_unset_constraints_counterexample :
    ¬ (∀ (data : reginaData) (rg : Reply Int) (c d : Int), Loaded data →
        data.regina.length ≤ 2147483647 →
        getParamPair int32Max rg 2 (reginaSize data) (reginaSize data) false = (c, d) →
        (data.indexShift : Int) ≤ c → c ≤ d → d ≤ data.lastIndex →
        ∀ n, c ≤ n → n ≤ d →
          n ∈ (advanced data false { blankReplies with range := rg }).2.produced.emitted) := by
  intro h
  have h3 := h storeLongRun (.two 2 3) 2 3
    (loaded_of_check _ (by decide) (by decide) (by decide))
    (by decide) (by decide) (by decide) (by decide) (by decide) 3 (by decide) (by decide)
  revert h3
  decide

/-- C6 (amended): in `advanced` (seqinfo_double.cpp), when the modulus prompt and the
fifteen range prompts are answered with an empty line, the selector is all and chaining
is off, the default intervals stay in force: for every loaded store (contiguous sequence
numbers, at most `2^31 - 1` records) and every range `[c, d]` inside it, the scan
completes, emits only numbers of `[c, d]`, and a number `n` of `[c, d]` is emitted iff
the record of `n` has `0 <= elC <= 3000` and each of the other fourteen filtered fields
within `[0, 10000]`. -/
theorem C6_unset_constraints_keep_defaults (data : reginaData) (rg : Reply Int)
    (sel yn : Char) (c d : Int) (hload : Loaded data)
    (hsize : data.regina.length ≤ 2147483647)
    (hsel : selectorCode sel = 2) (hyn : yn = 'y' ∨ yn = 'c' ∨ yn = 'f')
    (hcd : getParamPair int32Max rg 2 (reginaSize data) (reginaSize data) false = (c, d))
    (hc : (data.indexShift : Int) ≤ c) (hle : c ≤ d) (hd : d ≤ data.lastIndex) :
    ∃ st, (advanced data false
          { blankReplies with range := rg, selector := sel, yn := yn }).2 = .done st ∧
      (∀ n ∈ st.emitted, c ≤ n ∧ n ≤ d) ∧
      (∀ n, c ≤ n → n ≤ d → ∃ line, recordOf data n = some line ∧ line.elA = n ∧
        (n ∈ st.emitted ↔ withinIntervals (defaultParams c d) line)) := by
  have hne : data.regina.length ≠ 0 := by
    intro h0
    exact hload.nonempty (List.length_eq_zero.mp h0)
  have hrs : reginaSize data = data.regina.length - 1 := by simp [reginaSize, hne]
  have hsz : reginaSize data < int32Max.toNat := by
    rw [hrs]; simp only [int32Max]; omega
  have hM : ((reginaSize data : Nat) : Int) < int32Max := by
    simp only [int32Max] at hsz ⊢; omega
  have hrange := getParamPair_range rg (reginaSize data) hM
  rw [hcd] at hrange
  simp only at hrange
  have h1 : (1 : Int) ≤ (reginaSize data : Nat) := by omega
  have hyn' : ¬ (yn = 'n' ∨ (yn ≠ 'y' ∧ yn ≠ 'c' ∧ yn ≠ 'f')) := by
    rcases hyn with h | h | h <;> subst h <;> decide
  rw [advanced_snd data false _ hsz hyn', readParams_blank _ rg sel yn h1 hsel, hcd]
  have hlast := hload.last
  have hb1 : 1 ≤ (defaultParams c d).b := by simp [defaultParams]
  obtain ⟨st, hst, _, hr, hiff⟩ := advancedScan_emits data false (defaultParams c d) hload
    hb1 ⟨hc, by show c ≤ d + 1; omega, by show d - _ + 1 ≤ _; omega⟩
  refine ⟨st, hst, hr, ?_⟩
  intro n hn1 hn2
  obtain ⟨line, hrec, hA, hi⟩ := hiff n hn1 hn2
  refine ⟨line, hrec, hA, ?_⟩
  rw [hi, accepts_false_iff (defaultParams c d) line (by omega) hb1]
  constructor
  · rintro ⟨_, _, h⟩; exact h
  · intro h
    exact ⟨Int.emod_one _, Or.inl rfl, h⟩

/-- C6 (amended) on the loaded store `2..5` with the range reply `2 3`: the run emits
`[2]`; sequence 3 is left out because its `elC = 5000` exceeds the default 3000. -/
theorem C6_unset_constraints_keep_defaults_witness :
    (advanced storeLongRun false { blankReplies with range := .two 2 3 }).2
        = .done { emitted := [2], rcount := 1, crlf := true } ∧
      ∃ st, (advanced storeLongRun false
            { blankReplies with range := .two 2 3, selector := 'a', yn := 'y' }).2 = .done st ∧
        (∀ n ∈ st.emitted, (2 : Int) ≤ n ∧ n ≤ 3) ∧
        (∀ n, (2 : Int) ≤ n → n ≤ 3 → ∃ line, recordOf storeLongRun n = some line ∧
          line.elA = n ∧ (n ∈ st.emitted ↔ withinIntervals (defaultParams 2 3) line)) :=
  ⟨by decide, C6_unset_constraints_keep_defaults storeLongRun (.two 2 3) 'a' 'y' 2 3
    (loaded_of_check _ (by decide) (by decide) (by decide))
    (by decide) (by decide) (by decide) (by decide) (by decide) (by decide) (by decide)⟩

/-- C7 (failing input): a reply whose first field is not a number (for instance `abc`)
holds no number, yet `getParamPair` does not return the defaults.  The failed extraction
stores zero in `firstTerm`, the test `firstTerm != max` takes it for a number that was
read, and the pair returned is `(0, 0)`: for the integer prompts, for the floating-point
prompts and for the iteration-count prompt.  Only the empty reply yields `(0, 10000)`
and `(0, 3000)`. -/
theorem C7_non_numeric_reply_gives_zero_zero :
    getParamPairInt Reply.junk = (0, 0) ∧
      getParamPairDouble Reply.junk = (0, 0) ∧
      getParamPair int32Max Reply.junk 0 3000 int32Max false = (0, 0) ∧
      getParamPairInt Reply.blank = (0, 10000) ∧
      getParamPairDouble Reply.blank = (0, 10000) ∧
      getParamPair int32Max Reply.blank 0 3000 int32Max false = (0, 3000) := by
  decide

/-- C8 (failing input): with the selector on cycle-only (`e = -1`) and the default
intervals, a record with `elB = -2` (a cycle, like every negative kind) and every filtered
field at zero is rejected by the test of seqinfo_double.cpp and by the `show` checks of
seqinfo.cpp, because the following check `e != elB && e != 2` rejects every kind other
than `-1`; the same record passes with the selector on all, and the record with
`elB = -1` passes cycle-only. -/
theorem C8_cycle_only_rejects_kind_minus_two :
    filterShow false { defaultParams 2 10 with e := -1 } (mkLine 5 (-2) 7) = false ∧
      showFlag false { defaultParams 2 10 with e := -1 } 5 (mkSeqdata (-2)) zeroSeqdatad
        = some false ∧
      filterShow false (defaultParams 2 10) (mkLine 5 (-2) 7) = true ∧
      showFlag false (defaultParams 2 10) 5 (mkSeqdata (-2)) zeroSeqdatad = some true ∧
      filterShow false { defaultParams 2 10 with e := -1 } (mkLine 5 (-1) 7) = true ∧
      showFlag false { defaultParams 2 10 with e := -1 } 5 (mkSeqdata (-1)) zeroSeqdatad
        = some true := by
  decide

/-- C9: chaining law for seqinfo_double.cpp.  For every store, every value `primeToSearch`
and every reply to the prompts of the chained run (the predicate set P2 and the range):
whenever `advanced` with `uselist = true`, run on the store `primesfind(primeToSearch)`
leaves, completes, it has emitted exactly, in order, the sequence numbers of the records of
the scanned range that `primesfind` listed (`elD == primeToSearch`) and that the unchained
test P2 accepts, and every emitted number is among the numbers `primesfind` listed.  The
run does complete whenever the store is not empty and holds fewer than `2^31` records, the
final answer is `y`, `c` or `f`, the divisor is at least 1 and the range keeps both
iterators inside the vector. -/
theorem C9_chained_run_filters_listed (data : reginaData) (primeToSearch : ℚ) (r : Replies) :
    (∀ st, (advanced (primesfindScan data primeToSearch).1 true r).2 = .done st →
        st.emitted =
          ((scannedRange data (readParams (reginaSize data) r)).filter
            (fun l => decide (l.elD = primeToSearch) &&
              accepts false (readParams (reginaSize data) r) l)).map (fun l => l.elA) ∧
        ∀ n ∈ st.emitted, n ∈ (primesfindScan data primeToSearch).2.emitted) ∧
      (reginaSize data < int32Max.toNat →
        ¬ (r.yn = 'n' ∨ (r.yn ≠ 'y' ∧ r.yn ≠ 'c' ∧ r.yn ≠ 'f')) →
        1 ≤ (readParams (reginaSize data) r).b →
        InRange data (readParams (reginaSize data) r) →
        ∃ st, (advanced (primesfindScan data primeToSearch).1 true r).2 = .done st) := by
  constructor
  · intro st h
    obtain ⟨_, hscan⟩ := advanced_done _ true r st h
    rw [reginaSize_primesfindScan] at hscan
    have hem := advancedScan_done_emitted _ true _ st hscan
    rw [scannedRange_primesfindScan, List.filter_map, List.map_map] at hem
    have hfun : (accepts true (readParams (reginaSize data) r)) ∘ (tagFor primeToSearch) =
        fun l => decide (l.elD = primeToSearch) &&
          accepts false (readParams (reginaSize data) r) l := by
      funext l
      exact accepts_tagFor primeToSearch _ l
    have hmap : ((fun l : reginaDataLine => l.elA) ∘ tagFor primeToSearch) =
        fun l => l.elA := by
      funext l
      rfl
    rw [hfun, hmap] at hem
    refine ⟨hem, ?_⟩
    intro n hn
    rw [hem, List.mem_map] at hn
    obtain ⟨l, hl, rfl⟩ := hn
    rw [List.mem_filter, Bool.and_eq_true] at hl
    rw [primesfindScan_emitted, List.mem_map]
    refine ⟨l, List.mem_filter.mpr ⟨?_, hl.2.1⟩, rfl⟩
    have := hl.1
    unfold scannedRange at this
    exact List.mem_of_mem_drop (List.mem_of_mem_take this)
  · intro hsz hyn hb hin
    have hsz' : reginaSize (primesfindScan data primeToSearch).1 < int32Max.toNat := by
      rw [reginaSize_primesfindScan]; exact hsz
    rw [advanced_snd _ true r hsz' hyn, reginaSize_primesfindScan]
    have hin' : InRange (primesfindScan data primeToSearch).1 (readParams (reginaSize data) r) := by
      obtain ⟨h1, h2, h3⟩ := hin
      refine ⟨h1, h2, ?_⟩
      rw [primesfindScan_regina, List.length_map]
      exact h3
    rw [advancedScan_eq_runLines _ true _ hin']
    exact runLines_visit_total true _ _ _ (fun line _ => cRem_of_pos _ _ hb)

/-- C9 on the loaded store `2..10` whose records 3, 4 and 7 end with the prime 13:
`primesfind(13)` lists `[3, 4, 7]`, and the chained run with modulus `(1, 2)` emits
`[3, 7]`. -/
theorem C9_chained_run_filters_listed_witness :
    (primesfindScan storeTwoPrimes 13).2.emitted = [3, 4, 7] ∧
      (advanced (primesfindScan storeTwoPrimes 13).1 true
          { blankReplies with modulus := .two 1 2 }).2
        = .done { emitted := [3, 7], rcount := 2, crlf := true } ∧
      ∀ n ∈ [(3 : Int), 7], n ∈ (primesfindScan storeTwoPrimes 13).2.emitted := by
  have h : (advanced (primesfindScan storeTwoPrimes 13).1 true
      { blankReplies with modulus := .two 1 2 }).2
        = .done { emitted := [3, 7], rcount := 2, crlf := true } := by decide
  exact ⟨by decide, h,
    ((C9_chained_run_filters_listed storeTwoPrimes 13
      { blankReplies with modulus := .two 1 2 }).1 _ h).2⟩

/-- C11 (failing input): the store loaded from the records `2..5` holds one incomplete
record (`elB = 2`).  The loader counts every record with `elB > 0` in `pcount`, which
becomes 3, while `primeslist` groups the records with `elB == 1` only: its map is
`7 -> 2` and the sum of its counts is 2. -/
theorem C11_pcount_counts_incomplete_records :
    storeIncomplete.regina.map (fun l => l.elB) = [1, 1, 2, 0] ∧
      storeIncomplete.pcount = 3 ∧
      primeslist storeIncomplete 'y' = some [(7, 2)] ∧
      mapTotal (primeCountMap storeIncomplete) = 2 := by
  decide

/-- C14: point lookup in seqinfo_double.cpp.  For every store with strictly increasing
sequence numbers and fewer than `2^32` records (the counter is a `uint32_t`), every value
`primeToSearch` and every accepting answer to the listing prompt, `primesfind` lists, in
strictly ascending order, exactly the sequence numbers of the records of the whole store
whose `elD` equals `primeToSearch`, and `rcount` is their number. -/
theorem C14_point_lookup (data : reginaData) (primeToSearch : ℚ) (yn yn2 : Char) (r : Replies)
    (hyn : yn = 'y' ∨ yn = 'c' ∨ yn = 'f')
    (hinc : (data.regina.map (fun l => l.elA)).Pairwise (fun x y => x < y))
    (hsize : data.regina.length < 2 ^ 32) :
    ∃ st, (primesfind data primeToSearch yn yn2 r).listed = some st ∧
      st.emitted =
        (data.regina.filter (fun l => decide (l.elD = primeToSearch))).map (fun l => l.elA) ∧
      (∀ n, n ∈ st.emitted ↔ ∃ line ∈ data.regina, line.elA = n ∧ line.elD = primeToSearch) ∧
      st.emitted.Pairwise (fun x y => x < y) ∧
      st.rcount = (data.regina.filter (fun l => decide (l.elD = primeToSearch))).length ∧
      st.rcount = st.emitted.length := by
  have hem := primesfindScan_emitted data primeToSearch
  have hcount : (primesfindScan data primeToSearch).2.rcount =
      (data.regina.filter (fun l => decide (l.elD = primeToSearch))).length := by
    rw [primesfindScan_rcount]
    apply Nat.mod_eq_of_lt
    exact lt_of_le_of_lt (List.length_filter_le _ _) hsize
  refine ⟨_, primesfind_listed data primeToSearch yn yn2 r hyn, hem, ?_, ?_, hcount, ?_⟩
  · intro n
    rw [hem, List.mem_map]
    constructor
    · rintro ⟨line, hl, rfl⟩
      rw [List.mem_filter, decide_eq_true_eq] at hl
      exact ⟨line, hl.1, rfl, hl.2⟩
    · rintro ⟨line, hl, rfl, hD⟩
      exact ⟨line, List.mem_filter.mpr ⟨hl, by simpa using hD⟩, rfl⟩
  · rw [hem]
    exact hinc.sublist ((List.filter_sublist _).map _)
  · rw [hcount, hem, List.length_map]

/-- C14 at Scenario A: on the loaded store `2..10` in which only record 7 has terminal
value 13, `primesfind(13)` lists `[7]` with count 1. -/
theorem C14_point_lookup_witness :
    (primesfind storeScenarioA 13 'y' 'n' blankReplies).listed
        = some { emitted := [7], rcount := 1, crlf := false } ∧
      ∃ st, (primesfind storeScenarioA 13 'y' 'n' blankReplies).listed = some st ∧
        st.emitted =
          (storeScenarioA.regina.filter (fun l => decide (l.elD = 13))).map (fun l => l.elA) ∧
        (∀ n, n ∈ st.emitted ↔ ∃ line ∈ storeScenarioA.regina, line.elA = n ∧ line.elD = 13) ∧
        st.emitted.Pairwise (fun x y => x < y) ∧
        st.rcount = (storeScenarioA.regina.filter (fun l => decide (l.elD = 13))).length ∧
        st.rcount = st.emitted.length :=
  ⟨by decide, C14_point_lookup storeScenarioA 13 'y' 'n' blankReplies (by decide) (by decide)
    (by decide)⟩

/-- C15 (claim as stated, refuted): on the store loaded from the records `2..5`, the
command `p13` reaches `primesfind(13)` because record 3 ends with the prime 13; the
listing is `[3, 4]`, and record 4 is an open-ended record (`elB = 0`) whose `elD` is 13. -/
theorem C15_listed_records_counterexample :
    ¬ (∀ (data : reginaData) (primeToSearch : ℚ) (yn yn2 : Char) (r : Replies)
        (res : FindResult) (st : ScanState),
        managePrimeCommand data (.value primeToSearch) yn yn2 r = .found res →
        res.listed = some st →
        ∀ n ∈ st.emitted, ∀ line ∈ data.regina, line.elA = n →
          line.elB = 1 ∧ line.elD = primeToSearch) := by
  intro h
  have h4 := h storeMergeOnPrime 13 'y' 'n' blankReplies
    (primesfind storeMergeOnPrime 13 'y' 'n' blankReplies)
    { emitted := [3, 4], rcount := 2, crlf := false } rfl (by decide) 4 (by decide)
    (mkLine 4 0 13) (by decide) (by decide)
  revert h4
  decide

/-- C15 (amended): every sequence number `primesfind(primeToSearch)` lists
(seqinfo_double.cpp) is the number of a record of the store whose `elD` equals
`primeToSearch`; the termination kind of the listed records is not tested.  When the
lookup is reached from `managePrimeCommand`, some record of the store has `elB == 1` and
`elD == primeToSearch`. -/
theorem C15_listed_records_end_with_value (data : reginaData) (primeToSearch : ℚ)
    (yn yn2 : Char) (r : Replies) (st : ScanState)
    (h : (primesfind data primeToSearch yn yn2 r).listed = some st) :
    (∀ n ∈ st.emitted, ∃ line ∈ data.regina, line.elA = n ∧ line.elD = primeToSearch) ∧
      (∀ res, managePrimeCommand data (.value primeToSearch) yn yn2 r = .found res →
        ∃ line ∈ data.regina, line.elB = 1 ∧ line.elD = primeToSearch) := by
  have hst := primesfind_listed_some data primeToSearch yn yn2 r st h
  constructor
  · intro n hn
    rw [hst, primesfindScan_emitted, List.mem_map] at hn
    obtain ⟨line, hl, rfl⟩ := hn
    rw [List.mem_filter, decide_eq_true_eq] at hl
    exact ⟨line, hl.1, rfl, hl.2⟩
  · intro res hres
    unfold managePrimeCommand at hres
    simp only at hres
    split at hres
    · rename_i hany
      rw [List.any_eq_true] at hany
      obtain ⟨line, hl, hp⟩ := hany
      rw [Bool.and_eq_true, decide_eq_true_eq, decide_eq_true_eq] at hp
      exact ⟨line, hl, hp.1, hp.2⟩
    · cases hres

/-- C15 (amended) on the store loaded from the records `2..5` with the value 13: the
lookup lists `[3, 4]`, both records with `elD = 13`. -/
theorem C15_listed_records_end_with_value_witness :
    (primesfind storeMergeOnPrime 13 'y' 'n' blankReplies).listed
        = some { emitted := [3, 4], rcount := 2, crlf := false } ∧
      (∀ n ∈ [(3 : Int), 4], ∃ line ∈ storeMergeOnPrime.regina, line.elA = n ∧ line.elD = 13) ∧
      (∀ res, managePrimeCommand storeMergeOnPrime (.value 13) 'y' 'n' blankReplies = .found res →
        ∃ line ∈ storeMergeOnPrime.regina, line.elB = 1 ∧ line.elD = 13) :=
  ⟨by decide,
    C15_listed_records_end_with_value storeMergeOnPrime 13 'y' 'n' blankReplies
      { emitted := [3, 4], rcount := 2, crlf := false } (by decide)⟩


/-- C16 (failing input): on the store loaded from the records `2..10`, `primesfind(7)`
lists 2 and 3 and tags them.  The merge listing for sequence 4 that follows scans the
records after 4 only: it lists 5 and 6, and the records 2 and 3 keep the tag of the
earlier query although this query did not list them.  The chained `advanced` run next
emits `[2, 3, 5, 6]`.  In seqinfo.cpp the same sequence of queries leaves the tag of
record 3 set after a merge listing that lists `[5, 6]`. -/
theorem C16_merge_listing_keeps_earlier_tags :
    (primesfind storeMerges 7 'y' 'n' blankReplies).listed
        = some { emitted := [2, 3], rcount := 2, crlf := false } ∧
      (manageOpenEndedSequence (primesfind storeMerges 7 'y' 'n' blankReplies).data 4 2
          'y' 'n' blankReplies).result.map (fun res => res.listed)
        = some (some { emitted := [5, 6], rcount := 2, crlf := false }) ∧
      (manageOpenEndedSequence (primesfind storeMerges 7 'y' 'n' blankReplies).data 4 2
          'y' 'n' blankReplies).result.map
            (fun res => res.data.regina.map (fun l => (l.elA, l.ulist)))
        = some [(2, true), (3, true), (4, false), (5, true), (6, true), (7, false),
            (8, false), (9, false), (10, false)] ∧
      (manageOpenEndedSequence (primesfind storeMerges 7 'y' 'n' blankReplies).data 4 2
          'y' 'y' blankReplies).result.map (fun res => res.chained)
        = some (some (.done { emitted := [2, 3, 5, 6], rcount := 4, crlf := true })) ∧
      (oldFindLoop (arrayOf oldRecords) 10 2 2).listed = [2, 3] ∧
      (oldFindLoop (oldFindLoop (arrayOf oldRecords) 10 2 2).seqd 10 4 5).listed = [5, 6] ∧
      ((oldFindLoop (oldFindLoop (arrayOf oldRecords) 10 2 2).seqd 10 4 5).seqd 3).ulist
        = true := by
  decide

/-- C17 (failing input): on the store loaded from the records `2..10` (`indexShift = 2`),
with the resolved set `{6}`, the scan of `managexxx` starts at position `indexShift = 2`,
that is at sequence 4: it lists `[6, 7]`.  Record 2, whose `elD` is 6 as well, sits at
position 0: it is not tested, not listed, and its tag is left as it was. -/
theorem C17_cycle_listing_skips_first_records (stod : List Char → Option ℚ)
    (artifact : Option (List (List Char))) :
    storeCycles.regina.map (fun l => (l.elA, l.elD)) =
        [(2, 6), (3, 7), (4, 7), (5, 7), (6, 6), (7, 6), (8, 7), (9, 7), (10, 7)] ∧
      (managexxx stod artifact storeCycles 4 [6] 'y' 'n' blankReplies).result.map
          (fun res => res.listed)
        = some (some { emitted := [6, 7], rcount := 2, crlf := false }) ∧
      (managexxx stod artifact storeCycles 4 [6] 'y' 'n' blankReplies).result.map
          (fun res => res.data.regina.map (fun l => (l.elA, l.ulist)))
        = some [(2, false), (3, false), (4, false), (5, false), (6, true), (7, true),
            (8, false), (9, false), (10, false)] := by
  refine ⟨by decide, ?_, ?_⟩ <;> rfl

/-- C18 (failing input): in the cycle listing of seqinfo.cpp, with the store of ten
entries whose records 7 and 8 have `elD = 220` and record 9 has `elD = 284`, and the
parsed array `cycles = [220, 284, 220]` (`c = 3`, the value 220 twice): the inner loop
has no `break`, the records 7 and 8 are listed twice each, and `rcount` is 5 for three
matching records. -/
theorem C18_repeated_member_lists_twice :
    (oldCycleListing (arrayOf oldRecords) 10 ["220", "284", "220"] 3).listed
        = [7, 7, 8, 8, 9] ∧
      (oldCycleListing (arrayOf oldRecords) 10 ["220", "284", "220"] 3).rcount = 5 ∧
      (oldCycleListing (arrayOf oldRecords) 10 ["220", "284"] 2).listed = [7, 8, 9] ∧
      (oldCycleListing (arrayOf oldRecords) 10 ["220", "284"] 2).rcount = 3 := by
  decide


/-- C19 (claim as stated, refuted): in the line `0 .   220 = 2^2 * 5 * 11` the first `.`
is at offset 2 and the first `=` after offset 6 is at offset 10; the characters from
offset 6 up to the `=` are `220` and a blank, but the text `LoadCycleSequence` takes is
`220`, without the blank that precedes the `=`. -/
theorem C19_field_text_counterexample :
    ¬ (∀ (text : List Char) (p k : Nat),
        text[p]? = some '.' → (∀ i, i < p → text[i]? ≠ some '.') →
        p + 4 ≤ k → text[k]? = some '=' → (∀ i, p + 4 ≤ i → i < k → text[i]? ≠ some '=') →
        cycleField text = some (charsBetween text (p + 4) k)) := by
  intro h
  have h1 := h ("0 .   220 = 2^2 * 5 * 11").data 2 10 (by decide) (by decide) (by decide)
    (by decide) (by decide)
  revert h1
  decide

/-- C19 (amended): cycle artifact line parsing.  For every line (shorter than `2^64`
characters) whose first `.` is at offset `p` and whose first `=` at or after offset
`p + 4` is at offset `k >= p + 5`, the text `LoadCycleSequence` (seqinfo_double.cpp) takes
as the cycle member's value is the line's characters from offset `p + 4` up to, but not
including, offset `k - 1`: the character just before the `=` is left out as well.  The
parse of seqinfo.cpp takes the same text when no `=` stands before offset `p + 4`. -/
theorem C19_field_text (text : List Char) (p k : Nat) (hlen : text.length < 2 ^ 64)
    (hp : text[p]? = some '.') (hpfirst : ∀ i, i < p → text[i]? ≠ some '.')
    (hpe : p + 5 ≤ k) (he : text[k]? = some '=')
    (hefirst : ∀ i, p + 4 ≤ i → i < k → text[i]? ≠ some '=') :
    cycleField text = some (charsBetween text (p + 4) (k - 1)) ∧
      ((∀ i, i < p + 4 → text[i]? ≠ some '=') →
        cycleFieldOld text = some (some (charsBetween text (p + 4) (k - 1)))) := by
  have helt : k < text.length := (List.getElem?_eq_some.mp he).1
  have hfindp : strFind text '.' 0 = p :=
    strFind_eq text '.' 0 p (Nat.zero_le _) hp (fun i _ hi => hpfirst i hi)
  have hadd : sizeAdd p 4 = p + 4 := by
    unfold sizeAdd
    exact Nat.mod_eq_of_lt (by omega)
  have hfinde : strFind text '=' (p + 4) = k :=
    strFind_eq text '=' (p + 4) k (by omega) he hefirst
  have hsub : strSubstr text (p + 4) (k - p - 5) = some (charsBetween text (p + 4) (k - 1)) := by
    unfold strSubstr charsBetween
    have hnot : ¬ (text.length < p + 4) := by omega
    simp only [hnot, if_false, List.drop_take]
    rw [show k - 1 - (p + 4) = k - p - 5 by omega]
  constructor
  · unfold cycleField
    simp only [hfindp, hadd, hfinde]
    have h1 : sizeSub k (sizeAdd (sizeAdd 1 p) 4) = k - p - 5 := by
      unfold sizeSub sizeAdd
      omega
    rw [h1]
    exact hsub
  · intro hnone
    have hfinde0 : strFind text '=' 0 = k :=
      strFind_eq text '=' 0 k (Nat.zero_le _) he (fun i _ hi => by
        by_cases h4 : i < p + 4
        · exact hnone i h4
        · exact hefirst i (by omega) hi)
    unfold cycleFieldOld
    have hne : k ≠ npos := by unfold npos; omega
    have hnp : p ≠ npos := by unfold npos; omega
    simp only [hfindp, hfinde0, hadd, hne, hnp, ne_eq, not_false_eq_true, and_self, if_true]
    have h1 : sizeSub (sizeSub k p) 5 = k - p - 5 := by
      unfold sizeSub
      omega
    rw [h1, hsub]
    rfl

/-- C19 (amended) on the line `0 .   220 = 2^2 * 5 * 11`: both programs take `220`. -/
theorem C19_field_text_witness :
    cycleField ("0 .   220 = 2^2 * 5 * 11").data = some ("220").data ∧
      cycleFieldOld ("0 .   220 = 2^2 * 5 * 11").data = some (some ("220").data) := by
  have h := C19_field_text ("0 .   220 = 2^2 * 5 * 11").data 2 10 (by decide) (by decide)
    (by decide) (by decide) (by decide) (by decide)
  exact ⟨h.1, h.2 (by decide)⟩

/-- C20 (failing input): an artifact of three well-formed lines followed by an empty line.
On the empty line `find` returns `npos` for both markers, `foundp + 4` wraps to 3, and
`substr(3, ...)` on the empty string throws `std::out_of_range`: whatever `std::stod`
returns on the first three lines, `LoadCycleSequence` ends with an exception and yields
no set.  The parse of seqinfo.cpp tests both markers and skips such a line.  A line that
has the `.` but lacks the `=` raises nothing and contributes the text after offset
`p + 4`. -/
theorem C20_empty_line_throws (stod : List Char → Option ℚ) (cycleSet : List ℚ) :
    LoadCycleSequence stod
        (some [("0 .   220 = 2^2 * 5 * 11").data, ("1 .   284 = 2^2 * 71").data,
          ("2 .   1184 = 2^5 * 37").data, []]) cycleSet = none ∧
      cycleField [] = none ∧
      cycleFieldOld [] = some none ∧
      cycleField ("1 .   220").data = some ("220").data ∧
      cycleFieldOld ("1 .   220").data = some none := by
  refine ⟨?_, by decide, by decide, by decide, by decide⟩
  have h1 : cycleField ("0 .   220 = 2^2 * 5 * 11").data = some ("220").data := by decide
  have h2 : cycleField ("1 .   284 = 2^2 * 71").data = some ("284").data := by decide
  have h3 : cycleField ("2 .   1184 = 2^5 * 37").data = some ("1184").data := by decide
  have h4 : cycleField [] = none := by decide
  simp only [LoadCycleSequence, loadCycleLines, h1, h2, h3, h4]
  cases stod ("220").data <;> simp only []
  cases stod ("284").data <;> simp only []
  cases stod ("1184").data <;> simp only []


/-- C12: the grouping pass of `primeslist` (seqinfo.cpp).  For every store whose
prime-terminated records `2 .. seqscount - 1` carry at most 2,000,000 distinct terminal
values, the pass runs to its end inside the arrays, and afterwards: the entries
`plist[0..pcount)` are pairwise distinct, every record `i` of `[2, seqscount)` with
`elB == 1` has its `elD` among them, every entry is the `elD` of such a record, and for
each `j < pcount` the count `plcount[j]` is the number of records `i` of `[2, seqscount)`
with `elB == 1` and `elD` equal to `plist[j]`. -/
theorem C12_grouping_pass (seqd : Nat → seqdata) (seqscount : Nat)
    (hcap : (primesOf (recordsOf seqd seqscount)).dedup.length ≤ 2000000) :
    ∃ t, groupPass seqd seqscount = some t ∧
      t.plist.Nodup ∧
      t.plist.length = t.plcount.length ∧
      (∀ i, 2 ≤ i → i < seqscount → (seqd i).elB = 1 → (seqd i).elD ∈ t.plist) ∧
      (∀ p ∈ t.plist, ∃ i, 2 ≤ i ∧ i < seqscount ∧ (seqd i).elB = 1 ∧ (seqd i).elD = p) ∧
      (∀ (j : Nat) (p : String), t.plist[j]? = some p →
        t.plcount[j]? = some
          (((List.range' 2 (seqscount - 2)).filter
            (fun i => decide ((seqd i).elB = 1 ∧ (seqd i).elD = p))).length : Int)) := by
  obtain ⟨t, ht, hg⟩ := groupLoop_grouped (recordsOf seqd seqscount) []
    { plist := [], plcount := [] }
    ⟨List.nodup_nil, by intro p; simp [primesOf], by simp⟩
    (fun l hl hp => le_trans
      (length_le_dedup (primesOf (recordsOf seqd seqscount)) l hl (by simpa using hp)) hcap)
  simp only [List.nil_append] at hg
  obtain ⟨hnd, hmem, hcount⟩ := hg
  have hprime : ∀ p, p ∈ primesOf (recordsOf seqd seqscount) ↔
      ∃ i, 2 ≤ i ∧ i < seqscount ∧ (seqd i).elB = 1 ∧ (seqd i).elD = p := by
    intro p
    unfold primesOf recordsOf
    simp only [List.mem_map, List.mem_filter, List.mem_range', decide_eq_true_eq]
    constructor
    · rintro ⟨x, ⟨⟨i, ⟨k, hk, rfl⟩, rfl⟩, hB⟩, rfl⟩
      exact ⟨2 + 1 * k, by omega, by omega, hB, rfl⟩
    · rintro ⟨i, h2, hi, hB, rfl⟩
      exact ⟨seqd i, ⟨⟨i, ⟨i - 2, by omega, by omega⟩, rfl⟩, hB⟩, rfl⟩
  have hcnt : ∀ p, (primesOf (recordsOf seqd seqscount)).count p =
      ((List.range' 2 (seqscount - 2)).filter
        (fun i => decide ((seqd i).elB = 1 ∧ (seqd i).elD = p))).length := by
    intro p
    unfold primesOf recordsOf
    simp only [List.count, List.countP_eq_length_filter, List.filter_map, List.length_map,
      List.filter_filter]
    congr 1
    apply List.filter_congr
    intro i _
    by_cases h1 : (seqd i).elB = 1 <;> by_cases h2 : (seqd i).elD = p <;> simp [h1, h2]
  refine ⟨t, ht, hnd, by rw [hcount, List.length_map], ?_, ?_, ?_⟩
  · intro i h2 hi hB
    exact (hmem _).mpr ((hprime _).mpr ⟨i, h2, hi, hB, rfl⟩)
  · intro p hp
    exact (hprime p).mp ((hmem p).mp hp)
  · intro j p hj
    rw [hcount, List.getElem?_map, hj, Option.map_some', hcnt]

/-- C12 on the store of eight entries whose records 2 to 7 end with the primes 43, 7,
101, 7, 59 and 43: the pass leaves `plist = [43, 7, 101, 59]` and
`plcount = [2, 2, 1, 1]`. -/
theorem C12_grouping_pass_witness :
    groupPass (arrayOf oldPrimeRecords) 8
        = some { plist := ["43", "7", "101", "59"], plcount := [2, 2, 1, 1] } ∧
      ∃ t, groupPass (arrayOf oldPrimeRecords) 8 = some t ∧
        t.plist.Nodup ∧
        t.plist.length = t.plcount.length ∧
        (∀ i, 2 ≤ i → i < 8 → (arrayOf oldPrimeRecords i).elB = 1 →
          (arrayOf oldPrimeRecords i).elD ∈ t.plist) ∧
        (∀ p ∈ t.plist, ∃ i, 2 ≤ i ∧ i < 8 ∧ (arrayOf oldPrimeRecords i).elB = 1 ∧
          (arrayOf oldPrimeRecords i).elD = p) ∧
        (∀ (j : Nat) (p : String), t.plist[j]? = some p →
          t.plcount[j]? = some
            (((List.range' 2 (8 - 2)).filter
              (fun i => decide ((arrayOf oldPrimeRecords i).elB = 1 ∧
                (arrayOf oldPrimeRecords i).elD = p))).length : Int)) :=
  ⟨by decide, C12_grouping_pass (arrayOf oldPrimeRecords) 8 (by decide)⟩

/-- C13: the double-swap sort of `primeslist` (seqinfo.cpp), run on a table of pairwise
distinct decimal strings without leading zero with their counts, leaves `plist` in
ascending numeric order (shorter strings first, strings of equal length in the order of
`compare`), and the pairs `(plist[j], plcount[j])` after the sort are a permutation of the
pairs before it: every prime keeps its own count. -/
theorem C13_sort_orders_and_keeps_counts (t : PrimeTable)
    (hlen : t.plist.length = t.plcount.length) (hnodup : t.plist.Nodup)
    (hdec : ∀ s ∈ t.plist, IsDecimal s.data) :
    (sortLoop t.plist.length t).plist.Pairwise shortlexLt ∧
    (sortLoop t.plist.length t).plist.Pairwise
      (fun x y => decimalValue x.data < decimalValue y.data) ∧
    (sortLoop t.plist.length t).plist.length = (sortLoop t.plist.length t).plcount.length ∧
    ((sortLoop t.plist.length t).plist.zip (sortLoop t.plist.length t).plcount).Perm
      (t.plist.zip t.plcount) ∧
    ∀ (p : String) (c : Int), (p, c) ∈ t.plist.zip t.plcount ↔
      (p, c) ∈ (sortLoop t.plist.length t).plist.zip (sortLoop t.plist.length t).plcount := by
  have hl : (t.plist.zip t.plcount).length = t.plist.length := by
    rw [List.length_zip, ← hlen, Nat.min_self]
  have hsort : sortLoop t.plist.length t =
      tableOf ((bubble entryLe)^[(t.plist.zip t.plcount).length - 1] (t.plist.zip t.plcount)) := by
    rw [← sortLoop_tableOf, hl, tableOf_zip t hlen]
  have hperm := bubble_iterate_perm entryLe (t.plist.zip t.plcount)
    ((t.plist.zip t.plcount).length - 1)
  have hsorted := bubble_sorts entryLe (fun a b => shortlexLe_total a.1 b.1)
    (fun a b c => shortlexLe_trans a.1 b.1 c.1) (t.plist.zip t.plcount)
  rw [hsort]
  generalize (bubble entryLe)^[(t.plist.zip t.plcount).length - 1] (t.plist.zip t.plcount) = l
    at hperm hsorted
  have hfst : (l.map (fun e => e.1)).Perm t.plist := by
    have := hperm.map (fun e : String × Int => e.1)
    rwa [List.map_fst_zip _ _ (le_of_eq hlen)] at this
  have hnd : (l.map (fun e => e.1)).Nodup := hfst.nodup_iff.mpr hnodup
  have hzip : (l.map (fun e => e.1)).zip (l.map (fun e => e.2)) = l := by
    clear hperm hsorted hnd hfst hsort
    induction l with
    | nil => rfl
    | cons e rest ih => simp only [List.map_cons, List.zip_cons_cons, ih]
  have hlt : (l.map (fun e => e.1)).Pairwise shortlexLt := by
    have h1 : (l.map (fun e => e.1)).Pairwise shortlexLe := List.pairwise_map.mpr hsorted
    have h2 := h1.and hnd
    exact h2.imp (fun h => shortlexLt_of_le_of_ne _ _ h.1 h.2)
  refine ⟨hlt, ?_, ?_, ?_, ?_⟩
  · refine hlt.imp_of_mem ?_
    intro x y hx hy h
    exact decimalValue_lt_of_shortlexLt x y (hdec x (hfst.mem_iff.mp hx))
      (hdec y (hfst.mem_iff.mp hy)) h
  · simp only [tableOf, List.length_map]
  · simp only [tableOf]
    rw [hzip]
    exact hperm
  · intro p c
    simp only [tableOf]
    rw [hzip]
    exact hperm.mem_iff.symm

set_option maxRecDepth 100000 in
/-- The sort on the table of `59`, `7`, `101`, `43` with the counts 1, 2, 3, 4. -/
theorem C13_sort_orders_and_keeps_counts_witness :
    sortLoop 4 ⟨["59", "7", "101", "43"], [1, 2, 3, 4]⟩ =
      ⟨["7", "43", "59", "101"], [2, 4, 1, 3]⟩ ∧
    (sortLoop 4 ⟨["59", "7", "101", "43"], [1, 2, 3, 4]⟩).plist.Pairwise
      (fun x y => decimalValue x.data < decimalValue y.data) :=
  ⟨by decide,
   (C13_sort_orders_and_keeps_counts ⟨["59", "7", "101", "43"], [1, 2, 3, 4]⟩
      (by decide) (by decide) (by decide)).2.1⟩

/-- C21 (claim as stated, refuted): on the artifact of three lines with both markers
(values 220, 284, 1184) followed by an empty line, the cycle parse of `seqinfo.cpp` ends
with `c = 1`, and the only member the display and the listing read is 220. -/
theorem C21_cycle_members_counterexample :
    ¬ (∀ (artifact : List (List Char)) (parsed : List String × Int),
        (artifact.filterMap oldLineValue).length ≤ 40 →
        (artifact.filterMap oldLineValue).Nodup →
        oldCycleParse artifact = some parsed →
        parsed.2 = (artifact.filterMap oldLineValue).length ∧
          oldCycleMembers parsed = (artifact.filterMap oldLineValue).map String.mk) := by
  intro h
  have h3 := h artifactThree (["220", "284", "1184"], 1) (by decide) (by decide) (by decide)
  revert h3
  decide

/-- C21 (amended): in the cycle parse of `seqinfo.cpp`, for every artifact in which no
line makes `substr` throw and at most 40 lines have both markers (`k` of them), the
parse ends with `c = k - 2`: the statement `c-=2` drops the last two parsed values, and
the members kept for the display and for the membership listing are the first `k - 2`
parsed values. -/
theorem C21_cycle_members_kept (artifact : List (List Char))
    (hthrow : ∀ buff ∈ artifact, cycleFieldOld buff ≠ none)
    (hk : (artifact.filterMap oldLineValue).length ≤ 40) :
    oldCycleParse artifact =
        some ((artifact.filterMap oldLineValue).map String.mk,
          ((artifact.filterMap oldLineValue).length : Int) - 2) ∧
      ∀ parsed, oldCycleParse artifact = some parsed →
        parsed.2 = ((artifact.filterMap oldLineValue).length : Int) - 2 ∧
        oldCycleMembers parsed =
          ((artifact.filterMap oldLineValue).take
            ((artifact.filterMap oldLineValue).length - 2)).map String.mk := by
  have hlines := oldCycleLines_eq artifact [] hthrow (by simpa using hk)
  have hparse : oldCycleParse artifact =
      some ((artifact.filterMap oldLineValue).map String.mk,
        ((artifact.filterMap oldLineValue).length : Int) - 2) := by
    unfold oldCycleParse
    rw [hlines]
    simp
  refine ⟨hparse, ?_⟩
  intro parsed hp
  rw [hparse] at hp
  cases hp
  refine ⟨rfl, ?_⟩
  unfold oldCycleMembers
  simp only [List.map_take]
  congr 1
  omega

/-- C21 (amended) on the artifact of three lines with both markers and one empty line:
`c = 1` and the member kept is 220. -/
theorem C21_cycle_members_kept_witness :
    oldCycleParse artifactThree = some (["220", "284", "1184"], 1) ∧
      ∀ parsed, oldCycleParse artifactThree = some parsed →
        parsed.2 = ((artifactThree.filterMap oldLineValue).length : Int) - 2 ∧
        oldCycleMembers parsed =
          ((artifactThree.filterMap oldLineValue).take
            ((artifactThree.filterMap oldLineValue).length - 2)).map String.mk :=
  ⟨by decide, (C21_cycle_members_kept artifactThree (by decide) (by decide)).2⟩

/-- The bounds test of `manageSequence` on the value of `sequenceNumber`: on a loaded
store the report is given iff the number is outside `[indexShift, lastIndex]`, and
otherwise the position read is inside the vector and holds the record of that number. -/
theorem manageSequenceBody_bounds (stod : List Char → Option ℚ)
    (shown artifact : Option (List (List Char))) (data : reginaData) (n : Int)
    (ynShow yn yn2 : Char) (r : Replies) (hload : Loaded data) :
    (manageSequenceBody stod shown artifact data n ynShow yn yn2 r = .outside ↔
        (n < data.indexShift ∨ n > data.lastIndex)) ∧
      (n < data.indexShift ∨ n > data.lastIndex →
        (manageSequenceBody stod shown artifact data n ynShow yn yn2 r).store data
          = some data) ∧
      (¬ (n < data.indexShift ∨ n > data.lastIndex) →
        0 ≤ n - data.indexShift ∧ n - data.indexShift < data.regina.length ∧
        (∃ line, data.regina[(n - data.indexShift).toNat]? = some line ∧ line.elA = n) ∧
        ∀ pos,
          manageSequenceBody stod shown artifact data n ynShow yn yn2 r ≠ .badPosition pos) := by
  have hlast := hload.last
  by_cases hout : n < data.indexShift ∨ n > data.lastIndex
  · have hres : manageSequenceBody stod shown artifact data n ynShow yn yn2 r = .outside := by
      unfold manageSequenceBody
      simp only [hout, if_true]
    refine ⟨⟨fun _ => hout, fun _ => hres⟩, fun _ => by rw [hres]; rfl, fun h => absurd hout h⟩
  · have hlt : (n - data.indexShift).toNat < data.regina.length := by omega
    have hget : data.regina[(n - data.indexShift).toNat]? =
        some data.regina[(n - data.indexShift).toNat] := List.getElem?_eq_getElem hlt
    have hA := hload.contiguous _ _ hget
    have hcases : manageSequenceBody stod shown artifact data n ynShow yn yn2 r ≠ .outside ∧
        ∀ pos,
          manageSequenceBody stod shown artifact data n ynShow yn yn2 r ≠ .badPosition pos := by
      unfold manageSequenceBody
      simp only [hout, if_false, hget]
      split
      · exact ⟨by simp, by simp⟩
      · split
        · exact ⟨by simp, by simp⟩
        · split
          · split
            · exact ⟨by simp, by simp⟩
            · split
              · exact ⟨by simp, by simp⟩
              · cases LoadCycleSequence stod shown [] <;> exact ⟨by simp, by simp⟩
          · exact ⟨by simp, by simp⟩
    refine ⟨⟨fun h => absurd h hcases.1, fun h => absurd h hout⟩, fun h => absurd h hout,
      fun _ => ?_⟩
    refine ⟨by omega, by omega, ⟨_, hget, by omega⟩, hcases.2⟩

theorem narrow32_of_int32 (n : Int) (hlo : int32Min ≤ n) (hhi : n ≤ int32Max) :
    narrow32 n = n := by
  unfold narrow32
  simp only [int32Min, int32Max] at hlo hhi
  omega

/-- C22 (claim as stated, refuted): on the loaded store `2..10` the command `4294967298`
(`2^32 + 2`, above `lastIndex = 10`) does not end with the out-of-bounds report:
`std::stol` returns the number, line 885 narrows it to the `int32_t` value 2, and the
function inspects sequence 2, which ends with the prime 7, and lists the records that
end with 7. -/
theorem C22_lookup_counterexample :
    ¬ (∀ (stod : List Char → Option ℚ) (shown artifact : Option (List (List Char)))
        (data : reginaData) (n : Int) (ynShow yn yn2 : Char) (r : Replies), Loaded data →
        (manageSequence stod shown artifact data (some n) ynShow yn yn2 r = .outside ↔
          (n < data.indexShift ∨ n > data.lastIndex))) := by
  intro h
  have h2 := h stodDecimal none none (storeFrom 2 9) 4294967298 'y' 'y' 'n' blankReplies
    (loaded_of_check _ (by decide) (by decide) (by decide))
  have hlisted : (manageSequence stodDecimal none none (storeFrom 2 9) (some 4294967298)
      'y' 'y' 'n' blankReplies).listed = some [2, 3, 4, 5, 6, 7, 8, 9, 10] := by decide
  rw [h2.mpr (by decide)] at hlisted
  revert hlisted
  decide

/-- C22 (amended): record lookup by sequence number in `manageSequence`
(seqinfo_double.cpp).  For every loaded store with contiguous sequence numbers and every
integer `n` that an `int32_t` holds, typed as the command, the call ends with the
out-of-bounds report (before any record is read or written, the store staying as it was)
iff `n < indexShift` or `n > lastIndex`; otherwise `n - indexShift` is a position of the
vector, the record there carries the sequence number `n`, and no read falls outside the
vector. -/
theorem C22_lookup_bounds (stod : List Char → Option ℚ)
    (shown artifact : Option (List (List Char))) (data : reginaData) (n : Int)
    (ynShow yn yn2 : Char) (r : Replies) (hload : Loaded data)
    (hlo : int32Min ≤ n) (hhi : n ≤ int32Max) :
    (manageSequence stod shown artifact data (some n) ynShow yn yn2 r = .outside ↔
        (n < data.indexShift ∨ n > data.lastIndex)) ∧
      (n < data.indexShift ∨ n > data.lastIndex →
        (manageSequence stod shown artifact data (some n) ynShow yn yn2 r).store data
          = some data) ∧
      (¬ (n < data.indexShift ∨ n > data.lastIndex) →
        0 ≤ n - data.indexShift ∧ n - data.indexShift < data.regina.length ∧
        (∃ line, data.regina[(n - data.indexShift).toNat]? = some line ∧ line.elA = n) ∧
        (∀ pos,
          manageSequence stod shown artifact data (some n) ynShow yn yn2 r
            ≠ .badPosition pos)) := by
  have hbody : manageSequence stod shown artifact data (some n) ynShow yn yn2 r =
      manageSequenceBody stod shown artifact data n ynShow yn yn2 r := by
    unfold manageSequence
    simp only [narrow32_of_int32 n hlo hhi]
  rw [hbody]
  exact manageSequenceBody_bounds stod shown artifact data n ynShow yn yn2 r hload

/-- C22 (amended) at Scenario D: on the loaded store `2..10` the lookup of 1 ends with the
out-of-bounds report. -/
theorem C22_lookup_bounds_witness :
    manageSequence stodDecimal none none (storeFrom 2 9) (some 1) 'y' 'y' 'n' blankReplies
        = .outside ∧
      (manageSequence stodDecimal none none (storeFrom 2 9) (some 1) 'y' 'y' 'n' blankReplies
          = .outside ↔
        ((1 : Int) < (storeFrom 2 9).indexShift ∨ (1 : Int) > (storeFrom 2 9).lastIndex)) :=
  ⟨by decide,
    (C22_lookup_bounds stodDecimal none none (storeFrom 2 9) 1 'y' 'y' 'n' blankReplies
      (loaded_of_check _ (by decide) (by decide) (by decide)) (by decide) (by decide)).1⟩

/-- C23 (claim as stated, refuted): the file with the records 2, 3, 4, 6, 7 (sequence 5
is missing) is accepted: `loadReginaFile` returns `true` on a store of five records with
`indexShift = 2` and `lastIndex = 7`.  The record at position 3 carries the number 6,
not `indexShift + 3`, and `lastIndex` is not `indexShift + size - 1`. -/
theorem C23_loader_counterexample :
    ¬ (∀ (lines : List reginaDataLine) (data : reginaData),
        loadReginaFile lines true emptyData = some (true, data) → data.regina ≠ [] →
        (∀ (k : Nat) (line : reginaDataLine), data.regina[k]? = some line →
          line.elA = (data.indexShift : Int) + k) ∧
        data.lastIndex = (data.indexShift : Int) + data.regina.length - 1) := by
  intro h
  have h5 := (h [mkLine 2 1 7, mkLine 3 1 7, mkLine 4 1 7, mkLine 6 1 7, mkLine 7 1 7]
    storeGap rfl (by decide)).2
  revert h5
  decide

/-- C23 (amended): the loader does not check the sequence numbers; it keeps the records in
the order of the stream and takes `indexShift` and `lastIndex` from the first and the
last record.  For every non-empty input stream whose records carry the contiguous
numbers `first, first + 1, ...` with `0 <= first < 65536`, `loadReginaFile` returns `true`
and the store satisfies: `regina[k].elA == indexShift + k` for every position `k`, and
`lastIndex == indexShift + size - 1`. -/
theorem C23_contiguous_input_loads_contiguous (lines : List reginaDataLine) (first : Int)
    (hne : lines ≠ []) (h0 : 0 ≤ first) (h16 : first < 65536)
    (hcont : ∀ (k : Nat) (line : reginaDataLine), lines[k]? = some line →
      line.elA = first + k) :
    ∃ data, loadReginaFile lines true emptyData = some (true, data) ∧
      data.regina = lines.map untagged ∧
      (data.indexShift : Int) = first ∧
      (∀ (k : Nat) (line : reginaDataLine), data.regina[k]? = some line →
        line.elA = (data.indexShift : Int) + k) ∧
      data.lastIndex = (data.indexShift : Int) + data.regina.length - 1 ∧
      Loaded data := by
  have hreg : (readStream lines emptyData).regina = lines.map untagged := by
    rw [readStream_regina]; rfl
  obtain ⟨front, rest, rfl⟩ : ∃ front rest, lines = front :: rest := by
    cases lines with
    | nil => exact absurd rfl hne
    | cons a l => exact ⟨a, l, rfl⟩
  have hhead : (readStream (front :: rest) emptyData).regina.head? = some (untagged front) := by
    rw [hreg]; rfl
  have hlastne : (front :: rest).map untagged ≠ [] := by simp
  have hlast : (readStream (front :: rest) emptyData).regina.getLast? =
      some (untagged ((front :: rest).getLast hne)) := by
    rw [hreg, List.getLast?_eq_getLast _ hlastne, List.getLast_map]
  have hfront : front.elA = first := by
    have := hcont 0 front (by simp)
    simpa using this
  have hback : ((front :: rest).getLast hne).elA = first + rest.length := by
    have hget : (front :: rest)[rest.length]? = some ((front :: rest).getLast hne) := by
      rw [List.getLast_eq_getElem]
      exact List.getElem?_eq_getElem (by simp)
    exact hcont rest.length _ hget
  have hshift : ((untagged front).elA % 65536).toNat = first.toNat := by
    have : (untagged front).elA = first := hfront
    rw [this]
    congr 1
    omega
  have hcontig : ∀ (k : Nat) (line : reginaDataLine),
      ((front :: rest).map untagged)[k]? = some line → line.elA = ((first.toNat : Nat) : Int) + k := by
    intro k line hk
    rw [List.getElem?_map] at hk
    cases hl : (front :: rest)[k]? with
    | none => simp [hl] at hk
    | some l =>
      simp only [hl, Option.map_some', Option.some.injEq] at hk
      have := hcont k l hl
      rw [← hk]
      show l.elA = _
      omega
  refine ⟨{ readStream (front :: rest) emptyData with
      indexShift := ((untagged front).elA % 65536).toNat
      lastIndex := (untagged ((front :: rest).getLast hne)).elA
      lastIndexSize :=
        if 1 ≤ (untagged ((front :: rest).getLast hne)).elA then
          (Nat.log 10 (untagged ((front :: rest).getLast hne)).elA.toNat + 1 : Nat)
        else 0 }, ?_, ?_, ?_, ?_, ?_, ?_⟩
  · simp only [loadReginaFile, hhead, hlast, Bool.true_eq_false, if_false]
  · exact hreg
  · simp only [hshift]; omega
  · simp only [hshift, hreg]
    exact hcontig
  · simp only [hshift, hreg, List.length_map, List.length_cons]
    show ((front :: rest).getLast hne).elA = _
    rw [hback]
    push_cast
    omega
  · refine ⟨?_, ?_, ?_⟩
    · simp only [hreg]; exact hlastne
    · simp only [hshift, hreg]
      exact hcontig
    · simp only [hshift, hreg, List.length_map, List.length_cons]
      show ((front :: rest).getLast hne).elA = _
      rw [hback]
      push_cast
      omega

/-- C23 (amended) on the file with the records `2..5`. -/
theorem C23_contiguous_input_loads_contiguous_witness :
    ∃ data, loadReginaFile [mkLine 2 1 7, mkLine 3 1 7, mkLine 4 0 4, mkLine 5 1 7] true
        emptyData = some (true, data) ∧
      data.regina = [mkLine 2 1 7, mkLine 3 1 7, mkLine 4 0 4, mkLine 5 1 7].map untagged ∧
      (data.indexShift : Int) = 2 ∧
      (∀ (k : Nat) (line : reginaDataLine), data.regina[k]? = some line →
        line.elA = (data.indexShift : Int) + k) ∧
      data.lastIndex = (data.indexShift : Int) + data.regina.length - 1 ∧
      Loaded data :=
  C23_contiguous_input_loads_contiguous [mkLine 2 1 7, mkLine 3 1 7, mkLine 4 0 4, mkLine 5 1 7]
    2 (by decide) (by decide) (by decide) (by
      intro k line hk
      match k, hk with
      | 0, hk => cases hk; rfl
      | 1, hk => cases hk; rfl
      | 2, hk => cases hk; rfl
      | 3, hk => cases hk; rfl
      | n + 4, hk => simp at hk)

/-- C24 (claim as stated, refuted): on the store loaded from the records `2..10`, record 6
ends in a cycle and its terminal value is the perfect number 6.  With an artifact that
holds the line of 6 the listing is `[6, 7]`; when `cycle.tmp` cannot be opened the
listing is empty: what is listed depends on what the external lookup returns. -/
theorem C24_perfect_number_counterexample :
    ¬ (∀ (stod : List Char → Option ℚ) (shown artifact artifact2 : Option (List (List Char)))
        (data : reginaData) (n : Int) (ynShow yn yn2 : Char) (r : Replies)
        (line : reginaDataLine),
        ¬ (n < data.indexShift ∨ n > data.lastIndex) →
        data.regina[(n - data.indexShift).toNat]? = some line →
        line.elB < 0 → line.elD ∈ s_perfectNumber →
        (manageSequenceBody stod shown artifact data n ynShow yn yn2 r).listed =
          (manageSequenceBody stod shown artifact2 data n ynShow yn yn2 r).listed) := by
  intro h
  have h6 := h stodDecimal none (some [("0 .   6 = 2 * 3").data]) none storeCycles 6
    'y' 'y' 'n' blankReplies (mkLine 6 (-1) 6) (by decide) (by decide) (by decide) (by decide)
  revert h6
  decide

/-- C24 (amended): in the cycle branch of `manageSequence` (seqinfo_double.cpp), when the
terminal value of the inspected record is one of the ten perfect-number constants, the
display step `manageCycleNumber` is skipped with its call of `LoadCycleSequence`
(whatever its prompt and its artifact would be), and `managexxx` is called with an empty
set: it is `managexxx` that invokes `LoadCycleSequence`, and the listing is the one of
`managexxx` for the artifact that call reads.  The first three statements are on the
function from the value `n` of `sequenceNumber` on (lines 886-916), the last on the whole
function for every number `std::stol` returns that line 885 narrows to `n`. -/
theorem C24_perfect_number_lists_from_lookup (stod : List Char → Option ℚ)
    (shown artifact : Option (List (List Char))) (data : reginaData) (n : Int)
    (ynShow yn yn2 : Char) (r : Replies) (line : reginaDataLine)
    (hin : ¬ (n < data.indexShift ∨ n > data.lastIndex))
    (hline : data.regina[(n - data.indexShift).toNat]? = some line)
    (hB : line.elB < 0) (hD : line.elD ∈ s_perfectNumber) :
    manageSequenceBody stod shown artifact data n ynShow yn yn2 r =
        .cycleEnded (managexxx stod artifact data (n - data.indexShift) [] yn yn2 r) ∧
      (∀ (shown2 : Option (List (List Char))) (ynShow2 : Char),
        manageSequenceBody stod shown2 artifact data n ynShow2 yn yn2 r =
          manageSequenceBody stod shown artifact data n ynShow yn yn2 r) ∧
      ((yn = 'y' ∨ yn = 'c' ∨ yn = 'f') → LoadCycleSequence stod artifact [] = none →
        manageSequenceBody stod shown artifact data n ynShow yn yn2 r = .cycleEnded .threw) ∧
      (∀ v : Int, narrow32 v = n →
        manageSequence stod shown artifact data (some v) ynShow yn yn2 r =
          .cycleEnded (managexxx stod artifact data (n - data.indexShift) [] yn yn2 r)) := by
  have h1 : ¬ line.elB = 1 := by omega
  have h0 : ¬ line.elB = 0 := by omega
  have hm : ∀ (shown2 : Option (List (List Char))) (ynShow2 : Char),
      manageSequenceBody stod shown2 artifact data n ynShow2 yn yn2 r =
        .cycleEnded (managexxx stod artifact data (n - data.indexShift) [] yn yn2 r) := by
    intro shown2 ynShow2
    unfold manageSequenceBody
    simp only [hin, if_false, hline, h1, h0, hB, hD, if_true]
  refine ⟨hm shown ynShow, fun shown2 ynShow2 => by rw [hm shown2 ynShow2, hm shown ynShow], ?_,
    fun v hv => by unfold manageSequence; simp only [hv]; exact hm shown ynShow⟩
  intro hyn hnone
  rw [hm shown ynShow]
  congr 1
  have hpos : ¬ (n - (data.indexShift : Int) < 0) := by omega
  have hno : ¬ (yn = 'n' ∨ (yn ≠ 'y' ∧ yn ≠ 'c' ∧ yn ≠ 'f')) := by
    rcases hyn with h | h | h <;> subst h <;> decide
  unfold managexxx
  simp only [hpos, if_false, hline, hno, if_true, hnone]

/-- C24 (amended) on the store loaded from the records `2..10`, whose record 6 ends in a
cycle with the perfect number 6 as terminal value. -/
theorem C24_perfect_number_lists_from_lookup_witness :
    (manageSequenceBody stodDecimal none (some [("0 .   6 = 2 * 3").data]) storeCycles 6
        'y' 'y' 'n' blankReplies).listed = some [6, 7] ∧
      manageSequenceBody stodDecimal none (some [("0 .   6 = 2 * 3").data]) storeCycles 6
          'y' 'y' 'n' blankReplies =
        .cycleEnded (managexxx stodDecimal (some [("0 .   6 = 2 * 3").data]) storeCycles
          (6 - storeCycles.indexShift) [] 'y' 'n' blankReplies) :=
  ⟨by decide,
    (C24_perfect_number_lists_from_lookup stodDecimal none (some [("0 .   6 = 2 * 3").data])
      storeCycles 6 'y' 'y' 'n' blankReplies (mkLine 6 (-1) 6) (by decide) (by decide)
      (by decide) (by decide)).1⟩

/-- C25 (claim as stated, refuted): on the freshly loaded store `2..10` (every tag
cleared), `advanced` with `uselist = false` and every prompt answered with an empty line
emits `2, ..., 8`; record 2 is in the scanned range and is emitted, and its tag is still
`false` after the run. -/
theorem C25_advanced_tags_counterexample :
    ¬ (∀ (data : reginaData) (r : Replies) (st : ScanState),
        (advanced data false r).2 = .done st →
        ∀ line ∈ scannedRange (advanced data false r).1 (readParams (reginaSize data) r),
          (line.ulist = true ↔ line.elA ∈ st.emitted)) := by
  intro h
  have h2 := h (storeFrom 2 9) blankReplies
    { emitted := [2, 3, 4, 5, 6, 7, 8], rcount := 7, crlf := true } (by decide)
    (mkLine 2 1 7) (by decide)
  revert h2
  decide

/-- C25 (amended): `advanced` (seqinfo_double.cpp) receives the store by `const`
reference and never writes the tag: after a run, with `uselist` false or true, the
store is the store before the run, so every record keeps the tag it had, emitted or not. -/
theorem C25_advanced_leaves_tags (data : reginaData) (uselist : Bool) (r : Replies) :
    (advanced data uselist r).1.regina.map (fun l => l.ulist) =
        data.regina.map (fun l => l.ulist) ∧
      (∀ (k : Nat) (line : reginaDataLine),
        (advanced data uselist r).1.regina[k]? = some line ↔ data.regina[k]? = some line) ∧
      (advanced data uselist r).1 = data := by
  rw [advanced_fst]
  exact ⟨rfl, fun _ _ => Iff.rfl, rfl⟩

/-- C26 (failing input): in `advanced` of `seqinfo.cpp`, with every other prompt answered
with an empty line, the reply `3` to the downdriver-extracts prompt leaves `u = 3` and
`v = 0`: line 412 assigns `v=s`, the minimum of the odd-abundant range, where the other
prompts assign the maximum from their own minimum (the reply `3` to the odd-abundant
prompt leaves `s = t = 3`).  With the reply `7` to the odd-abundant prompt before, `v`
is 7.  On the store `2..6` whose record 3 has three extracts the scan then emits
nothing, while `seqinfo_double.cpp` emits 3 for the same reply. -/
theorem C26_downdriver_single_number (strtod : List Char → ℚ) :
    (oldReadParams strtod 7 { oldBlankReplies with downDriver := ("3").data }).u = 3 ∧
      (oldReadParams strtod 7 { oldBlankReplies with downDriver := ("3").data }).v = 0 ∧
      (oldReadParams strtod 7 { oldBlankReplies with oddAbundant := ("3").data }).s = 3 ∧
      (oldReadParams strtod 7 { oldBlankReplies with oddAbundant := ("3").data }).t = 3 ∧
      (oldReadParams strtod 7
        { oldBlankReplies with oddAbundant := ("7").data, downDriver := ("3").data }).v = 7 ∧
      oldAdvanced strtod (seqdOf storeExtracts) (seqddOf storeExtracts) 7 false
          { oldBlankReplies with downDriver := ("3").data }
        = .done { emitted := [], rcount := 0, crlf := false } ∧
      (advanced storeExtracts false { blankReplies with downDriver := .one 3 }).2
        = .done { emitted := [3], rcount := 1, crlf := true } := by
  have hP : oldReadParams strtod 7 { oldBlankReplies with downDriver := ("3").data } =
      { defaultParams 2 6 with x := 30000, u := 3, v := 0 } := rfl
  refine ⟨rfl, rfl, rfl, rfl, rfl, ?_, by decide⟩
  unfold oldAdvanced
  rw [hP]
  decide

/-- C28 (failing input): with every prompt answered with an empty line on a store of the
records `2..10`, `seqinfo.cpp` leaves the iteration-count range `[0, 30000]` and
`seqinfo_double.cpp` leaves `[0, 3000]`; the modulus pair, the begin of the range and the
fourteen other ranges are equal.  On the store `2..5` whose record 3 has 5000 terms, with
the range `2 3`, `seqinfo.cpp` emits `[2, 3]` and `seqinfo_double.cpp` emits `[2]`. -/
theorem C28_iteration_defaults_differ (strtod : List Char → ℚ) :
    oldReadParams strtod 11 oldBlankReplies = { defaultParams 2 10 with x := 30000 } ∧
      readParams (reginaSize (storeFrom 2 9)) blankReplies = defaultParams 2 8 ∧
      (oldReadParams strtod 11 oldBlankReplies).x = 30000 ∧
      (readParams (reginaSize (storeFrom 2 9)) blankReplies).x = 3000 ∧
      oldAdvanced strtod (seqdOf storeLongRun) (seqddOf storeLongRun) 6 false
          { oldBlankReplies with range := ("2 3").data }
        = .done { emitted := [2, 3], rcount := 2, crlf := true } ∧
      (advanced storeLongRun false { blankReplies with range := .two 2 3 }).2
        = .done { emitted := [2], rcount := 1, crlf := true } := by
  have hP : oldReadParams strtod 6 { oldBlankReplies with range := ("2 3").data } =
      { defaultParams 2 3 with x := 30000 } := rfl
  refine ⟨rfl, by decide, rfl, by decide, ?_, by decide⟩
  unfold oldAdvanced
  rw [hP]
  decide

/-- C29 (failing input): on the loaded store `2..10`, the reply `0` to the `a (mod b)`
prompt leaves `b = 0` in both programs, and so does the reply `1 0`; the first test
`a == n % b` of the scan divides by zero.  On a store of one record `seqinfo_double.cpp`
clamps `b` to `indexMax = 0` even when the reply is an empty line. -/
theorem C29_modulus_zero_divides (strtod : List Char → ℚ) :
    (readParams (reginaSize (storeFrom 2 9)) { blankReplies with modulus := .one 0 }).b = 0 ∧
      (advanced (storeFrom 2 9) false { blankReplies with modulus := .one 0 }).2
        = .divideFault { emitted := [], rcount := 0, crlf := false } ∧
      (advanced (storeFrom 2 9) false { blankReplies with modulus := .two 1 0 }).2
        = .divideFault { emitted := [], rcount := 0, crlf := false } ∧
      (readParams (reginaSize (storeFrom 2 1)) blankReplies).b = 0 ∧
      (advanced (storeFrom 2 1) false blankReplies).2
        = .divideFault { emitted := [], rcount := 0, crlf := false } ∧
      (oldReadParams strtod 11 { oldBlankReplies with modulus := ("0").data }).b = 0 ∧
      oldAdvanced strtod (seqdOf (storeFrom 2 9)) (seqddOf (storeFrom 2 9)) 11 false
          { oldBlankReplies with modulus := ("0").data }
        = .divideFault { emitted := [], rcount := 0, crlf := false } ∧
      oldAdvanced strtod (seqdOf (storeFrom 2 9)) (seqddOf (storeFrom 2 9)) 11 false
          { oldBlankReplies with modulus := ("1 0").data }
        = .divideFault { emitted := [], rcount := 0, crlf := false } := by
  have hP : oldReadParams strtod 11 { oldBlankReplies with modulus := ("0").data } =
      { defaultParams 2 10 with b := 0, x := 30000 } := rfl
  have hQ : oldReadParams strtod 11 { oldBlankReplies with modulus := ("1 0").data } =
      { defaultParams 2 10 with a := 1, b := 0, x := 30000 } := rfl
  refine ⟨by decide, by decide, by decide, by decide, by decide, rfl, ?_, ?_⟩
  · unfold oldAdvanced
    rw [hP]
    decide
  · unfold oldAdvanced
    rw [hQ]
    decide

/-- C30: the load-time counters of seqinfo_double.cpp partition the store.  After the
loader has read any sequence of fewer than `2^32` records (the counters are `uint32_t`)
into a fresh store, `pcount` is the number of records with `elB > 0`, `ocount` the number
with `elB == 0`, `ccount` the number with `elB < 0`, and `pcount + ocount + ccount` is the
number of stored records. -/
theorem C30_counters_partition (lines : List reginaDataLine) (hsize : lines.length < 2 ^ 32) :
    (readStream lines emptyData).regina.length = lines.length ∧
      (readStream lines emptyData).pcount =
        (lines.filter (fun l => decide (l.elB > 0))).length ∧
      (readStream lines emptyData).ocount =
        (lines.filter (fun l => decide (l.elB = 0))).length ∧
      (readStream lines emptyData).ccount =
        (lines.filter (fun l => decide (l.elB < 0))).length ∧
      (readStream lines emptyData).pcount + (readStream lines emptyData).ocount +
          (readStream lines emptyData).ccount = (readStream lines emptyData).regina.length := by
  obtain ⟨hp, ho, hc⟩ := readStream_counts lines emptyData (by decide) (by decide) (by decide)
  have hpart := kinds_partition lines
  have h1 := List.length_filter_le (fun l : reginaDataLine => decide (l.elB > 0)) lines
  have h2 := List.length_filter_le (fun l : reginaDataLine => decide (l.elB = 0)) lines
  have h3 := List.length_filter_le (fun l : reginaDataLine => decide (l.elB < 0)) lines
  have hlen : (readStream lines emptyData).regina.length = lines.length := by
    rw [readStream_regina]
    simp [emptyData]
  have e0 : emptyData.pcount = 0 ∧ emptyData.ocount = 0 ∧ emptyData.ccount = 0 :=
    ⟨rfl, rfl, rfl⟩
  rw [e0.1, Nat.zero_add, Nat.mod_eq_of_lt (by omega)] at hp
  rw [e0.2.1, Nat.zero_add, Nat.mod_eq_of_lt (by omega)] at ho
  rw [e0.2.2, Nat.zero_add, Nat.mod_eq_of_lt (by omega)] at hc
  refine ⟨hlen, hp, ho, hc, ?_⟩
  rw [hp, ho, hc, hlen]
  exact hpart

/-- C30 on a file of three records, one of each kind: the three counters are 1 and their
sum is the number of stored records. -/
theorem C30_counters_partition_witness :
    (readStream [mkLine 2 1 7, mkLine 3 (-1) 6, mkLine 4 0 4] emptyData).pcount = 1 ∧
      (readStream [mkLine 2 1 7, mkLine 3 (-1) 6, mkLine 4 0 4] emptyData).ocount = 1 ∧
      (readStream [mkLine 2 1 7, mkLine 3 (-1) 6, mkLine 4 0 4] emptyData).ccount = 1 ∧
      (readStream [mkLine 2 1 7, mkLine 3 (-1) 6, mkLine 4 0 4] emptyData).pcount +
          (readStream [mkLine 2 1 7, mkLine 3 (-1) 6, mkLine 4 0 4] emptyData).ocount +
          (readStream [mkLine 2 1 7, mkLine 3 (-1) 6, mkLine 4 0 4] emptyData).ccount
        = (readStream [mkLine 2 1 7, mkLine 3 (-1) 6, mkLine 4 0 4] emptyData).regina.length :=
  ⟨by decide, by decide, by decide,
    (C30_counters_partition [mkLine 2 1 7, mkLine 3 (-1) 6, mkLine 4 0 4] (by decide)).2.2.2.2⟩

/-- C27: the two filter implementations agree.  For every store of `seqinfo_double.cpp`
with contiguous sequence numbers that start at 2 (and a size `advanced` accepts), arrays
of `seqinfo.cpp` that hold the same records, the same parameter values with `b >= 1`, and
every range `2 <= c <= d` inside the store, the `show` flag loop of `seqinfo.cpp` and the
scan of `seqinfo_double.cpp` end the same way: both run to their end, emit the same list
of sequence numbers and report the same count, the length of that list. -/
theorem C27_filters_agree (data : reginaData) (seqd : Nat → seqdata) (seqdd : Nat → seqdatad)
    (uselist : Bool) (P : Params) (hload : Loaded data) (hshift : data.indexShift = 2)
    (hsize : reginaSize data < int32Max.toNat) (hsame : SameStore data seqd seqdd)
    (hb : 1 ≤ P.b) (hc : 2 ≤ P.c) (hcd : P.c ≤ P.d) (hd : P.d ≤ data.lastIndex) :
    oldAdvancedScan seqd seqdd uselist P = advancedScan data uselist P ∧
      ∃ st, advancedScan data uselist P = .done st ∧
        oldAdvancedScan seqd seqdd uselist P = .done st ∧
        st.emitted = ((scannedRange data P).filter (accepts uselist P)).map (fun l => l.elA) ∧
        st.rcount = st.emitted.length := by
  have hlast := hload.last
  have hne : data.regina.length ≠ 0 := by
    intro h0
    exact hload.nonempty (List.length_eq_zero.mp h0)
  have hlen : data.regina.length < 2 ^ 32 := by
    unfold reginaSize at hsize
    simp only [hne, if_false, int32Max] at hsize
    have : (2147483647 : Int).toNat = 2147483647 := rfl
    omega
  have hin : InRange data P := by
    refine ⟨by rw [hshift]; exact_mod_cast hc, by omega, ?_⟩
    omega
  have hrange := length_scannedRange_le data P
  have hagree : oldAdvancedScan seqd seqdd uselist P = advancedScan data uselist P := by
    rw [advancedScan_eq_runLines data uselist P hin]
    unfold oldAdvancedScan
    rw [← scannedRange_elA data hload P hin]
    apply oldRun_eq_runLines
    · intro line hl
      obtain ⟨n, hn1, _, hr⟩ := (mem_scannedRange_iff data P hin line).mp hl
      have hA := recordOf_elA data hload n line hr
      unfold recordOf at hr
      have hn : ¬ (n < (data.indexShift : Int)) := by rw [hshift]; push_cast; omega
      simp only [hn, if_false] at hr
      have := hsame _ line hr
      have hidx : (n - (data.indexShift : Int)).toNat + 2 = line.elA.toNat := by
        rw [hshift, hA]; push_cast; omega
      rw [hidx] at this
      exact this
    · simp only []
      omega
  obtain ⟨st, hst, hem, _, _⟩ := advancedScan_emits data uselist P hload hb hin
  refine ⟨hagree, st, hst, by rw [hagree]; exact hst, hem, ?_⟩
  rw [advancedScan_eq_runLines data uselist P hin] at hst
  exact runLines_visit_rcount uselist P _ _ st rfl (by simp only []; omega) hst

/-- C27 on the loaded store `2..5` with the odd numbers of `[2, 5]` asked for: both
programs emit `[3, 5]` and count 2. -/
theorem C27_filters_agree_witness :
    oldAdvancedScan (seqdOf (storeFrom 2 4)) (seqddOf (storeFrom 2 4)) false
        { defaultParams 2 5 with a := 1, b := 2 }
      = .done { emitted := [3, 5], rcount := 2, crlf := true } ∧
    advancedScan (storeFrom 2 4) false { defaultParams 2 5 with a := 1, b := 2 }
      = .done { emitted := [3, 5], rcount := 2, crlf := true } ∧
    oldAdvancedScan (seqdOf (storeFrom 2 4)) (seqddOf (storeFrom 2 4)) false
        { defaultParams 2 5 with a := 1, b := 2 }
      = advancedScan (storeFrom 2 4) false { defaultParams 2 5 with a := 1, b := 2 } :=
  ⟨by decide, by decide,
    (C27_filters_agree (storeFrom 2 4) (seqdOf (storeFrom 2 4)) (seqddOf (storeFrom 2 4)) false
      { defaultParams 2 5 with a := 1, b := 2 }
      (loaded_of_check _ (by decide) (by decide) (by decide)) (by decide) (by decide)
      (sameStore_seqdOf _) (by decide) (by decide) (by decide) (by decide)).1⟩

end SeqInfo
